import Mathlib

/-!
# three-dxf-viewer: line / polyline drawing

A shallow embedding of `src/entities/lineEntity.js`,
`src/entities/baseEntity/geometryHelper.js` and `src/utils/transforms.js`, with the
parts of the rendering library they call.

Numbers are JavaScript numbers over exact arithmetic: a finite value is a
rational, and the three non-finite values `Infinity`, `-Infinity` and `NaN`
are kept, so that a division by zero is visible in the model. The rounding of
an arithmetic operation to double precision and the sign of zero are not
modelled. The conversion to single precision that a `Float32Array` applies to
every number stored in it is modelled (`Math.fround`), so a geometry's
position buffer holds single-precision values.
-/

namespace DxfViewer

/-! ## JavaScript numbers -/

/-- A JavaScript number: a finite (rational) value, `Infinity`, `-Infinity` or `NaN`. -/
inductive JSNum where
  | fin (q : ℚ)
  | pinf
  | ninf
  | nan
  deriving DecidableEq

namespace JSNum

instance : Inhabited JSNum := ⟨fin 0⟩
instance : OfNat JSNum n := ⟨fin n⟩

/-- Unary minus. -/
def neg : JSNum → JSNum
  | fin q => fin (-q)
  | pinf => ninf
  | ninf => pinf
  | nan => nan

/-- Addition: `Infinity + -Infinity` is `NaN`. -/
def add : JSNum → JSNum → JSNum
  | fin a, fin b => fin (a + b)
  | nan, _ => nan
  | _, nan => nan
  | pinf, ninf => nan
  | ninf, pinf => nan
  | pinf, _ => pinf
  | ninf, _ => ninf
  | _, pinf => pinf
  | _, ninf => ninf

/-- Subtraction `a - b`. -/
def sub (a b : JSNum) : JSNum := add a (neg b)

/-- The infinity with the sign of `q`, and `NaN` for `q = 0` (this is `q * Infinity`). -/
def signedInf (q : ℚ) : JSNum :=
  if 0 < q then pinf else if q < 0 then ninf else nan

/-- Multiplication: `0 * Infinity` is `NaN`. -/
def mul : JSNum → JSNum → JSNum
  | fin a, fin b => fin (a * b)
  | nan, _ => nan
  | _, nan => nan
  | fin a, pinf => signedInf a
  | fin a, ninf => signedInf (-a)
  | pinf, fin b => signedInf b
  | ninf, fin b => signedInf (-b)
  | pinf, pinf => pinf
  | ninf, ninf => pinf
  | pinf, ninf => ninf
  | ninf, pinf => ninf

/-- Division: a finite non-zero value over zero is an infinity, `0 / 0` is `NaN`;
nothing is raised. -/
def div : JSNum → JSNum → JSNum
  | fin a, fin b => if b = 0 then signedInf a else fin (a / b)
  | nan, _ => nan
  | _, nan => nan
  | fin _, pinf => fin 0
  | fin _, ninf => fin 0
  | pinf, fin b => if 0 ≤ b then pinf else ninf
  | ninf, fin b => if 0 ≤ b then ninf else pinf
  | pinf, pinf => nan
  | pinf, ninf => nan
  | ninf, pinf => nan
  | ninf, ninf => nan

instance : Neg JSNum := ⟨neg⟩
instance : Add JSNum := ⟨add⟩
instance : Sub JSNum := ⟨sub⟩
instance : Mul JSNum := ⟨mul⟩
instance : Div JSNum := ⟨div⟩

/-- The comparison `a < b`; false as soon as one side is `NaN`. -/
def lt : JSNum → JSNum → Bool
  | fin a, fin b => decide (a < b)
  | nan, _ => false
  | _, nan => false
  | ninf, ninf => false
  | ninf, _ => true
  | _, ninf => false
  | pinf, _ => false
  | fin _, pinf => true

/-- Truthiness of a number: `0` and `NaN` are falsy. -/
def truthy : JSNum → Bool
  | fin q => decide (q ≠ 0)
  | pinf => true
  | ninf => true
  | nan => false

/-- The expression `a || b` on numbers. -/
def or (a b : JSNum) : JSNum := if a.truthy then a else b

end JSNum

/-- The value of an argument or property that may be `undefined`, where `undefined`
stands for the number `d` (a default parameter, or the `NaN` of arithmetic). -/
def orUndefined (o : Option JSNum) (d : JSNum) : JSNum := o.getD d

namespace Math

/-- The function `Math.min` on two arguments: `NaN` as soon as one argument is `NaN`. -/
def min : JSNum → JSNum → JSNum
  | .nan, _ => .nan
  | _, .nan => .nan
  | a, b => if JSNum.lt b a then b else a

/-- The function `Math.max` on two arguments: `NaN` as soon as one argument is `NaN`. -/
def max : JSNum → JSNum → JSNum
  | .nan, _ => .nan
  | _, .nan => .nan
  | a, b => if JSNum.lt a b then b else a

/-- The call `Math.max(a, b, c)`. -/
def max3 (a b c : JSNum) : JSNum := max (max a b) c

end Math

/-! ## Vectors -/

/-- A `THREE.Vector3`. -/
structure Vector3 where
  x : JSNum
  y : JSNum
  z : JSNum
  deriving DecidableEq

namespace Vector3

/-- The constructor `new Vector3(x, y, z)`: each argument defaults to `0` when `undefined`. -/
def new (x y z : Option JSNum) : Vector3 :=
  ⟨orUndefined x 0, orUndefined y 0, orUndefined z 0⟩

/-- The method `multiplyScalar`. -/
def multiplyScalar (v : Vector3) (s : JSNum) : Vector3 := ⟨v.x * s, v.y * s, v.z * s⟩

/-- The method `addVectors`, as a function of the two vectors. -/
def addVectors (a b : Vector3) : Vector3 := ⟨a.x + b.x, a.y + b.y, a.z + b.z⟩

/-- The method `subVectors`, as a function of the two vectors. -/
def subVectors (a b : Vector3) : Vector3 := ⟨a.x - b.x, a.y - b.y, a.z - b.z⟩

/-- The method `min`: componentwise `Math.min`. -/
def min (a b : Vector3) : Vector3 := ⟨Math.min a.x b.x, Math.min a.y b.y, Math.min a.z b.z⟩

/-- The method `max`: componentwise `Math.max`. -/
def max (a b : Vector3) : Vector3 := ⟨Math.max a.x b.x, Math.max a.y b.y, Math.max a.z b.z⟩

/-- Componentwise product, as `Object3D` applies `scale` to a geometry's points. -/
def multiply (a b : Vector3) : Vector3 := ⟨a.x * b.x, a.y * b.y, a.z * b.z⟩

end Vector3

/-! ## GeometryHelper.generatePointIndex -/

/-- The method `GeometryHelper.generatePointIndex`: the loop `for (i = 1; i < points.length; i++)`
pushes `i - 1` and `i` onto `index`. Only the length of `points` is read. -/
def generatePointIndex {α : Type} (points : List α) : List Nat :=
  (List.range' 1 (points.length - 1)).foldl (fun index i => index ++ [i - 1, i]) []

/-- The constructor `new Uint16Array(values)`: each value is stored modulo `2^16`. -/
def Uint16Array (values : List Nat) : List Nat := values.map (· % 65536)

/-! ## Single precision -/

/-- The integer nearest to `x`, the even one of the two when `x` lies halfway between
two integers: the rounding mode `roundTiesToEven`. -/
def roundTiesToEven (x : ℚ) : ℤ :=
  if x - ⌊x⌋ < 1 / 2 then ⌊x⌋
  else if 1 / 2 < x - ⌊x⌋ then ⌊x⌋ + 1
  else if ⌊x⌋ % 2 = 0 then ⌊x⌋ else ⌊x⌋ + 1

/-- The exponent `e` such that the single-precision values around the magnitude `a` are
the multiples of `2 ^ e`: a value has 24 significant bits, and the smallest exponent of
a normal value is `-126` (below it the values are subnormal, multiples of `2 ^ -149`). -/
def float32Spacing (a : ℚ) : ℤ := max (Int.log 2 a) (-126) - 23

/-- The multiple of the spacing nearest to the magnitude `a`, ties to even: the
single-precision value nearest to `a` when the exponent range is not bounded above. -/
def float32Nearest (a : ℚ) : ℚ :=
  roundTiesToEven (a / 2 ^ float32Spacing a) * 2 ^ float32Spacing a

/-- The finite value nearest to `x` in single precision: the sign of `x` with the
nearest magnitude. -/
def froundQ (x : ℚ) : ℚ := if x < 0 then -float32Nearest (-x) else float32Nearest x

/-- The function `Math.fround`, the conversion a `Float32Array` applies to a number it is
given: the nearest single-precision value, ties to even; a value that rounds to a
magnitude of `2 ^ 128` or more becomes an infinity; `NaN` and the infinities are kept. -/
def Math.fround : JSNum → JSNum
  | .fin q =>
    if 2 ^ 128 ≤ froundQ q then .pinf
    else if froundQ q ≤ -2 ^ 128 then .ninf
    else .fin (froundQ q)
  | x => x

/-- The element type of the typed array behind a `position` attribute: `setFromPoints`
creates a `Float32Array`; an attribute built on a `Float64Array` holds double-precision
numbers, which are the numbers of the program themselves. -/
inductive ArrayType where
  | float32
  | float64
  deriving DecidableEq

/-- The value an element of the typed array holds after the assignment `array[i] = x`. -/
def ArrayType.store : ArrayType → JSNum → JSNum
  | .float32, x => Math.fround x
  | .float64, x => x

/-- The method `BufferAttribute.setXYZ(i, v.x, v.y, v.z)`: the three numbers the array
holds for point `i` afterwards. -/
def ArrayType.setXYZ (t : ArrayType) (v : Vector3) : Vector3 :=
  ⟨t.store v.x, t.store v.y, t.store v.z⟩

/-! ## Boxes and buffer geometries (the rendering substrate) -/

/-- A `THREE.Box3`: an axis-aligned box given by its two corners. -/
structure Box3 where
  min : Vector3
  max : Vector3
  deriving DecidableEq

namespace Box3

/-- The method `makeEmpty`: `min` is `+Infinity` and `max` is `-Infinity` on every axis. -/
def makeEmpty : Box3 := ⟨⟨.pinf, .pinf, .pinf⟩, ⟨.ninf, .ninf, .ninf⟩⟩

/-- The method `expandByPoint`: `this.min.min(point); this.max.max(point)`. -/
def expandByPoint (b : Box3) (point : Vector3) : Box3 := ⟨b.min.min point, b.max.max point⟩

/-- The methods `setFromPoints` and `setFromBufferAttribute`: `makeEmpty()`, then
`expandByPoint` for every point in order. -/
def setFromPoints (points : List Vector3) : Box3 := points.foldl expandByPoint makeEmpty

/-- The method `isEmpty`: `max < min` on some axis. -/
def isEmpty (b : Box3) : Bool :=
  JSNum.lt b.max.x b.min.x || JSNum.lt b.max.y b.min.y || JSNum.lt b.max.z b.min.z

/-- The method `getCenter`: the origin for an empty box, else `(min + max) * 0.5`. -/
def getCenter (b : Box3) : Vector3 :=
  if b.isEmpty then ⟨0, 0, 0⟩ else (Vector3.addVectors b.min b.max).multiplyScalar (.fin (1 / 2))

/-- The method `getSize`: the zero vector for an empty box, else `max - min`. -/
def getSize (b : Box3) : Vector3 :=
  if b.isEmpty then ⟨0, 0, 0⟩ else Vector3.subVectors b.max b.min

end Box3

/-- A `THREE.Matrix4`, written row by row as in `Matrix4.set`. -/
structure Matrix4 where
  n11 : JSNum
  n12 : JSNum
  n13 : JSNum
  n14 : JSNum
  n21 : JSNum
  n22 : JSNum
  n23 : JSNum
  n24 : JSNum
  n31 : JSNum
  n32 : JSNum
  n33 : JSNum
  n34 : JSNum
  n41 : JSNum
  n42 : JSNum
  n43 : JSNum
  n44 : JSNum

namespace Matrix4

/-- The method `makeTranslation(x, y, z)`. -/
def makeTranslation (x y z : JSNum) : Matrix4 :=
  ⟨1, 0, 0, x,
   0, 1, 0, y,
   0, 0, 1, z,
   0, 0, 0, 1⟩

/-- The method `makeScale(x, y, z)`. -/
def makeScale (x y z : JSNum) : Matrix4 :=
  ⟨x, 0, 0, 0,
   0, y, 0, 0,
   0, 0, z, 0,
   0, 0, 0, 1⟩

end Matrix4

/-- The method `Vector3.applyMatrix4`: the affine image of the point, divided by the
perspective component `w`. -/
def Vector3.applyMatrix4 (v : Vector3) (m : Matrix4) : Vector3 :=
  let w := 1 / (m.n41 * v.x + m.n42 * v.y + m.n43 * v.z + m.n44)
  ⟨(m.n11 * v.x + m.n12 * v.y + m.n13 * v.z + m.n14) * w,
   (m.n21 * v.x + m.n22 * v.y + m.n23 * v.z + m.n24) * w,
   (m.n31 * v.x + m.n32 * v.y + m.n33 * v.z + m.n34) * w⟩

/-- A JavaScript error raised by an operation. -/
inductive JSError where
  | typeError
  deriving DecidableEq

/-- A `THREE.BufferGeometry` as this program uses it: the `position` attribute (one
vector per point), the optional index, the bounding box once it has been computed,
whether the `lineDistance` attribute is present (its values are path lengths, which
need square roots and are not modelled), and the element type of the typed array that
holds `position`. -/
structure BufferGeometry where
  position : List Vector3
  index : Option (List Nat)
  boundingBox : Option Box3
  lineDistance : Bool
  arrayType : ArrayType
  deriving DecidableEq

namespace BufferGeometry

/-- The call `new BufferGeometry().setFromPoints(points)`: for each point it pushes
`point.x, point.y, point.z || 0`, and the numbers pushed become the content of a
`Float32BufferAttribute`, a `Float32Array`, which converts each to single precision;
reading `.x` of an `undefined` element is a `TypeError`. The result is the content of the
array, point by point. -/
def setFromPoints : List (Option Vector3) → Except JSError (List Vector3)
  | [] => .ok []
  | none :: _ => .error .typeError
  | some point :: rest =>
    match setFromPoints rest with
    | .ok position =>
      .ok (ArrayType.float32.setXYZ ⟨point.x, point.y, JSNum.or point.z 0⟩ :: position)
    | .error e => .error e

/-- The geometry `setFromPoints` returns: a fresh geometry whose `position` attribute is
the `Float32Array` of the given content. -/
def ofPosition (position : List Vector3) : BufferGeometry :=
  { position := position, index := none, boundingBox := none, lineDistance := false,
    arrayType := .float32 }

/-- The method `setIndex`. -/
def setIndex (g : BufferGeometry) (index : List Nat) : BufferGeometry :=
  { g with index := some index }

/-- The method `computeBoundingBox`: the box is set from the `position` attribute. -/
def computeBoundingBox (g : BufferGeometry) : BufferGeometry :=
  { g with boundingBox := some (Box3.setFromPoints g.position) }

/-- The box held in `geometry.boundingBox` (the empty box stands for `null`, which is
never read by this program). -/
def box (g : BufferGeometry) : Box3 := g.boundingBox.getD Box3.makeEmpty

/-- The method `applyMatrix4`: every point of `position` is read, transformed, and
written back into the typed array with `setXYZ`; a bounding box that was already computed
is then computed again (in place: a reference to it taken earlier sees the new box). -/
def applyMatrix4 (g : BufferGeometry) (m : Matrix4) : BufferGeometry :=
  let g1 : BufferGeometry :=
    { g with position :=
        g.position.map (fun v => ArrayType.setXYZ g.arrayType (Vector3.applyMatrix4 v m)) }
  match g1.boundingBox with
  | some _ => g1.computeBoundingBox
  | none => g1

/-- The method `translate(x, y, z)`. -/
def translate (g : BufferGeometry) (x y z : JSNum) : BufferGeometry :=
  g.applyMatrix4 (Matrix4.makeTranslation x y z)

/-- The method `scale(x, y, z)`. -/
def scale (g : BufferGeometry) (x y z : JSNum) : BufferGeometry :=
  g.applyMatrix4 (Matrix4.makeScale x y z)

/-- The method `toNonIndexed` on an indexed geometry: a new geometry whose points are the
indexed points, in index order (an index outside the buffer reads `NaN`s). The points
are copied into a typed array of the same element type, which changes none of them. -/
def toNonIndexed (g : BufferGeometry) : BufferGeometry :=
  match g.index with
  | none => g
  | some indices =>
    { position := indices.map (fun i => g.position.getD i ⟨.nan, .nan, .nan⟩),
      index := none, boundingBox := none, lineDistance := false, arrayType := g.arrayType }

end BufferGeometry

/-! ## GeometryHelper.offsetByBoundingBox -/

/-- The object `{ position, scale }` returned by `offsetByBoundingBox`. -/
structure TransformData where
  position : Vector3
  scale : Vector3
  deriving DecidableEq

/-- The method `GeometryHelper.offsetByBoundingBox`. The geometry is mutated in place: the
result pairs the geometry as it is left with the returned `{ position, scale }`. The
local `boundingBox` is a reference to `geometry.boundingBox`, so `getSize` reads the box
as `translate` has left it. -/
def offsetByBoundingBox (geometry : BufferGeometry) : BufferGeometry × TransformData :=
  let geometry := geometry.computeBoundingBox
  let center := geometry.box.getCenter
  let geometry := geometry.translate (-center.x) (-center.y) (-center.z)
  let size := geometry.box.getSize
  let maxSize := Math.max3 size.x size.y size.z
  let geometry := geometry.scale (1 / maxSize) (1 / maxSize) (1 / maxSize)
  let geometry := geometry.computeBoundingBox
  (geometry, { position := center, scale := (Vector3.mk 1 1 1).multiplyScalar maxSize })

/-- The method `GeometryHelper.fixMeshToDrawDashedLines` on the geometry of a line: an
indexed geometry is replaced by its non-indexed copy, then `computeLineDistances` adds
the `lineDistance` attribute (which it does on a non-indexed geometry only). -/
def fixMeshToDrawDashedLines (geometry : BufferGeometry) : BufferGeometry :=
  let geometry := if geometry.index.isSome then geometry.toNonIndexed else geometry
  if geometry.index.isNone then { geometry with lineDistance := true } else geometry

/-! ## The parsed document -/

/-- A parsed point or vertex: coordinates and, on a polyline vertex, a bulge; each
property may be absent (`undefined`). -/
structure Vertex where
  x : Option JSNum
  y : Option JSNum
  z : Option JSNum
  bulge : Option JSNum
  deriving DecidableEq

/-- A parsed entity. `handle` stands for the identity of the entity object (two distinct
objects have distinct handles); the other fields are the properties this program reads,
each of which may be absent. -/
structure Entity where
  handle : Nat
  type : String
  lineTypeName : Option String
  start : Option Vertex
  end_ : Option Vertex
  vertices : Option (List Vertex)
  closed : Option Bool
  deriving DecidableEq

/-- A value found under a name in `tables.ltypes`, as far as the program reads it: its
`pattern` property, absent on a value that has none. -/
structure LType where
  pattern : Option (List JSNum)
  deriving DecidableEq

/-- The object `data.tables`: `ltypes` gives the entry the table itself holds under a
line-type name (its own property), if any. -/
structure Tables where
  ltypes : String → Option LType

/-- The names of the properties every plain object inherits from `Object.prototype`. -/
def Object.prototype : List String :=
  ["constructor", "__defineGetter__", "__defineSetter__", "hasOwnProperty",
   "__lookupGetter__", "__lookupSetter__", "isPrototypeOf", "propertyIsEnumerable",
   "toString", "valueOf", "__proto__", "toLocaleString"]

/-- The property read `tables.ltypes[name]` on the plain object `ltypes`: the entry the
table holds under the name; else, for a name of `Object.prototype`, the inherited value
(a function, or the prototype itself under `__proto__`), which is truthy and has no
`pattern`; else `undefined`. -/
def Tables.get (tables : Tables) (name : String) : Option LType :=
  match tables.ltypes name with
  | some ltype => some ltype
  | none => if name ∈ Object.prototype then some { pattern := none } else none

/-- A material handle, as the material resolver returns it; `type` is its style tag. -/
structure Material where
  type : String
  id : Nat
  deriving DecidableEq

/-- The unit of drawing data `{ geometry, material, position, scale }`. -/
structure DrawResult where
  geometry : BufferGeometry
  material : Material
  position : Vector3
  scale : Vector3
  deriving DecidableEq

/-- A `THREE.Line` as `draw` builds it. -/
structure Line where
  geometry : BufferGeometry
  material : Material
  userData : Entity
  position : Vector3
  scale : Vector3
  deriving DecidableEq

/-- A `THREE.Group`. -/
structure Group where
  name : String
  children : List Line
  deriving DecidableEq

/-- One call of the arc tessellator: `createArcoFromPolyline.default(from, to, bulge)`. -/
structure ArcCall where
  fromP : List JSNum
  toP : List JSNum
  bulge : JSNum
  deriving DecidableEq

/-- The arc tessellator `dxf/lib/util/createArcForLWPolyline`, an external function:
from two points (as arrays) and a bulge to an array of points (each an array). -/
abbrev Tessellator := List JSNum → List JSNum → JSNum → List (List JSNum)

/-- The collaborators a `LineEntity` holds: `this.data.tables`, the material resolver
`this._colorHelper.getMaterial`, the visibility predicate `this._hideEntity`, and
the imported arc tessellator. -/
structure LineEntity where
  tables : Tables
  getMaterial : Entity → String → Tables → Material
  _hideEntity : Entity → Bool
  createArcoFromPolyline : Tessellator

/-! ## LineEntity._getPolyLinePoints -/

/-- The points built so far by `_getPolyLinePoints` (an element may be `undefined`),
with the calls made to the arc tessellator. -/
structure PolyLinePoints where
  points : List (Option Vector3)
  arcCalls : List ArcCall
  deriving DecidableEq

/-- Truthiness of a `bulge` property: absent, `0` and `NaN` are falsy. -/
def bulgeTruthy (bulge : Option JSNum) : Option JSNum :=
  match bulge with
  | some b => if b.truthy then some b else none
  | none => none

/-- The point pushed for one array `arc` of the tessellator:
`new Vector3(extrusionZ * arc[0], arc[1], arc.length > 2 ? arc[2] : 0)`. -/
def arcPoint (extrusionZ : JSNum) (arc : List JSNum) : Vector3 :=
  Vector3.new (some (extrusionZ * orUndefined arc[0]? .nan)) arc[1]?
    (if arc.length > 2 then arc[2]? else some 0)

/-- The body of the loop of `_getPolyLinePoints` at index `i`, with `il = vertices.length`.
The loop runs for `i < il - 1` only, where both vertices exist and `il - 2` is not
negative. -/
def _getPolyLinePoints.body (arc : Tessellator) (vertices : List Vertex) (extrusionZ : JSNum)
    (il : Nat) (st : PolyLinePoints) (i : Nat) : PolyLinePoints :=
  match vertices[i]?, vertices[i + 1]? with
  | some fromv, some tov =>
    let bulge := fromv.bulge
    let fromP := Vector3.new fromv.x fromv.y fromv.z
    let toP := Vector3.new tov.x tov.y tov.z
    let st := { st with points := st.points ++ [some fromP] }
    let st :=
      match bulgeTruthy bulge with
      | some b =>
        let arcPoints := arc [fromP.x, fromP.y, fromP.z] [toP.x, toP.y, toP.z] b
        { points := st.points ++ arcPoints.map (fun a => some (arcPoint extrusionZ a)),
          arcCalls := st.arcCalls ++ [⟨[fromP.x, fromP.y, fromP.z], [toP.x, toP.y, toP.z], b⟩] }
      | none => st
    if i = il - 2 then { st with points := st.points ++ [some toP] } else st
  | _, _ => st

/-- The method `LineEntity._getPolyLinePoints`, with the calls it makes to the arc
tessellator: the loop `for (i = 0; i < il - 1; ++i)`, then `points.push(points[0])` when
`closed` (which pushes `undefined` when `points` is empty). -/
def _getPolyLinePoints.run (arc : Tessellator) (vertices : List Vertex) (closed : Bool)
    (extrusionZ : JSNum := 1) : PolyLinePoints :=
  let il := vertices.length
  let st := (List.range (il - 1)).foldl (_getPolyLinePoints.body arc vertices extrusionZ il) ⟨[], []⟩
  if closed then { st with points := st.points ++ [st.points[0]?.join] } else st

/-- The value returned by `LineEntity._getPolyLinePoints`. -/
def _getPolyLinePoints (arc : Tessellator) (vertices : List Vertex) (closed : Bool)
    (extrusionZ : JSNum := 1) : List (Option Vector3) :=
  (_getPolyLinePoints.run arc vertices closed extrusionZ).points

/-! ## LineEntity.drawLine and LineEntity.drawPolyLine -/

/-- The line style both `drawLine` and `drawPolyLine` resolve first: `'dashed'` when
`entity.lineTypeName` is truthy, `this.data.tables.ltypes[entity.lineTypeName]` is
truthy and `ltype.pattern.length > 0`; reading `.length` of an absent `pattern` is a
`TypeError`. -/
def lineType (self : LineEntity) (entity : Entity) : Except JSError String :=
  match entity.lineTypeName with
  | none => .ok "line"
  | some name =>
    if name = "" then .ok "line" else
    match self.tables.get name with
    | none => .ok "line"
    | some ltype =>
      match ltype.pattern with
      | none => .error .typeError
      | some pattern => if pattern.length > 0 then .ok "dashed" else .ok "line"

/-- The method `LineEntity.drawLine`. Reading `.x` of an absent `start` or `end` is a
`TypeError`; `extrusionZ * undefined` is `NaN`. -/
def drawLine (self : LineEntity) (entity : Entity) (extrusionZ : JSNum := 1) :
    Except JSError DrawResult := do
  let lineType ← lineType self entity
  let material := self.getMaterial entity lineType self.tables
  let start ← match entity.start with
    | some v => pure v
    | none => throw JSError.typeError
  let end_ ← match entity.end_ with
    | some v => pure v
    | none => throw JSError.typeError
  let position ← BufferGeometry.setFromPoints [
    some (Vector3.new (some (extrusionZ * orUndefined start.x .nan)) start.y start.z),
    some (Vector3.new (some (extrusionZ * orUndefined end_.x .nan)) end_.y end_.z) ]
  let geometry := (BufferGeometry.ofPosition position).setIndex (Uint16Array [0, 1])
  let (geometry, transformData) := offsetByBoundingBox geometry
  pure { geometry := geometry, material := material,
         position := transformData.position, scale := transformData.scale }

/-- The method `LineEntity.drawPolyLine`, with the calls made to the arc tessellator.
Reading `.length` of an absent `vertices` is a `TypeError`; `entity.closed` is used for
its truthiness. -/
def drawPolyLine.run (self : LineEntity) (entity : Entity) :
    Except JSError DrawResult × List ArcCall :=
  match lineType self entity with
  | .error e => (.error e, [])
  | .ok lineType =>
    let material := self.getMaterial entity lineType self.tables
    match entity.vertices with
    | none => (.error .typeError, [])
    | some vertices =>
      let st := _getPolyLinePoints.run self.createArcoFromPolyline vertices (entity.closed.getD false)
      let points := st.points
      match BufferGeometry.setFromPoints points with
      | .error e => (.error e, st.arcCalls)
      | .ok position =>
        let geometry := (BufferGeometry.ofPosition position).setIndex
          (Uint16Array (generatePointIndex points))
        let (geometry, transformData) := offsetByBoundingBox geometry
        (.ok { geometry := geometry, material := material,
               position := transformData.position, scale := transformData.scale },
         st.arcCalls)

/-- The value returned (or the error raised) by `LineEntity.drawPolyLine`. -/
def drawPolyLine (self : LineEntity) (entity : Entity) : Except JSError DrawResult :=
  (drawPolyLine.run self entity).1

/-! ## LineEntity.draw and the entity cache -/

/-- Modelled from the spec: the entity cache of `BaseEntity`, whose source is not among
the files. The spec keys it by entity identity, with value
`{ geometry, material, position, scale }`; an entity is identified by its record, in
which `handle` tells apart two entities that are otherwise alike. -/
abbrev Cache := Entity → Option DrawResult

/-- Modelled from the spec: the method `BaseEntity._getCached`, the stored entry of the
entity, if any. -/
def _getCached (cache : Cache) (entity : Entity) : Option DrawResult := cache entity

/-- Modelled from the spec: the method `BaseEntity._setCache`, which stores the entry
under the entity's identity and leaves every other entry as it is. -/
def _setCache (cache : Cache) (entity : Entity) (drawData : DrawResult) : Cache :=
  fun e => if e = entity then some drawData else cache e

/-- A call observed while drawing: of `drawLine`, of `drawPolyLine`, or of the arc
tessellator (with the entity being drawn). -/
inductive Call where
  | drawLine (entity : Entity)
  | drawPolyLine (entity : Entity)
  | arc (entity : Entity) (call : ArcCall)
  deriving DecidableEq

/-- The mutable state around `draw`: the cache, and the calls made so far. -/
structure DrawState where
  cache : Cache
  calls : List Call

/-- The object `data` passed to `draw`. -/
structure DXFData where
  entities : List Entity

/-- The filter of `draw`: the entity's type is `'LINE'`, `'POLYLINE'` or `'LWPOLYLINE'`. -/
def isLineEntity (entity : Entity) : Bool :=
  entity.type = "LINE" || entity.type = "POLYLINE" || entity.type = "LWPOLYLINE"

/-- The end of the loop body of `draw`: the mesh `new Line(geometry, material)`, fixed
for dashed lines when `material.type === 'LineDashedMaterial'`, carrying the entity in
`userData` and the copied position and scale. -/
def draw.mesh (entity : Entity) (d : DrawResult) : Line :=
  { geometry := if d.material.type = "LineDashedMaterial"
      then fixMeshToDrawDashedLines d.geometry else d.geometry,
    material := d.material,
    userData := entity,
    position := d.position,
    scale := d.scale }

/-- What `fixMeshToDrawDashedLines` leaves of the geometry object the line was built with,
an object the drawing data in the cache refers to as well: an indexed geometry is left
as it is, since the line gets a new geometry; on a geometry without index
`computeLineDistances` adds the `lineDistance` attribute in place. -/
def fixMeshToDrawDashedLines.shared (geometry : BufferGeometry) : BufferGeometry :=
  if geometry.index.isSome then geometry else { geometry with lineDistance := true }

/-- The drawing data once the loop body has built the mesh from it: its geometry is
the object the mesh was built with, so what the fix-up for dashed lines does to that
object in place shows in the data. -/
def draw.shared (d : DrawResult) : DrawResult :=
  if d.material.type = "LineDashedMaterial"
    then { d with geometry := fixMeshToDrawDashedLines.shared d.geometry } else d

/-- The cache once the loop body has built the mesh of `entity`: the entry of the entity
is the drawing data the mesh was built from, the same object, so it is changed in place
as `draw.shared` says; no entry is added, removed or replaced. -/
def draw.fixShared (cache : Cache) (entity : Entity) : Cache :=
  fun e => if e = entity then (cache e).map draw.shared else cache e

/-- The body of the loop of `draw` for one entity: `none` when the entity is hidden
(`continue`), else the mesh to add; an error leaves the loop and `draw`. -/
def draw.body (self : LineEntity) (st : DrawState) (entity : Entity) :
    Except JSError (Option Line) × DrawState :=
  if self._hideEntity entity then (.ok none, st) else
  match _getCached st.cache entity with
  | some cached =>
    (.ok (some (draw.mesh entity cached)),
     { st with cache := draw.fixShared st.cache entity })
  | none =>
    let (_drawData, calls) :=
      if entity.type = "LINE" then
        (drawLine self entity, [Call.drawLine entity])
      else
        let r := drawPolyLine.run self entity
        (r.1, Call.drawPolyLine entity :: r.2.map (Call.arc entity))
    let st := { st with calls := st.calls ++ calls }
    match _drawData with
    | .error e => (.error e, st)
    | .ok _drawData =>
      (.ok (some (draw.mesh entity _drawData)),
       { st with cache := draw.fixShared (_setCache st.cache entity _drawData) entity })

/-- The loop of `draw` over the filtered entities, adding each mesh to the group. -/
def draw.loop (self : LineEntity) : List Entity → DrawState → Group →
    Except JSError Group × DrawState
  | [], st, group => (.ok group, st)
  | entity :: entities, st, group =>
    match draw.body self st entity with
    | (.error e, st) => (.error e, st)
    | (.ok none, st) => draw.loop self entities st group
    | (.ok (some mesh), st) =>
      draw.loop self entities st { group with children := group.children ++ [mesh] }

/-- The method `LineEntity.draw`: `none` is the `null` returned when no entity passes
the filter. The state is returned as the call leaves it, also when it raises. -/
def draw (self : LineEntity) (st : DrawState) (data : DXFData) :
    Except JSError (Option Group) × DrawState :=
  let group : Group := { name := "LINES", children := [] }
  let entities := data.entities.filter isLineEntity
  if entities.length = 0 then (.ok none, st) else
  match draw.loop self entities st group with
  | (.error e, st) => (.error e, st)
  | (.ok group, st) => (.ok (some group), st)


/-! ## utils/transforms.js -/

/-- A `THREE.Vector2`. -/
structure Vector2 where
  x : JSNum
  y : JSNum
  deriving DecidableEq

namespace Vector2

/-- The method `min`: componentwise `Math.min`. -/
def min (a b : Vector2) : Vector2 := ⟨Math.min a.x b.x, Math.min a.y b.y⟩

/-- The method `max`: componentwise `Math.max`. -/
def max (a b : Vector2) : Vector2 := ⟨Math.max a.x b.x, Math.max a.y b.y⟩

/-- The method `addVectors`, as a function of the two vectors. -/
def addVectors (a b : Vector2) : Vector2 := ⟨a.x + b.x, a.y + b.y⟩

/-- The method `multiplyScalar`. -/
def multiplyScalar (v : Vector2) (s : JSNum) : Vector2 := ⟨v.x * s, v.y * s⟩

/-- The method `sub`: `this.x -= v.x; this.y -= v.y`. -/
def sub (a b : Vector2) : Vector2 := ⟨a.x - b.x, a.y - b.y⟩

end Vector2

/-- The method `Vector3.sub`: `this.x -= v.x; this.y -= v.y; this.z -= v.z`. -/
def Vector3.sub (a b : Vector3) : Vector3 := ⟨a.x - b.x, a.y - b.y, a.z - b.z⟩

/-- A `THREE.Box2`. -/
structure Box2 where
  min : Vector2
  max : Vector2
  deriving DecidableEq

namespace Box2

/-- The method `makeEmpty`: `min` is `+Infinity` and `max` is `-Infinity` on both axes. -/
def makeEmpty : Box2 := ⟨⟨.pinf, .pinf⟩, ⟨.ninf, .ninf⟩⟩

/-- The method `expandByPoint`: `this.min.min(point); this.max.max(point)`. -/
def expandByPoint (b : Box2) (point : Vector2) : Box2 := ⟨b.min.min point, b.max.max point⟩

/-- The method `setFromPoints`: `makeEmpty()`, then `expandByPoint` for every point. -/
def setFromPoints (points : List Vector2) : Box2 := points.foldl expandByPoint makeEmpty

/-- The method `isEmpty`: `max < min` on some axis. -/
def isEmpty (b : Box2) : Bool := JSNum.lt b.max.x b.min.x || JSNum.lt b.max.y b.min.y

/-- The method `getCenter`: the origin for an empty box, else `(min + max) * 0.5`. -/
def getCenter (b : Box2) : Vector2 :=
  if b.isEmpty then ⟨0, 0⟩ else (Vector2.addVectors b.min b.max).multiplyScalar (.fin (1 / 2))

end Box2

/-- The vector objects an array of points refers to: `store r` is the present value of
the object with reference `r`. An array is a list of references, in which the same object
may occur more than once. -/
abbrev Store (α : Type) := Nat → α

/-- The statement `points.forEach((point) => point.sub(center))`: each element of the
array in turn has `center` subtracted in place, so an object that occurs twice in the
array is changed twice. -/
def subEach {α : Type} (sub : α → α → α) (center : α) (store : Store α) (points : List Nat) :
    Store α :=
  points.foldl (fun st r => Function.update st r (sub (st r) center)) store

/-- The function `offsetVec3Points`: the store as it is left, and the returned center. -/
def offsetVec3Points (store : Store Vector3) (points : List Nat) : Store Vector3 × Vector3 :=
  let bb := Box3.setFromPoints (points.map store)
  let center := bb.getCenter
  (subEach Vector3.sub center store points, center)

/-- The function `offsetVec2Points`: the store as it is left, and the returned
`new THREE.Vector3(center.x, center.y, 0)`. -/
def offsetVec2Points (store : Store Vector2) (points : List Nat) : Store Vector2 × Vector3 :=
  let bb := Box2.setFromPoints (points.map store)
  let center := bb.getCenter
  (subEach Vector2.sub center store points, Vector3.new (some center.x) (some center.y) (some 0))

/-- An argument of `offsetPoints`, of type `THREE.Vector2[] | THREE.Vector3[]`: an array
of references to vector objects of one kind, with the store of these objects. -/
inductive PointArray where
  | vec2 (store : Store Vector2) (points : List Nat)
  | vec3 (store : Store Vector3) (points : List Nat)

/-- The function `offsetPoints`: the array as it is left, with the returned vector. On an
empty array `points[0]` is `undefined` and reading its `isVector3` is a `TypeError`. -/
def offsetPoints : PointArray → Except JSError (PointArray × Vector3)
  | .vec3 _ [] => .error .typeError
  | .vec2 _ [] => .error .typeError
  | .vec3 store points => .ok (.vec3 (offsetVec3Points store points).1 points,
      (offsetVec3Points store points).2)
  | .vec2 store points => .ok (.vec2 (offsetVec2Points store points).1 points,
      (offsetVec2Points store points).2)

/-! ## Descriptions used in the statements -/

/-- The point of a vertex, `new Vector3(v.x, v.y, v.z)`. -/
def Vertex.point (v : Vertex) : Vector3 := Vector3.new v.x v.y v.z

/-- The point of a vertex as `setFromPoints` stores it in the position buffer:
`x, y, z || 0`, each converted to single precision. -/
def Vertex.stored (v : Vertex) : Vector3 :=
  ArrayType.float32.setXYZ ⟨v.point.x, v.point.y, JSNum.or v.point.z 0⟩

/-- The array `[p.x, p.y, p.z]` handed to the arc tessellator. -/
def Vector3.toArray (p : Vector3) : List JSNum := [p.x, p.y, p.z]

/-- The bulge of a vertex that carries one: present, not `0` and not `NaN`. -/
def Vertex.arcBulge (v : Vertex) : Option JSNum :=
  match v.bulge with
  | some b => if b = .fin 0 ∨ b = .nan then none else some b
  | none => none

/-- What the pair of consecutive vertices `(a, b)` contributes to an open polyline: the
point of `a`, followed by the tessellator's points for `(a, b, a.bulge)` when `a`
carries a bulge. -/
def segmentPoints (arc : Tessellator) (extrusionZ : JSNum) (a b : Vertex) : List Vector3 :=
  a.point ::
    match a.arcBulge with
    | some bulge => (arc a.point.toArray b.point.toArray bulge).map (arcPoint extrusionZ)
    | none => []

/-- The tessellator call the pair of consecutive vertices `(a, b)` stands for: one call
when `a` carries a bulge, none otherwise. -/
def segmentCalls (a b : Vertex) : List ArcCall :=
  match a.arcBulge with
  | some bulge => [⟨a.point.toArray, b.point.toArray, bulge⟩]
  | none => []

/-- The point sequence of an open polyline, segment by segment: for each pair of
consecutive vertices its `segmentPoints`, then the point of the last vertex. -/
def openPolyLine (arc : Tessellator) (extrusionZ : JSNum) (v : List Vertex) : List Vector3 :=
  (v.zip v.tail).flatMap (fun p => segmentPoints arc extrusionZ p.1 p.2)
    ++ v.getLast?.toList.map Vertex.point

/-- A point with finite coordinates. -/
structure Point3 where
  x : ℚ
  y : ℚ
  z : ℚ
  deriving DecidableEq

/-- The vector of a finite point. -/
def Point3.toVector3 (p : Point3) : Vector3 := ⟨.fin p.x, .fin p.y, .fin p.z⟩

/-- The value `a` is the minimum of the list: it occurs in it and is below every element. -/
def IsMinOf (xs : List ℚ) (a : ℚ) : Prop := a ∈ xs ∧ ∀ x ∈ xs, a ≤ x

/-- The value `a` is the maximum of the list: it occurs in it and is above every element. -/
def IsMaxOf (xs : List ℚ) (a : ℚ) : Prop := a ∈ xs ∧ ∀ x ∈ xs, x ≤ a

/-- The corners `lo` and `hi` are the per-axis minimum and maximum of the points: the
axis-aligned bounding box of a non-empty list of finite points. -/
def IsBoundingBox (ps : List Point3) (lo hi : Point3) : Prop :=
  IsMinOf (ps.map (fun p => p.x)) lo.x ∧ IsMaxOf (ps.map (fun p => p.x)) hi.x
  ∧ IsMinOf (ps.map (fun p => p.y)) lo.y ∧ IsMaxOf (ps.map (fun p => p.y)) hi.y
  ∧ IsMinOf (ps.map (fun p => p.z)) lo.z ∧ IsMaxOf (ps.map (fun p => p.z)) hi.z

/-- The center of the box with corners `lo` and `hi`: the per-axis midpoint. -/
def boxCenter (lo hi : Point3) : Point3 :=
  ⟨(lo.x + hi.x) / 2, (lo.y + hi.y) / 2, (lo.z + hi.z) / 2⟩

/-- The maximum extent of the box with corners `lo` and `hi`: the largest of the three
per-axis differences `max - min`. -/
def maxExtent (lo hi : Point3) : ℚ :=
  max (max (hi.x - lo.x) (hi.y - lo.y)) (hi.z - lo.z)

/-- The point `(p - c) / m`: translated by `-c`, then scaled by `1 / m`. -/
def normalized (c : Point3) (m : ℚ) (p : Point3) : Point3 :=
  ⟨(p.x - c.x) / m, (p.y - c.y) / m, (p.z - c.z) / m⟩

/-- Every geometry held in the cache has an index. This holds of the empty cache and is
kept by every call of `draw`, since `drawLine` and `drawPolyLine` both set an index. -/
def CacheIndexed (cache : Cache) : Prop :=
  ∀ e d, cache e = some d → d.geometry.index.isSome = true

/-- The drawing data of an entity as `draw` computes it on a cache miss:
`entity.type === 'LINE' ? this.drawLine(entity) : this.drawPolyLine(entity)`. -/
def drawEntity (self : LineEntity) (entity : Entity) : Except JSError DrawResult :=
  if entity.type = "LINE" then drawLine self entity else drawPolyLine self entity

/-- Every entry of the cache is the drawing data this drawer computes for the entity of
the entry. This holds of the empty cache and is kept by every call of `draw` of the
drawer, which stores nothing else. -/
def CacheFrom (self : LineEntity) (cache : Cache) : Prop :=
  ∀ e d, cache e = some d → drawEntity self e = .ok d

/-- The call is made for the entity `e`: it is a call of `drawLine` or `drawPolyLine`
on `e`, or a call of the arc tessellator while `e` is drawn. -/
def Call.isFor (e : Entity) : Call → Prop
  | .drawLine entity => entity = e
  | .drawPolyLine entity => entity = e
  | .arc entity _ => entity = e

/-- A point of the plane with finite coordinates. -/
structure Point2 where
  x : ℚ
  y : ℚ
  deriving DecidableEq

/-- The vector of a finite point of the plane. -/
def Point2.toVector2 (p : Point2) : Vector2 := ⟨.fin p.x, .fin p.y⟩

/-- The corners `lo` and `hi` are the per-axis minimum and maximum of the points of the
plane: their axis-aligned bounding box. -/
def IsBoundingBox2 (ps : List Point2) (lo hi : Point2) : Prop :=
  IsMinOf (ps.map (fun p => p.x)) lo.x ∧ IsMaxOf (ps.map (fun p => p.x)) hi.x
  ∧ IsMinOf (ps.map (fun p => p.y)) lo.y ∧ IsMaxOf (ps.map (fun p => p.y)) hi.y

/-- The point `p - c`. -/
def translated (c p : Point3) : Point3 := ⟨p.x - c.x, p.y - c.y, p.z - c.z⟩

/-- The point `p - c` of the plane. -/
def translated2 (c p : Point2) : Point2 := ⟨p.x - c.x, p.y - c.y⟩

/-- The point `p / m`. -/
def scaled (m : ℚ) (p : Point3) : Point3 := ⟨p.x / m, p.y / m, p.z / m⟩

/-- The finite value nearest to `q` among the values of the element type: its rounding to
single precision in a `Float32Array`, `q` itself in a `Float64Array`. -/
def ArrayType.round : ArrayType → ℚ → ℚ
  | .float32, q => froundQ q
  | .float64, q => q

/-- The point whose coordinates are those of `p`, each rounded to the element type. -/
def ArrayType.roundPoint (t : ArrayType) (p : Point3) : Point3 :=
  ⟨t.round p.x, t.round p.y, t.round p.z⟩

/-- The number `q` is a value of the element type: an array of that type holds it as it
is, without rounding. Every finite number is a value of a `Float64Array`. -/
def ArrayType.Holds (t : ArrayType) (q : ℚ) : Prop := t.store (.fin q) = .fin q

instance (t : ArrayType) (q : ℚ) : Decidable (t.Holds q) :=
  inferInstanceAs (Decidable (t.store (.fin q) = .fin q))

/-- Each coordinate of the point is a value of the element type. -/
def ArrayType.HoldsPoint (t : ArrayType) (p : Point3) : Prop :=
  t.Holds p.x ∧ t.Holds p.y ∧ t.Holds p.z

/-- The point `p - c` as an array of element type `t` holds it. -/
def storedOffset (t : ArrayType) (c p : Point3) : Point3 := t.roundPoint (translated c p)

/-- The maximum extent of the box with corners `lo` and `hi` once it has been moved to
its center and stored: the largest of the three per-axis differences of the stored
offsets of `hi` and `lo` from the center. -/
def storedExtent (t : ArrayType) (lo hi : Point3) : ℚ :=
  maxExtent (storedOffset t (boxCenter lo hi) lo) (storedOffset t (boxCenter lo hi) hi)

/-- The point `p` after translation by `-c` and scaling by `1 / m`, each step stored in
an array of element type `t`. -/
def storedNormalized (t : ArrayType) (c : Point3) (m : ℚ) (p : Point3) : Point3 :=
  t.roundPoint (scaled m (storedOffset t c p))

/-- The normalization of the points `ps` rounds nothing in an array of element type `t`:
each translated point `p - c` and each normalized point `(p - c) / m` is a value of the
element type. This is so for every list of points in a `Float64Array`, where arithmetic
is exact. -/
def StoredExactly (t : ArrayType) (ps : List Point3) (c : Point3) (m : ℚ) : Prop :=
  ∀ p ∈ ps, t.HoldsPoint (translated c p) ∧ t.HoldsPoint (normalized c m p)

/-! ## Concrete inputs -/

/-- A vertex at `(x, y, z)` without bulge. -/
def vtx (x y z : ℚ) : Vertex := ⟨some (.fin x), some (.fin y), some (.fin z), none⟩

/-- A vertex at `(x, y, z)` with bulge `b`. -/
def vtxB (x y z b : ℚ) : Vertex := ⟨some (.fin x), some (.fin y), some (.fin z), some (.fin b)⟩

/-- A tessellator for the examples: it returns two points, the first taken from
`from` and the bulge, the second from `to`, as arrays of length 2 and 3. -/
def sampleArc : Tessellator := fun fromP toP bulge =>
  [[orUndefined fromP[0]? 0, bulge], [orUndefined toP[0]? 0, orUndefined toP[1]? 0, bulge]]

/-- Two finite points for the examples, `(0, 0, 0)` and `(4, 2, 0)`: their box has
center `(2, 1, 0)` and maximum extent `4`. -/
def samplePoints : List Point3 := [⟨0, 0, 0⟩, ⟨4, 2, 0⟩]

/-- The geometry `new BufferGeometry().setFromPoints(...)` of `samplePoints`, indexed
as one segment. -/
def sampleGeometry : BufferGeometry :=
  (BufferGeometry.ofPosition (samplePoints.map Point3.toVector3)).setIndex [0, 1]

/-- The geometry of the two coincident points `(1, 2, 3)` and `(1, 2, 3)`, indexed as one
segment: what `drawLine` builds for a line whose end is its start. -/
def coincidentGeometry : BufferGeometry :=
  (BufferGeometry.ofPosition [⟨.fin 1, .fin 2, .fin 3⟩, ⟨.fin 1, .fin 2, .fin 3⟩]).setIndex [0, 1]

/-- The geometry of the points `(1, 0, 0)` and `(16777218, 0, 0)`, both single-precision
values, indexed as one segment: their box has center `(8388609.5, 0, 0)` and maximum
extent `16777217`. -/
def roundingGeometry : BufferGeometry :=
  (BufferGeometry.ofPosition [⟨.fin 1, .fin 0, .fin 0⟩, ⟨.fin 16777218, .fin 0, .fin 0⟩]).setIndex
    [0, 1]

/-- The geometry of the points `(0, 0, 0)` and `(2 ^ -149, 0, 0)`, the second being the
smallest positive single-precision value, indexed as one segment: their box has center
`(2 ^ -150, 0, 0)` and maximum extent `2 ^ -149`. -/
def subnormalGeometry : BufferGeometry :=
  (BufferGeometry.ofPosition [⟨.fin 0, .fin 0, .fin 0⟩, ⟨.fin (1 / 2 ^ 149), .fin 0, .fin 0⟩]).setIndex
    [0, 1]

/-- A line entity from `(0, 0, 0)` to `(4, 2, 0)`. -/
def sampleLine : Entity :=
  { handle := 1, type := "LINE", lineTypeName := none,
    start := some (vtx 0 0 0), end_ := some (vtx 4 2 0), vertices := none, closed := none }

/-- A line entity without `start`. -/
def lineWithoutStart : Entity :=
  { handle := 2, type := "LINE", lineTypeName := none,
    start := none, end_ := some (vtx 4 2 0), vertices := none, closed := none }

/-- An entity of an unsupported type. -/
def sampleCircle : Entity :=
  { handle := 3, type := "CIRCLE", lineTypeName := none,
    start := none, end_ := none, vertices := none, closed := none }

/-- A drawer for the examples: no line types, one solid material, nothing hidden. -/
def sampleDrawer : LineEntity :=
  { tables := { ltypes := fun _ => none },
    getMaterial := fun _ _ _ => { type := "LineBasicMaterial", id := 0 },
    _hideEntity := fun _ => false,
    createArcoFromPolyline := sampleArc }

/-- The state of a fresh drawer: an empty cache and no call made. -/
def emptyState : DrawState := { cache := fun _ => none, calls := [] }

/-- A document for the examples: an unsupported entity, then a line. -/
def sampleData : DXFData := { entities := [sampleCircle, sampleLine] }

/-- A drawer for the examples whose line-type table has the entries `DASHED`, with a
pattern of two elements, and `CONTINUOUS`, with an empty pattern; its material resolver
returns a dashed material for the style `'dashed'`. -/
def dashedDrawer : LineEntity :=
  { tables := { ltypes := fun name =>
      if name = "DASHED" then some { pattern := some [.fin 1, .fin (-1)] }
      else if name = "CONTINUOUS" then some { pattern := some [] }
      else none },
    getMaterial := fun _ style _ =>
      if style = "dashed" then { type := "LineDashedMaterial", id := 1 }
      else { type := "LineBasicMaterial", id := 0 },
    _hideEntity := fun _ => false,
    createArcoFromPolyline := sampleArc }

/-- A line entity from `(0, 0, 0)` to `(4, 2, 0)` with the line type `DASHED`. -/
def dashedLine : Entity :=
  { handle := 4, type := "LINE", lineTypeName := some "DASHED",
    start := some (vtx 0 0 0), end_ := some (vtx 4 2 0), vertices := none, closed := none }

/-- A closed polyline entity with the single vertex `(1, 2, 3)`. -/
def closedSingleVertex : Entity :=
  { handle := 5, type := "LWPOLYLINE", lineTypeName := none,
    start := none, end_ := none, vertices := some [vtx 1 2 3], closed := some true }

/-- A polyline entity without `vertices`. -/
def polylineWithoutVertices : Entity :=
  { handle := 6, type := "POLYLINE", lineTypeName := none,
    start := none, end_ := none, vertices := none, closed := none }

/-- An open polyline entity without bulge through `(0, 0, 0)` and `(4, 2, 0)`, the
endpoints of `sampleLine`. -/
def samplePolyline : Entity :=
  { handle := 7, type := "LWPOLYLINE", lineTypeName := none,
    start := none, end_ := none, vertices := some [vtx 0 0 0, vtx 4 2 0], closed := none }

/-- A line entity from `(0, 0, 0)` to `(4, 2, 0)` whose line type is named
`constructor`, a name the table of `dashedDrawer` has no entry for. -/
def constructorLine : Entity :=
  { handle := 8, type := "LINE", lineTypeName := some "constructor",
    start := some (vtx 0 0 0), end_ := some (vtx 4 2 0), vertices := none, closed := none }

/-- The polyline entity through `(0, 0, 0)` and `(4, 2, 0)` with the line type of
`constructorLine`. -/
def constructorPolyline : Entity :=
  { handle := 9, type := "LWPOLYLINE", lineTypeName := some "constructor",
    start := none, end_ := none, vertices := some [vtx 0 0 0, vtx 4 2 0], closed := none }

/-- A line entity from `(0, 0, 0)` to `(16777217, 0, 0)`; the end's `x` needs 25
significant bits. -/
def longLine : Entity :=
  { handle := 10, type := "LINE", lineTypeName := none,
    start := some (vtx 0 0 0), end_ := some (vtx 16777217 0 0), vertices := none,
    closed := none }

/-- A vertex at `(undefined, 0, 0)`: it has no `x`. -/
def vtxWithoutX : Vertex := ⟨none, some (.fin 0), some (.fin 0), none⟩

/-- A line entity from a start without `x` to `(4, 2, 0)`. -/
def lineWithoutX : Entity :=
  { handle := 11, type := "LINE", lineTypeName := none,
    start := some vtxWithoutX, end_ := some (vtx 4 2 0), vertices := none, closed := none }

/-- The open polyline entity with the endpoints of `lineWithoutX` as vertices. -/
def polylineWithoutX : Entity :=
  { handle := 12, type := "LWPOLYLINE", lineTypeName := none,
    start := none, end_ := none, vertices := some [vtxWithoutX, vtx 4 2 0], closed := none }

/-- Two vector objects for the examples: object `0` is `(0, 0, 0)`, every other object
is `(4, 2, 0)`. -/
def sampleStore : Store Vector3 := fun r => if r = 0 then ⟨.fin 0, .fin 0, .fin 0⟩ else ⟨.fin 4, .fin 2, .fin 0⟩

/-- Two vector objects of the plane for the examples: object `0` is `(0, 0)`, every other
object is `(4, 2)`. -/
def sampleStore2 : Store Vector2 := fun r => if r = 0 then ⟨.fin 0, .fin 0⟩ else ⟨.fin 4, .fin 2⟩
/-! # Theorems -/

namespace JSNum

@[simp] theorem fin_add (a b : ℚ) : fin a + fin b = fin (a + b) := rfl
@[simp] theorem fin_sub (a b : ℚ) : fin a - fin b = fin (a - b) := by
  show add (fin a) (neg (fin b)) = _
  simp [add, neg, sub_eq_add_neg]
@[simp] theorem fin_mul (a b : ℚ) : fin a * fin b = fin (a * b) := rfl
@[simp] theorem neg_fin (a : ℚ) : -fin a = fin (-a) := rfl
@[simp] theorem fin_div (a b : ℚ) :
    fin a / fin b = if b = 0 then signedInf a else fin (a / b) := rfl
@[simp] theorem lt_fin (a b : ℚ) : lt (fin a) (fin b) = decide (a < b) := rfl
@[simp] theorem ofNat_eq (n : ℕ) [n.AtLeastTwo] : (OfNat.ofNat n : JSNum) = fin (OfNat.ofNat n) := rfl
@[simp] theorem zero_eq : (0 : JSNum) = fin 0 := rfl
@[simp] theorem one_eq : (1 : JSNum) = fin 1 := rfl

end JSNum

/-! ## generatePointIndex -/

theorem foldl_pushPair (l : List Nat) (acc : List Nat) :
    l.foldl (fun index i => index ++ [i - 1, i]) acc = acc ++ l.flatMap (fun i => [i - 1, i]) := by
  induction l generalizing acc with
  | nil => simp
  | cons a l ih => simp [ih]

theorem flatMap_pair_shift (s n : Nat) :
    (List.range' (s + 1) n).flatMap (fun i => [i - 1, i])
      = (List.range' s n).flatMap (fun k => [k, k + 1]) := by
  induction n generalizing s with
  | zero => simp
  | succ n ih => simp [List.range'_succ, ih]

theorem generatePointIndex_eq_flatMap {α : Type} (points : List α) :
    generatePointIndex points
      = (List.range (points.length - 1)).flatMap (fun k => [k, k + 1]) := by
  unfold generatePointIndex
  rw [foldl_pushPair, List.nil_append, List.range_eq_range']
  exact flatMap_pair_shift 0 _

theorem length_flatMap_pair (n : Nat) :
    ((List.range n).flatMap (fun k => [k, k + 1])).length = 2 * n := by
  induction n with
  | zero => simp
  | succ n ih => simp [List.range_succ, ih]; omega

theorem getElem?_flatMap_pair (n k : Nat) (h : k < n) :
    ((List.range n).flatMap (fun k => [k, k + 1]))[2 * k]? = some k
    ∧ ((List.range n).flatMap (fun k => [k, k + 1]))[2 * k + 1]? = some (k + 1) := by
  induction n with
  | zero => omega
  | succ n ih =>
    have hl := length_flatMap_pair n
    simp only [List.range_succ, List.flatMap_append, List.flatMap_cons, List.flatMap_nil,
      List.append_nil]
    rcases Nat.lt_succ_iff_lt_or_eq.mp h with hk | hk
    · rw [List.getElem?_append_left (by omega), List.getElem?_append_left (by omega)]
      exact ih hk
    · subst hk
      rw [List.getElem?_append_right (by omega), List.getElem?_append_right (by omega)]
      simp [hl]

/-- C1: for a point sequence of length `N`, `generatePointIndex` returns the flat list
`[0,1, 1,2, ..., N-2,N-1]`: it is empty when `N` is 0 or 1, its length is `2 * (N - 1)`,
and for every `k < N - 1` the element at position `2k` is `k` and the element at position
`2k + 1` is `k + 1`. -/
theorem generatePointIndex_spec {α : Type} (points : List α) :
    generatePointIndex points
        = (List.range (points.length - 1)).flatMap (fun k => [k, k + 1])
    ∧ (points.length ≤ 1 → generatePointIndex points = [])
    ∧ (generatePointIndex points).length = 2 * (points.length - 1)
    ∧ ∀ k, k < points.length - 1 →
        (generatePointIndex points)[2 * k]? = some k
        ∧ (generatePointIndex points)[2 * k + 1]? = some (k + 1) := by
  rw [generatePointIndex_eq_flatMap]
  refine ⟨rfl, ?_, length_flatMap_pair _, fun k hk => getElem?_flatMap_pair _ k hk⟩
  intro h
  have : points.length - 1 = 0 := by omega
  simp [this]

/-- C1 at four points: the index is `[0,1,1,2,2,3]`, which has length `2 * 3`. -/
theorem generatePointIndex_spec_witness :
    generatePointIndex ["a", "b", "c", "d"] = [0, 1, 1, 2, 2, 3]
    ∧ (generatePointIndex ["a", "b", "c", "d"]).length = 2 * 3
    ∧ generatePointIndex ["a"] = [] :=
  ⟨(generatePointIndex_spec ["a", "b", "c", "d"]).1.trans (by decide),
   (generatePointIndex_spec ["a", "b", "c", "d"]).2.2.1,
   (generatePointIndex_spec ["a"]).2.1 (by decide)⟩

/-! ## _getPolyLinePoints -/

theorem bulgeTruthy_eq (v : Vertex) : bulgeTruthy v.bulge = v.arcBulge := by
  unfold bulgeTruthy Vertex.arcBulge
  cases h : v.bulge with
  | none => rfl
  | some b => cases b <;> simp [JSNum.truthy]

theorem body_eq (arc : Tessellator) (v : List Vertex) (ez : JSNum) (il : Nat)
    (st : PolyLinePoints) (i : Nat) (a b : Vertex)
    (ha : v[i]? = some a) (hb : v[i + 1]? = some b) :
    _getPolyLinePoints.body arc v ez il st i
      = ⟨st.points ++ (segmentPoints arc ez a b).map some
            ++ (if i = il - 2 then [some b.point] else []),
         st.arcCalls ++ segmentCalls a b⟩ := by
  unfold _getPolyLinePoints.body segmentPoints segmentCalls
  simp only [ha, hb, bulgeTruthy_eq]
  cases hbu : a.arcBulge <;> by_cases hi : i = il - 2 <;>
    simp [hi, Vertex.point, Vector3.toArray, Function.comp_def]

theorem foldl_body_eq (arc : Tessellator) (v : List Vertex) (ez : JSNum) (n : Nat)
    (hn : n + 2 ≤ v.length) :
    (List.range n).foldl (_getPolyLinePoints.body arc v ez v.length) ⟨[], []⟩
      = ⟨(((v.zip v.tail).take n).flatMap (fun p => segmentPoints arc ez p.1 p.2)).map some,
         ((v.zip v.tail).take n).flatMap (fun p => segmentCalls p.1 p.2)⟩ := by
  induction n with
  | zero => simp
  | succ n ih =>
    have h1 : n < v.length := by omega
    have h2 : n + 1 < v.length := by omega
    have hz : (v.zip v.tail)[n]? = some (v[n], v[n + 1]) := by
      simp [List.getElem?_zip_eq_some, List.getElem?_eq_getElem, h1, h2]
    rw [List.range_succ, List.foldl_append, ih (by omega), List.foldl_cons, List.foldl_nil,
      body_eq arc v ez v.length _ n v[n] v[n + 1] (List.getElem?_eq_getElem h1)
        (List.getElem?_eq_getElem h2)]
    have hne : ¬ n = v.length - 2 := by omega
    simp [List.take_succ, hz, hne]



theorem run_open (arc : Tessellator) (v : List Vertex) (ez : JSNum) (h : 2 ≤ v.length) :
    _getPolyLinePoints.run arc v false ez
      = ⟨(openPolyLine arc ez v).map some,
         (v.zip v.tail).flatMap (fun p => segmentCalls p.1 p.2)⟩ := by
  obtain ⟨n, hn⟩ : ∃ n, v.length = n + 2 := ⟨v.length - 2, by omega⟩
  have h1 : n < v.length := by omega
  have h2 : n + 1 < v.length := by omega
  have hz : (v.zip v.tail)[n]? = some (v[n], v[n + 1]) := by
    simp [List.getElem?_zip_eq_some, List.getElem?_eq_getElem, h1, h2]
  have hlen : (v.zip v.tail).length = n + 1 := by simp [hn]
  have htake : v.zip v.tail = (v.zip v.tail).take n ++ [(v[n], v[n + 1])] := by
    conv_lhs => rw [← List.take_length (l := v.zip v.tail), hlen, List.take_succ, hz]
    rfl
  have hlast : v.getLast? = some v[n + 1] := by
    rw [List.getLast?_eq_getElem?]
    simp [hn, List.getElem?_eq_getElem, h2]
  unfold _getPolyLinePoints.run openPolyLine
  simp only [Bool.false_eq_true, if_false]
  have hr : v.length - 1 = n + 1 := by omega
  rw [hr, List.range_succ, List.foldl_append, foldl_body_eq arc v ez n (by omega),
    List.foldl_cons, List.foldl_nil,
    body_eq arc v ez v.length _ n v[n] v[n + 1] (List.getElem?_eq_getElem h1)
      (List.getElem?_eq_getElem h2)]
  have hi : n = v.length - 2 := by omega
  rw [if_pos hi, hlast]
  conv_rhs => rw [htake]
  simp

theorem openPolyLine_cons_cons (arc : Tessellator) (ez : JSNum) (a b : Vertex)
    (r : List Vertex) :
    openPolyLine arc ez (a :: b :: r)
      = segmentPoints arc ez a b ++ openPolyLine arc ez (b :: r) := by
  simp [openPolyLine, List.getLast?_cons_cons]

theorem map_point_sublist_openPolyLine (arc : Tessellator) (ez : JSNum) (v : List Vertex) :
    (v.map Vertex.point).Sublist (openPolyLine arc ez v) := by
  induction v with
  | nil => simp
  | cons a r ih =>
    cases r with
    | nil => simp [openPolyLine]
    | cons b r =>
      rw [openPolyLine_cons_cons, List.map_cons]
      unfold segmentPoints
      rw [List.cons_append]
      exact List.Sublist.cons₂ _ (ih.trans (List.sublist_append_right _ _))

theorem length_openPolyLine (arc : Tessellator) (ez : JSNum) (v : List Vertex) :
    (openPolyLine arc ez v).length
      = v.length
        + ((v.zip v.tail).flatMap (fun p => (segmentPoints arc ez p.1 p.2).tail)).length := by
  induction v with
  | nil => simp [openPolyLine]
  | cons a r ih =>
    cases r with
    | nil => simp [openPolyLine]
    | cons b r =>
      rw [openPolyLine_cons_cons, List.length_append, ih]
      simp [segmentPoints]
      omega

/-- C2: for a vertex list `v` of length at least 2 and any arc tessellator,
`_getPolyLinePoints(v, closed = false)` is the concatenation, over the consecutive pairs
`(v[i], v[i+1])` in order, of the point of `v[i]` followed by the tessellator's points
for `(v[i], v[i+1], v[i].bulge)` exactly when `v[i]` carries a bulge, followed by the
point of the last vertex. Hence the vertices' points occur in it in order, and its
length is the number of vertices plus the number of arc points: nothing is pushed twice
and nothing is left out. -/
theorem getPolyLinePoints_open_spec (arc : Tessellator) (v : List Vertex)
    (h : 2 ≤ v.length) :
    _getPolyLinePoints arc v false = (openPolyLine arc 1 v).map some
    ∧ (v.map (fun a => some a.point)).Sublist (_getPolyLinePoints arc v false)
    ∧ (_getPolyLinePoints arc v false).length
        = v.length
          + ((v.zip v.tail).flatMap (fun p => (segmentPoints arc 1 p.1 p.2).tail)).length := by
  have e : _getPolyLinePoints arc v false = (openPolyLine arc 1 v).map some := by
    unfold _getPolyLinePoints
    rw [run_open arc v 1 h]
  refine ⟨e, ?_, ?_⟩
  · rw [e]
    have := (map_point_sublist_openPolyLine arc 1 v).map some
    simpa [Function.comp_def] using this
  · rw [e, List.length_map, length_openPolyLine]

/-- C2 at two vertices with a bulge on the first: the result is
`[v0, arcPoint1, arcPoint2, v1]`. -/
theorem getPolyLinePoints_open_spec_witness :
    2 ≤ [vtxB 0 0 0 1, vtx 4 2 0].length
    ∧ _getPolyLinePoints sampleArc [vtxB 0 0 0 1, vtx 4 2 0] false
        = [some ⟨0, 0, 0⟩, some ⟨0, 1, 0⟩, some ⟨4, 2, 1⟩, some ⟨4, 2, 0⟩] :=
  ⟨by decide,
   (getPolyLinePoints_open_spec sampleArc [vtxB 0 0 0 1, vtx 4 2 0] (by decide)).1.trans
     (by simp [openPolyLine, segmentPoints, Vertex.arcBulge, vtxB, vtx, sampleArc, arcPoint,
        Vector3.new, orUndefined, Vertex.point, Vector3.toArray])⟩

/-! ## Rounding to single precision -/

theorem roundTiesToEven_intCast (n : ℤ) : roundTiesToEven (n : ℚ) = n := by
  simp [roundTiesToEven]

theorem floor_le_roundTiesToEven (x : ℚ) : ⌊x⌋ ≤ roundTiesToEven x := by
  unfold roundTiesToEven
  split_ifs <;> omega

theorem roundTiesToEven_le_floor_add_one (x : ℚ) : roundTiesToEven x ≤ ⌊x⌋ + 1 := by
  unfold roundTiesToEven
  split_ifs <;> omega

theorem roundTiesToEven_mono : Monotone roundTiesToEven := by
  intro x y hxy
  rcases (Int.floor_mono hxy).lt_or_eq with h | h
  · exact (roundTiesToEven_le_floor_add_one x).trans
      ((Int.add_one_le_iff.mpr h).trans (floor_le_roundTiesToEven y))
  · unfold roundTiesToEven
    rw [← h]
    have hd : x - ⌊x⌋ ≤ y - ⌊x⌋ := sub_le_sub_right hxy _
    split_ifs <;> first | omega | linarith

theorem roundTiesToEven_nonneg {x : ℚ} (h : 0 ≤ x) : 0 ≤ roundTiesToEven x := by
  have := roundTiesToEven_mono h
  rwa [show ((0 : ℚ)) = ((0 : ℤ) : ℚ) by simp, roundTiesToEven_intCast] at this

theorem float32Nearest_zero : float32Nearest 0 = 0 := by
  simp [float32Nearest, roundTiesToEven]

theorem float32Nearest_nonneg {a : ℚ} (h : 0 ≤ a) : 0 ≤ float32Nearest a := by
  unfold float32Nearest
  have h2 : (0 : ℚ) < 2 ^ float32Spacing a := by positivity
  have := roundTiesToEven_nonneg (div_nonneg h h2.le)
  have h3 : (0 : ℚ) ≤ (roundTiesToEven (a / 2 ^ float32Spacing a) : ℚ) := by exact_mod_cast this
  positivity

theorem zpow_log_le {a : ℚ} (h : 0 < a) : (2 : ℚ) ^ Int.log 2 a ≤ a := by
  have := Int.zpow_log_le_self (b := 2) (by norm_num) h
  simpa using this

theorem lt_zpow_log_succ (a : ℚ) : a < (2 : ℚ) ^ (Int.log 2 a + 1) := by
  have := Int.lt_zpow_succ_log_self (b := 2) (by norm_num) a
  simpa using this

theorem log_eq_of_bounds {a : ℚ} {e : ℤ} (h1 : (2 : ℚ) ^ e ≤ a) (h2 : a < (2 : ℚ) ^ (e + 1)) :
    Int.log 2 a = e := by
  have ha : 0 < a := lt_of_lt_of_le (by positivity) h1
  have l1 : e ≤ Int.log 2 a := by
    rw [← Int.zpow_le_iff_le_log (by norm_num) ha]
    simpa using h1
  have l2 : Int.log 2 a < e + 1 := by
    rw [← Int.lt_zpow_iff_log_lt (by norm_num) ha]
    simpa using h2
  omega

/-- A multiple of a power of two is the rounding of itself at any finer spacing. -/
theorem roundTiesToEven_mul_zpow (n : ℤ) (k e : ℤ) (h : e ≤ k) :
    (roundTiesToEven ((n : ℚ) * 2 ^ k / 2 ^ e) : ℚ) * 2 ^ e = (n : ℚ) * 2 ^ k := by
  obtain ⟨d, hd⟩ : ∃ d : ℕ, k = e + d := ⟨(k - e).toNat, by omega⟩
  have h2 : (2 : ℚ) ^ e ≠ 0 := by positivity
  have e1 : (n : ℚ) * 2 ^ k / 2 ^ e = ((n * 2 ^ d : ℤ) : ℚ) := by
    rw [hd, zpow_add₀ (by norm_num : (2 : ℚ) ≠ 0), zpow_natCast]
    push_cast
    field_simp
    ring
  rw [e1, roundTiesToEven_intCast, hd, zpow_add₀ (by norm_num : (2 : ℚ) ≠ 0), zpow_natCast]
  push_cast
  ring

theorem float32Spacing_le_of_lt {a : ℚ} {k : ℤ} (ha : 0 < a) (h : a < 2 ^ (k + 24))
    (hk : -149 ≤ k) : float32Spacing a ≤ k := by
  have l2 : Int.log 2 a < k + 24 := by
    rw [← Int.lt_zpow_iff_log_lt (by norm_num) ha]
    simpa using h
  unfold float32Spacing
  have := max_le (a := Int.log 2 a) (b := -126) (c := k + 23) (by omega) (by omega)
  omega

/-- A value with at most 24 significant bits and an exponent not below `-149` is its own
rounding. -/
theorem float32Nearest_of_representable (n : ℕ) (k : ℤ) (hn : n < 2 ^ 24) (hk : -149 ≤ k) :
    float32Nearest ((n : ℚ) * 2 ^ k) = (n : ℚ) * 2 ^ k := by
  rcases Nat.eq_zero_or_pos n with h0 | hpos
  · simp [h0, float32Nearest_zero]
  · have h2 : (0 : ℚ) < 2 ^ k := by positivity
    have ha : (0 : ℚ) < (n : ℚ) * 2 ^ k := by positivity
    have hlt : (n : ℚ) * 2 ^ k < 2 ^ (k + 24) := by
      rw [zpow_add₀ (by norm_num : (2 : ℚ) ≠ 0), mul_comm]
      apply mul_lt_mul_of_pos_left _ h2
      exact_mod_cast hn
    have hs := float32Spacing_le_of_lt ha hlt hk
    unfold float32Nearest
    have := roundTiesToEven_mul_zpow (n : ℤ) k _ hs
    simpa using this

theorem float32Spacing_mono {a b : ℚ} (ha : 0 < a) (h : a ≤ b) :
    float32Spacing a ≤ float32Spacing b := by
  unfold float32Spacing
  have := Int.log_mono_right (b := 2) ha h
  have := max_le_max this (le_refl (-126 : ℤ))
  omega

theorem float32Nearest_mono {a b : ℚ} (ha : 0 ≤ a) (h : a ≤ b) :
    float32Nearest a ≤ float32Nearest b := by
  rcases ha.lt_or_eq with ha | ha
  swap
  · rw [← ha, float32Nearest_zero]
    exact float32Nearest_nonneg (ha.le.trans h)
  have hb : 0 < b := lt_of_lt_of_le ha h
  rcases (float32Spacing_mono ha h).lt_or_eq with hlt | heq
  · -- the two values lie in different binades: a power of two separates them
    have hlog : Int.log 2 a < Int.log 2 b ∧ -126 < Int.log 2 b := by
      unfold float32Spacing at hlt
      rcases le_total (Int.log 2 a) (-126) with h1 | h1 <;>
        rcases le_total (Int.log 2 b) (-126) with h2 | h2 <;>
        simp only [max_eq_left, max_eq_right, h1, h2] at hlt <;> omega
    have hsb : float32Spacing b = Int.log 2 b - 23 := by
      unfold float32Spacing
      rw [max_eq_left hlog.2.le]
    set B : ℚ := 2 ^ Int.log 2 b with hB
    have hBb : B ≤ b := zpow_log_le hb
    have haB : a ≤ B := by
      have h1 := lt_zpow_log_succ a
      have h2 : (2 : ℚ) ^ (Int.log 2 a + 1) ≤ 2 ^ Int.log 2 b :=
        zpow_le_zpow_right₀ (by norm_num) (by omega)
      exact (h1.trans_le h2).le
    have hsa : float32Spacing a ≤ Int.log 2 b := by
      have := hlt; rw [hsb] at this; omega
    have e1 : (roundTiesToEven (B / 2 ^ float32Spacing a) : ℚ) * 2 ^ float32Spacing a = B := by
      have := roundTiesToEven_mul_zpow 1 (Int.log 2 b) _ hsa
      simpa [hB] using this
    have e2 : (roundTiesToEven (B / 2 ^ float32Spacing b) : ℚ) * 2 ^ float32Spacing b = B := by
      have := roundTiesToEven_mul_zpow 1 (Int.log 2 b) (float32Spacing b) (by rw [hsb]; omega)
      simpa [hB] using this
    have pa : (0 : ℚ) < 2 ^ float32Spacing a := by positivity
    have pb : (0 : ℚ) < 2 ^ float32Spacing b := by positivity
    have m1 : float32Nearest a ≤ B := by
      rw [← e1]
      unfold float32Nearest
      apply mul_le_mul_of_nonneg_right _ pa.le
      exact_mod_cast roundTiesToEven_mono (div_le_div_of_nonneg_right haB pa.le)
    have m2 : B ≤ float32Nearest b := by
      conv_lhs => rw [← e2]
      unfold float32Nearest
      apply mul_le_mul_of_nonneg_right _ pb.le
      exact_mod_cast roundTiesToEven_mono (div_le_div_of_nonneg_right hBb pb.le)
    exact m1.trans m2
  · unfold float32Nearest
    rw [heq]
    have pb : (0 : ℚ) < 2 ^ float32Spacing b := by positivity
    apply mul_le_mul_of_nonneg_right _ pb.le
    exact_mod_cast roundTiesToEven_mono (div_le_div_of_nonneg_right h pb.le)

theorem froundQ_zero : froundQ 0 = 0 := by
  simp [froundQ, float32Nearest_zero]

theorem froundQ_neg (x : ℚ) : froundQ (-x) = -froundQ x := by
  unfold froundQ
  rcases lt_trichotomy x 0 with h | h | h
  · have : ¬ -x < 0 := by linarith
    simp [h, this]
  · simp [h, float32Nearest_zero]
  · have h1 : -x < 0 := by linarith
    have h2 : ¬ x < 0 := by linarith
    simp [h1, h2]

theorem froundQ_mono : Monotone froundQ := by
  intro x y hxy
  unfold froundQ
  by_cases hx : x < 0 <;> by_cases hy : y < 0 <;> simp only [hx, hy, if_true, if_false]
  · exact neg_le_neg (float32Nearest_mono (by linarith) (by linarith))
  · have := float32Nearest_nonneg (a := -x) (by linarith)
    have := float32Nearest_nonneg (a := y) (by linarith)
    linarith
  · linarith
  · exact float32Nearest_mono (by linarith) hxy

theorem float32Spacing_ge (a : ℚ) : -149 ≤ float32Spacing a := by
  unfold float32Spacing
  have := le_max_right (Int.log 2 a) (-126)
  omega

/-- Rounding a second time changes nothing: the rounding of a value is a value with at
most 24 significant bits at its spacing, or the power of two that starts the next
binade. -/
theorem float32Nearest_idem {a : ℚ} (ha : 0 ≤ a) :
    float32Nearest (float32Nearest a) = float32Nearest a := by
  rcases ha.lt_or_eq with ha | ha
  swap
  · rw [← ha, float32Nearest_zero, float32Nearest_zero]
  have pe : (0 : ℚ) < 2 ^ float32Spacing a := by positivity
  have hge := float32Spacing_ge a
  have hlog : Int.log 2 a - 23 ≤ float32Spacing a := by
    unfold float32Spacing
    have := le_max_left (Int.log 2 a) (-126)
    omega
  -- the quotient by the spacing is below `2 ^ 24`
  have hq : a / 2 ^ float32Spacing a ≤ ((2 ^ 24 : ℤ) : ℚ) := by
    rw [div_le_iff₀ pe]
    have h1 := (lt_zpow_log_succ a).le
    have h2 : (2 : ℚ) ^ (Int.log 2 a + 1) ≤ 2 ^ (24 + float32Spacing a) :=
      zpow_le_zpow_right₀ (by norm_num) (by omega)
    have h3 : ((2 ^ 24 : ℤ) : ℚ) * 2 ^ float32Spacing a = 2 ^ (24 + float32Spacing a) := by
      rw [zpow_add₀ (by norm_num : (2 : ℚ) ≠ 0)]
      norm_num
    rw [h3]
    exact h1.trans h2
  have hn : roundTiesToEven (a / 2 ^ float32Spacing a) ≤ 2 ^ 24 := by
    have := roundTiesToEven_mono hq
    rwa [roundTiesToEven_intCast] at this
  have hn0 : 0 ≤ roundTiesToEven (a / 2 ^ float32Spacing a) :=
    roundTiesToEven_nonneg (div_nonneg ha.le pe.le)
  obtain ⟨n, hnn⟩ := Int.eq_ofNat_of_zero_le hn0
  have hv : float32Nearest a = (n : ℚ) * 2 ^ float32Spacing a := by
    unfold float32Nearest
    rw [hnn]
    simp
  rw [hv]
  rw [hnn] at hn
  have hn' : n ≤ 2 ^ 24 := by exact_mod_cast hn
  rcases hn'.lt_or_eq with hlt | heq
  · exact float32Nearest_of_representable n _ hlt hge
  · have e : ((n : ℕ) : ℚ) * 2 ^ float32Spacing a
        = ((2 ^ 23 : ℕ) : ℚ) * 2 ^ (float32Spacing a + 1) := by
      rw [heq, zpow_add₀ (by norm_num : (2 : ℚ) ≠ 0)]
      norm_num
      ring
    rw [e]
    exact float32Nearest_of_representable (2 ^ 23) _ (by norm_num) (by omega)

theorem froundQ_idem (x : ℚ) : froundQ (froundQ x) = froundQ x := by
  by_cases hx : x < 0
  · have h1 : froundQ x = -float32Nearest (-x) := by simp [froundQ, hx]
    rw [h1, froundQ_neg]
    have h0 : 0 ≤ float32Nearest (-x) := float32Nearest_nonneg (by linarith)
    have h2 : froundQ (float32Nearest (-x)) = float32Nearest (float32Nearest (-x)) := by
      simp [froundQ, not_lt.mpr h0]
    rw [h2, float32Nearest_idem (by linarith)]
  · have h1 : froundQ x = float32Nearest x := by simp [froundQ, hx]
    have h0 : 0 ≤ float32Nearest x := float32Nearest_nonneg (not_lt.mp hx)
    rw [h1]
    have h2 : froundQ (float32Nearest x) = float32Nearest (float32Nearest x) := by
      simp [froundQ, not_lt.mpr h0]
    rw [h2, float32Nearest_idem (not_lt.mp hx)]

theorem froundQ_of_representable (n : ℕ) (k : ℤ) (hn : n < 2 ^ 24) (hk : -149 ≤ k) :
    froundQ ((n : ℚ) * 2 ^ k) = (n : ℚ) * 2 ^ k := by
  have h0 : (0 : ℚ) ≤ (n : ℚ) * 2 ^ k := by positivity
  simp only [froundQ, not_lt.mpr h0, if_false]
  exact float32Nearest_of_representable n k hn hk

/-! ## Values held by a typed array -/

theorem fround_fin {q : ℚ} (h1 : -2 ^ 128 < froundQ q) (h2 : froundQ q < 2 ^ 128) :
    Math.fround (.fin q) = .fin (froundQ q) := by
  simp [Math.fround, not_le.mpr h1, not_le.mpr h2]

theorem holds_float32_iff (q : ℚ) :
    ArrayType.float32.Holds q ↔ froundQ q = q ∧ -2 ^ 128 < q ∧ q < 2 ^ 128 := by
  show Math.fround (.fin q) = .fin q ↔ _
  simp only [Math.fround]
  constructor
  · intro h
    split_ifs at h with h1 h2
    simp only [JSNum.fin.injEq] at h
    rw [h] at h1 h2
    exact ⟨h, not_le.mp h2, not_le.mp h1⟩
  · rintro ⟨h, h1, h2⟩
    simp [h, not_le.mpr h1, not_le.mpr h2]

theorem holds_float64 (q : ℚ) : ArrayType.float64.Holds q := rfl

theorem holdsPoint_float64 (p : Point3) : ArrayType.float64.HoldsPoint p := ⟨rfl, rfl, rfl⟩

theorem round_of_holds {t : ArrayType} {q : ℚ} (h : t.Holds q) : t.round q = q := by
  cases t with
  | float32 => exact ((holds_float32_iff q).mp h).1
  | float64 => rfl

theorem roundPoint_of_holds {t : ArrayType} {p : Point3} (h : t.HoldsPoint p) :
    t.roundPoint p = p := by
  obtain ⟨h1, h2, h3⟩ := h
  cases p
  simp only [ArrayType.roundPoint, Point3.mk.injEq]
  exact ⟨round_of_holds h1, round_of_holds h2, round_of_holds h3⟩

theorem round_mono (t : ArrayType) : Monotone t.round := by
  cases t with
  | float32 => exact froundQ_mono
  | float64 => exact fun _ _ h => h

theorem round_neg (t : ArrayType) (x : ℚ) : t.round (-x) = -t.round x := by
  cases t with
  | float32 => exact froundQ_neg x
  | float64 => rfl

theorem round_zero (t : ArrayType) : t.round 0 = 0 := by
  cases t with
  | float32 => exact froundQ_zero
  | float64 => rfl

theorem holds_neg {t : ArrayType} {q : ℚ} (h : t.Holds q) : t.Holds (-q) := by
  cases t with
  | float32 =>
    rw [holds_float32_iff] at h ⊢
    obtain ⟨h, h1, h2⟩ := h
    exact ⟨by rw [froundQ_neg, h], by linarith, by linarith⟩
  | float64 => rfl

/-- A number whose magnitude is at most a value of the element type is stored as its
rounding: it does not overflow. -/
theorem store_of_abs_le {t : ArrayType} {B x : ℚ} (hB : t.Holds B) (hx : |x| ≤ B) :
    t.store (.fin x) = .fin (t.round x) := by
  cases t with
  | float64 => rfl
  | float32 =>
    obtain ⟨hx1, hx2⟩ := abs_le.mp hx
    obtain ⟨e, b1, b2⟩ := (holds_float32_iff B).mp hB
    have u : froundQ x ≤ B := e ▸ froundQ_mono hx2
    have l : -B ≤ froundQ x := by
      have := froundQ_mono hx1
      rwa [froundQ_neg, e] at this
    exact fround_fin (by linarith) (by linarith)

theorem store_of_holds {t : ArrayType} {q : ℚ} (h : t.Holds q) : t.store (.fin q) = .fin q := h

/-- What an array holds is a value of its element type. -/
theorem holds_of_store {t : ArrayType} {x : JSNum} {q : ℚ} (h : t.store x = .fin q) :
    t.Holds q := by
  cases t with
  | float64 => rfl
  | float32 =>
    cases x with
    | fin a =>
      change Math.fround (.fin a) = .fin q at h
      simp only [Math.fround] at h
      split_ifs at h with h1 h2
      simp only [JSNum.fin.injEq] at h
      rw [holds_float32_iff]
      refine ⟨by rw [← h, froundQ_idem], by rw [← h]; exact not_le.mp h2,
        by rw [← h]; exact not_le.mp h1⟩
    | pinf => cases h
    | ninf => cases h
    | nan => cases h

theorem store_nan (t : ArrayType) : t.store .nan = .nan := by
  cases t <;> rfl

theorem setXYZ_nan (t : ArrayType) : t.setXYZ ⟨.nan, .nan, .nan⟩ = ⟨.nan, .nan, .nan⟩ := by
  simp [ArrayType.setXYZ, store_nan]

theorem setXYZ_of_holds {t : ArrayType} {p : Point3} (h : t.HoldsPoint p) :
    t.setXYZ p.toVector3 = p.toVector3 := by
  obtain ⟨h1, h2, h3⟩ := h
  simp only [ArrayType.setXYZ, Point3.toVector3, Vector3.mk.injEq]
  exact ⟨h1, h2, h3⟩

/-- A number with at most 24 significant bits and an exponent between `-149` and `104`,
of either sign, is a single-precision value. -/
theorem holds_float32_of_eq (q : ℚ) (n : ℕ) (k : ℤ)
    (hq : q = (n : ℚ) * 2 ^ k ∨ q = -((n : ℚ) * 2 ^ k))
    (hn : n < 2 ^ 24) (hk : -149 ≤ k) (hk2 : k ≤ 104) : ArrayType.float32.Holds q := by
  have h0 : (0 : ℚ) ≤ (n : ℚ) * 2 ^ k := by positivity
  have hlt : (n : ℚ) * 2 ^ k < 2 ^ 128 := by
    have h1 : (n : ℚ) < 2 ^ (24 : ℤ) := by exact_mod_cast hn
    have h2 : (2 : ℚ) ^ k ≤ 2 ^ (104 : ℤ) := zpow_le_zpow_right₀ (by norm_num) hk2
    have h3 : (0 : ℚ) < 2 ^ k := by positivity
    calc (n : ℚ) * 2 ^ k < 2 ^ (24 : ℤ) * 2 ^ k := mul_lt_mul_of_pos_right h1 h3
      _ ≤ 2 ^ (24 : ℤ) * 2 ^ (104 : ℤ) := mul_le_mul_of_nonneg_left h2 (by positivity)
      _ = 2 ^ 128 := by norm_num
  have hp : ArrayType.float32.Holds ((n : ℚ) * 2 ^ k) :=
    (holds_float32_iff _).mpr ⟨froundQ_of_representable n k hn hk, by linarith, hlt⟩
  rcases hq with rfl | rfl
  · exact hp
  · exact holds_neg hp

theorem holds_zero (t : ArrayType) : t.Holds 0 := by
  cases t with
  | float64 => rfl
  | float32 =>
    exact holds_float32_of_eq 0 0 0 (Or.inl (by norm_num)) (by norm_num) (by norm_num)
      (by norm_num)

theorem holds_half (t : ArrayType) : t.Holds (1 / 2) := by
  cases t with
  | float64 => rfl
  | float32 =>
    exact holds_float32_of_eq (1 / 2) 1 (-1) (Or.inl (by norm_num)) (by norm_num)
      (by norm_num) (by norm_num)

theorem round_half (t : ArrayType) : t.round (1 / 2) = 1 / 2 := round_of_holds (holds_half t)
/-! ## Bounding boxes of finite points -/

theorem mathMin_fin (a b : ℚ) : Math.min (.fin a) (.fin b) = .fin (min a b) := by
  unfold Math.min
  rcases le_or_lt a b with h | h
  · simp [h, not_lt.mpr h]
  · simp [h, not_le.mpr h, min_eq_right h.le]

theorem mathMax_fin (a b : ℚ) : Math.max (.fin a) (.fin b) = .fin (max a b) := by
  unfold Math.max
  rcases le_or_lt b a with h | h
  · simp [h, not_lt.mpr h]
  · simp [h, max_eq_right h.le]

theorem mathMin_pinf_fin (a : ℚ) : Math.min .pinf (.fin a) = .fin a := by
  simp [Math.min, JSNum.lt]

theorem mathMax_ninf_fin (a : ℚ) : Math.max .ninf (.fin a) = .fin a := by
  simp [Math.max, JSNum.lt]

theorem isMinOf_append_singleton {xs : List ℚ} {a : ℚ} (h : IsMinOf xs a) (x : ℚ) :
    IsMinOf (xs ++ [x]) (min a x) := by
  obtain ⟨hm, hle⟩ := h
  refine ⟨?_, ?_⟩
  · rcases min_choice a x with e | e <;> simp [e, hm]
  · intro y hy
    rcases List.mem_append.mp hy with hy | hy
    · exact (min_le_left _ _).trans (hle y hy)
    · simp at hy; subst hy; exact min_le_right _ _

theorem isMaxOf_append_singleton {xs : List ℚ} {a : ℚ} (h : IsMaxOf xs a) (x : ℚ) :
    IsMaxOf (xs ++ [x]) (max a x) := by
  obtain ⟨hm, hle⟩ := h
  refine ⟨?_, ?_⟩
  · rcases max_choice a x with e | e <;> simp [e, hm]
  · intro y hy
    rcases List.mem_append.mp hy with hy | hy
    · exact (hle y hy).trans (le_max_left _ _)
    · simp at hy; subst hy; exact le_max_right _ _

theorem isMinOf_unique {xs : List ℚ} {a b : ℚ} (ha : IsMinOf xs a) (hb : IsMinOf xs b) :
    a = b := le_antisymm (ha.2 b hb.1) (hb.2 a ha.1)

theorem isMaxOf_unique {xs : List ℚ} {a b : ℚ} (ha : IsMaxOf xs a) (hb : IsMaxOf xs b) :
    a = b := le_antisymm (hb.2 a ha.1) (ha.2 b hb.1)

theorem isMinOf_map {xs : List ℚ} {a : ℚ} (h : IsMinOf xs a) {f : ℚ → ℚ} (hf : Monotone f) :
    IsMinOf (xs.map f) (f a) := by
  refine ⟨List.mem_map_of_mem f h.1, ?_⟩
  intro y hy
  obtain ⟨x, hx, rfl⟩ := List.mem_map.mp hy
  exact hf (h.2 x hx)

theorem isMaxOf_map {xs : List ℚ} {a : ℚ} (h : IsMaxOf xs a) {f : ℚ → ℚ} (hf : Monotone f) :
    IsMaxOf (xs.map f) (f a) := by
  refine ⟨List.mem_map_of_mem f h.1, ?_⟩
  intro y hy
  obtain ⟨x, hx, rfl⟩ := List.mem_map.mp hy
  exact hf (h.2 x hx)

theorem isMinOf_le_max {xs : List ℚ} {a b : ℚ} (ha : IsMinOf xs a) (hb : IsMaxOf xs b) :
    a ≤ b := hb.2 a ha.1

theorem isBoundingBox_unique {ps : List Point3} {lo hi lo' hi' : Point3}
    (h : IsBoundingBox ps lo hi) (h' : IsBoundingBox ps lo' hi') : lo = lo' ∧ hi = hi' := by
  obtain ⟨a1, a2, a3, a4, a5, a6⟩ := h
  obtain ⟨b1, b2, b3, b4, b5, b6⟩ := h'
  cases lo; cases hi; cases lo'; cases hi'
  simp only [Point3.mk.injEq]
  exact ⟨⟨isMinOf_unique a1 b1, isMinOf_unique a3 b3, isMinOf_unique a5 b5⟩, ⟨isMaxOf_unique a2 b2, isMaxOf_unique a4 b4, isMaxOf_unique a6 b6⟩⟩

theorem isBoundingBox_map {ps : List Point3} {lo hi : Point3} (h : IsBoundingBox ps lo hi)
    (fx fy fz : ℚ → ℚ) (hx : Monotone fx) (hy : Monotone fy) (hz : Monotone fz) :
    IsBoundingBox (ps.map (fun p => ⟨fx p.x, fy p.y, fz p.z⟩))
      ⟨fx lo.x, fy lo.y, fz lo.z⟩ ⟨fx hi.x, fy hi.y, fz hi.z⟩ := by
  obtain ⟨a1, a2, a3, a4, a5, a6⟩ := h
  unfold IsBoundingBox
  simp only [List.map_map, Function.comp_def]
  have e : ∀ (f : ℚ → ℚ) (g : Point3 → ℚ),
      List.map (fun p => f (g p)) ps = (ps.map g).map f := by
    intro f g; simp [List.map_map, Function.comp_def]
  rw [e fx (fun p => p.x), e fy (fun p => p.y), e fz (fun p => p.z)]
  exact ⟨isMinOf_map a1 hx, isMaxOf_map a2 hx, isMinOf_map a3 hy, isMaxOf_map a4 hy, isMinOf_map a5 hz, isMaxOf_map a6 hz⟩

theorem expandByPoint_fin (lo hi p : Point3) :
    Box3.expandByPoint ⟨lo.toVector3, hi.toVector3⟩ p.toVector3
      = ⟨(Point3.mk (min lo.x p.x) (min lo.y p.y) (min lo.z p.z)).toVector3,
         (Point3.mk (max hi.x p.x) (max hi.y p.y) (max hi.z p.z)).toVector3⟩ := by
  simp [Box3.expandByPoint, Vector3.min, Vector3.max, Point3.toVector3, mathMin_fin,
    mathMax_fin]

theorem foldl_expandByPoint_fin (ps qs : List Point3) (lo hi : Point3)
    (h : IsBoundingBox qs lo hi) :
    ∃ lo' hi', (ps.map Point3.toVector3).foldl Box3.expandByPoint
        ⟨lo.toVector3, hi.toVector3⟩ = ⟨lo'.toVector3, hi'.toVector3⟩
      ∧ IsBoundingBox (qs ++ ps) lo' hi' := by
  induction ps generalizing qs lo hi with
  | nil => exact ⟨lo, hi, rfl, by simpa using h⟩
  | cons p ps ih =>
    obtain ⟨a1, a2, a3, a4, a5, a6⟩ := h
    have hb : IsBoundingBox (qs ++ [p]) ⟨min lo.x p.x, min lo.y p.y, min lo.z p.z⟩
        ⟨max hi.x p.x, max hi.y p.y, max hi.z p.z⟩ := by
      unfold IsBoundingBox
      simp only [List.map_append, List.map_cons, List.map_nil]
      exact ⟨isMinOf_append_singleton a1 _, isMaxOf_append_singleton a2 _, isMinOf_append_singleton a3 _,
        isMaxOf_append_singleton a4 _, isMinOf_append_singleton a5 _, isMaxOf_append_singleton a6 _⟩
    obtain ⟨lo', hi', e, hb'⟩ := ih (qs ++ [p]) _ _ hb
    refine ⟨lo', hi', ?_, by simpa using hb'⟩
    rw [List.map_cons, List.foldl_cons, expandByPoint_fin, e]

theorem setFromPoints_fin {ps : List Point3} {lo hi : Point3}
    (h : IsBoundingBox ps lo hi) :
    Box3.setFromPoints (ps.map Point3.toVector3) = ⟨lo.toVector3, hi.toVector3⟩ := by
  cases ps with
  | nil => exact absurd h.1.1 (by simp)
  | cons p ps =>
    have h0 : Box3.expandByPoint Box3.makeEmpty p.toVector3 = ⟨p.toVector3, p.toVector3⟩ := by
      simp [Box3.expandByPoint, Box3.makeEmpty, Vector3.min, Vector3.max, Point3.toVector3,
        mathMin_pinf_fin, mathMax_ninf_fin]
    have hp : IsBoundingBox [p] p p := by
      simp [IsBoundingBox, IsMinOf, IsMaxOf]
    obtain ⟨lo', hi', e, hb⟩ := foldl_expandByPoint_fin ps [p] p p hp
    obtain ⟨e1, e2⟩ := isBoundingBox_unique h hb
    unfold Box3.setFromPoints
    rw [List.map_cons, List.foldl_cons, h0, e, e1, e2]

/-! ## offsetByBoundingBox on finite points -/

theorem applyMatrix4_translation_fin (p : Point3) (a b c : ℚ) :
    Vector3.applyMatrix4 p.toVector3 (Matrix4.makeTranslation (.fin a) (.fin b) (.fin c))
      = (Point3.mk (p.x + a) (p.y + b) (p.z + c)).toVector3 := by
  simp [Vector3.applyMatrix4, Matrix4.makeTranslation, Point3.toVector3]

theorem applyMatrix4_scale_fin (p : Point3) (a b c : ℚ) :
    Vector3.applyMatrix4 p.toVector3 (Matrix4.makeScale (.fin a) (.fin b) (.fin c))
      = (Point3.mk (a * p.x) (b * p.y) (c * p.z)).toVector3 := by
  simp [Vector3.applyMatrix4, Matrix4.makeScale, Point3.toVector3]

theorem isEmpty_fin {ps : List Point3} {lo hi : Point3} (h : IsBoundingBox ps lo hi) :
    Box3.isEmpty ⟨lo.toVector3, hi.toVector3⟩ = false := by
  obtain ⟨a1, a2, a3, a4, a5, a6⟩ := h
  simp [Box3.isEmpty, Point3.toVector3, isMinOf_le_max a1 a2, isMinOf_le_max a3 a4, isMinOf_le_max a5 a6]

theorem getCenter_fin {ps : List Point3} {lo hi : Point3} (h : IsBoundingBox ps lo hi) :
    Box3.getCenter ⟨lo.toVector3, hi.toVector3⟩ = (boxCenter lo hi).toVector3 := by
  unfold Box3.getCenter
  rw [isEmpty_fin h]
  simp [Vector3.addVectors, Vector3.multiplyScalar, Point3.toVector3, boxCenter, div_eq_mul_inv]

theorem getSize_fin {ps : List Point3} {lo hi : Point3} (h : IsBoundingBox ps lo hi) :
    Box3.getSize ⟨lo.toVector3, hi.toVector3⟩
      = (Point3.mk (hi.x - lo.x) (hi.y - lo.y) (hi.z - lo.z)).toVector3 := by
  unfold Box3.getSize
  rw [isEmpty_fin h]
  simp [Vector3.subVectors, Point3.toVector3]

theorem max3_fin (a b c : ℚ) :
    Math.max3 (.fin a) (.fin b) (.fin c) = .fin (max (max a b) c) := by
  simp [Math.max3, mathMax_fin]

theorem extent_le_maxExtent (lo hi : Point3) :
    hi.x - lo.x ≤ maxExtent lo hi ∧ hi.y - lo.y ≤ maxExtent lo hi
    ∧ hi.z - lo.z ≤ maxExtent lo hi := by
  unfold maxExtent
  exact ⟨(le_max_left _ _).trans (le_max_left _ _),
    (le_max_right _ _).trans (le_max_left _ _), le_max_right _ _⟩

theorem maxExtent_translated (c lo hi : Point3) :
    maxExtent (translated c lo) (translated c hi) = maxExtent lo hi := by
  have e : ∀ a b d : ℚ, a - d - (b - d) = a - b := fun a b d => by ring
  simp only [maxExtent, translated, e]

theorem translated_eq_add_neg (c p : Point3) :
    Point3.mk (p.x + -c.x) (p.y + -c.y) (p.z + -c.z) = translated c p := by
  simp [translated, sub_eq_add_neg]

/-! ### The translated points as the array holds them -/

theorem isBoundingBox_storedOffset (t : ArrayType) {ps : List Point3} {lo hi : Point3}
    (hb : IsBoundingBox ps lo hi) (c : Point3) :
    IsBoundingBox (ps.map (storedOffset t c)) (storedOffset t c lo) (storedOffset t c hi) :=
  isBoundingBox_map hb (fun x => t.round (x - c.x)) (fun x => t.round (x - c.y))
    (fun x => t.round (x - c.z))
    (fun _ _ h => round_mono t (sub_le_sub_right h _))
    (fun _ _ h => round_mono t (sub_le_sub_right h _))
    (fun _ _ h => round_mono t (sub_le_sub_right h _))

/-- The stored offsets of the two corners from the center are opposite. -/
theorem storedOffset_lo (t : ArrayType) (lo hi : Point3) :
    (storedOffset t (boxCenter lo hi) lo).x = -(storedOffset t (boxCenter lo hi) hi).x
    ∧ (storedOffset t (boxCenter lo hi) lo).y = -(storedOffset t (boxCenter lo hi) hi).y
    ∧ (storedOffset t (boxCenter lo hi) lo).z = -(storedOffset t (boxCenter lo hi) hi).z := by
  simp only [storedOffset, ArrayType.roundPoint, translated, boxCenter, ← round_neg]
  refine ⟨?_, ?_, ?_⟩ <;> congr 1 <;> ring

theorem storedExtent_eq (t : ArrayType) (lo hi : Point3) :
    storedExtent t lo hi
      = max (max (2 * (storedOffset t (boxCenter lo hi) hi).x)
          (2 * (storedOffset t (boxCenter lo hi) hi).y))
          (2 * (storedOffset t (boxCenter lo hi) hi).z) := by
  obtain ⟨e1, e2, e3⟩ := storedOffset_lo t lo hi
  unfold storedExtent maxExtent
  rw [e1, e2, e3]
  congr 1
  · congr 1 <;> ring
  · ring

theorem storedOffset_hi_nonneg (t : ArrayType) {ps : List Point3} {lo hi : Point3}
    (hb : IsBoundingBox ps lo hi) :
    0 ≤ (storedOffset t (boxCenter lo hi) hi).x ∧ 0 ≤ (storedOffset t (boxCenter lo hi) hi).y
    ∧ 0 ≤ (storedOffset t (boxCenter lo hi) hi).z := by
  obtain ⟨a1, a2, a3, a4, a5, a6⟩ := hb
  have hx := isMinOf_le_max a1 a2
  have hy := isMinOf_le_max a3 a4
  have hz := isMinOf_le_max a5 a6
  have h0 := round_zero t
  simp only [storedOffset, ArrayType.roundPoint, translated, boxCenter]
  refine ⟨?_, ?_, ?_⟩
  · rw [← h0]; exact round_mono t (by linarith)
  · rw [← h0]; exact round_mono t (by linarith)
  · rw [← h0]; exact round_mono t (by linarith)

theorem storedExtent_nonneg (t : ArrayType) {ps : List Point3} {lo hi : Point3}
    (hb : IsBoundingBox ps lo hi) : 0 ≤ storedExtent t lo hi := by
  rw [storedExtent_eq]
  have := (storedOffset_hi_nonneg t hb).1
  exact le_max_of_le_left (le_max_of_le_left (by linarith))

/-- Each stored offset lies within half the stored extent of the origin, on every axis. -/
theorem storedOffset_abs_le (t : ArrayType) {ps : List Point3} {lo hi : Point3}
    (hb : IsBoundingBox ps lo hi) {p : Point3} (hp : p ∈ ps) :
    |(storedOffset t (boxCenter lo hi) p).x| ≤ storedExtent t lo hi / 2
    ∧ |(storedOffset t (boxCenter lo hi) p).y| ≤ storedExtent t lo hi / 2
    ∧ |(storedOffset t (boxCenter lo hi) p).z| ≤ storedExtent t lo hi / 2 := by
  obtain ⟨b1, b2, b3, b4, b5, b6⟩ := isBoundingBox_storedOffset t hb (boxCenter lo hi)
  obtain ⟨e1, e2, e3⟩ := storedOffset_lo t lo hi
  have hq := List.mem_map_of_mem (storedOffset t (boxCenter lo hi)) hp
  have lx := b1.2 _ (List.mem_map_of_mem (fun p => p.x) hq)
  have ux := b2.2 _ (List.mem_map_of_mem (fun p => p.x) hq)
  have ly := b3.2 _ (List.mem_map_of_mem (fun p => p.y) hq)
  have uy := b4.2 _ (List.mem_map_of_mem (fun p => p.y) hq)
  have lz := b5.2 _ (List.mem_map_of_mem (fun p => p.z) hq)
  have uz := b6.2 _ (List.mem_map_of_mem (fun p => p.z) hq)
  have hM := storedExtent_eq t lo hi
  have m1 : 2 * (storedOffset t (boxCenter lo hi) hi).x ≤ storedExtent t lo hi := by
    rw [hM]; exact (le_max_left _ _).trans (le_max_left _ _)
  have m2 : 2 * (storedOffset t (boxCenter lo hi) hi).y ≤ storedExtent t lo hi := by
    rw [hM]; exact (le_max_right _ _).trans (le_max_left _ _)
  have m3 : 2 * (storedOffset t (boxCenter lo hi) hi).z ≤ storedExtent t lo hi := by
    rw [hM]; exact le_max_right _ _
  simp only at lx ux ly uy lz uz
  refine ⟨abs_le.mpr ⟨?_, ?_⟩, abs_le.mpr ⟨?_, ?_⟩, abs_le.mpr ⟨?_, ?_⟩⟩ <;> linarith

/-- Storing `x - (l + h) / 2` does not overflow when `x` lies between two values `l` and
`h` of the element type. -/
theorem store_sub_center (t : ArrayType) {l h x : ℚ} (hl : t.Holds l) (hh : t.Holds h)
    (h1 : l ≤ x) (h2 : x ≤ h) :
    t.store (.fin (x - (l + h) / 2)) = .fin (t.round (x - (l + h) / 2)) := by
  have hB : t.Holds (max h (-l)) := by
    rcases max_choice h (-l) with e | e <;> rw [e]
    · exact hh
    · exact holds_neg hl
  apply store_of_abs_le hB
  have u1 := le_max_left h (-l)
  have u2 := le_max_right h (-l)
  exact abs_le.mpr ⟨by linarith, by linarith⟩

theorem holds_of_isMinOf {t : ArrayType} {ps : List Point3} {f : Point3 → ℚ} {a : ℚ}
    (hv : ∀ p ∈ ps, t.Holds (f p)) (h : a ∈ ps.map f) : t.Holds a := by
  obtain ⟨p, hp, rfl⟩ := List.mem_map.mp h
  exact hv p hp

/-- In a buffer that holds values of its element type, the translation by the center of
the box stores each point as its `storedOffset`: nothing overflows. -/
theorem setXYZ_translated_of_holds (t : ArrayType) {ps : List Point3} {lo hi : Point3}
    (hb : IsBoundingBox ps lo hi) (hv : ∀ p ∈ ps, t.HoldsPoint p) :
    ∀ p ∈ ps, t.setXYZ (translated (boxCenter lo hi) p).toVector3
      = (storedOffset t (boxCenter lo hi) p).toVector3 := by
  intro p hp
  obtain ⟨a1, a2, a3, a4, a5, a6⟩ := hb
  have vx : ∀ a ∈ ps.map (fun p => p.x), t.Holds a :=
    fun a ha => holds_of_isMinOf (f := fun p => p.x) (fun p hp => (hv p hp).1) ha
  have vy : ∀ a ∈ ps.map (fun p => p.y), t.Holds a :=
    fun a ha => holds_of_isMinOf (f := fun p => p.y) (fun p hp => (hv p hp).2.1) ha
  have vz : ∀ a ∈ ps.map (fun p => p.z), t.Holds a :=
    fun a ha => holds_of_isMinOf (f := fun p => p.z) (fun p hp => (hv p hp).2.2) ha
  simp only [ArrayType.setXYZ, Point3.toVector3, translated, boxCenter, storedOffset,
    ArrayType.roundPoint, Vector3.mk.injEq]
  exact ⟨store_sub_center t (vx _ a1.1) (vx _ a2.1)
      (a1.2 _ (List.mem_map_of_mem (fun p => p.x) hp))
      (a2.2 _ (List.mem_map_of_mem (fun p => p.x) hp)),
    store_sub_center t (vy _ a3.1) (vy _ a4.1)
      (a3.2 _ (List.mem_map_of_mem (fun p => p.y) hp))
      (a4.2 _ (List.mem_map_of_mem (fun p => p.y) hp)),
    store_sub_center t (vz _ a5.1) (vz _ a6.1)
      (a5.2 _ (List.mem_map_of_mem (fun p => p.z) hp))
      (a6.2 _ (List.mem_map_of_mem (fun p => p.z) hp))⟩

/-- When each translated point is a value of the element type, the translation stores it
as it is. -/
theorem setXYZ_translated_of_exact (t : ArrayType) {ps : List Point3} (c : Point3)
    (hx : ∀ p ∈ ps, t.HoldsPoint (translated c p)) :
    ∀ p ∈ ps, t.setXYZ (translated c p).toVector3 = (storedOffset t c p).toVector3 := by
  intro p hp
  rw [setXYZ_of_holds (hx p hp), storedOffset, roundPoint_of_holds (hx p hp)]

/-- The first half of `offsetByBoundingBox`: the box, its center, the translation and the
size of the translated box. What remains is the scaling by `1 / maxSize`. -/
theorem offsetByBoundingBox_translated (g : BufferGeometry) (ps : List Point3)
    (lo hi : Point3) (hg : g.position = ps.map Point3.toVector3)
    (hb : IsBoundingBox ps lo hi)
    (hT : ∀ p ∈ ps, g.arrayType.setXYZ (translated (boxCenter lo hi) p).toVector3
      = (storedOffset g.arrayType (boxCenter lo hi) p).toVector3) :
    offsetByBoundingBox g
      = (((BufferGeometry.mk
              ((ps.map (storedOffset g.arrayType (boxCenter lo hi))).map Point3.toVector3)
              g.index
              (some ⟨(storedOffset g.arrayType (boxCenter lo hi) lo).toVector3,
                (storedOffset g.arrayType (boxCenter lo hi) hi).toVector3⟩)
              g.lineDistance g.arrayType).scale
            (1 / .fin (storedExtent g.arrayType lo hi))
            (1 / .fin (storedExtent g.arrayType lo hi))
            (1 / .fin (storedExtent g.arrayType lo hi))).computeBoundingBox,
         { position := (boxCenter lo hi).toVector3,
           scale := (Vector3.mk 1 1 1).multiplyScalar (.fin (storedExtent g.arrayType lo hi)) }) := by
  set c := boxCenter lo hi with hc
  set t := g.arrayType with ht
  have hbox1 := setFromPoints_fin hb
  have hb2 := isBoundingBox_storedOffset t hb c
  have hpos2 : (ps.map Point3.toVector3).map
        (fun v => ArrayType.setXYZ t (Vector3.applyMatrix4 v
          (Matrix4.makeTranslation (.fin (-c.x)) (.fin (-c.y)) (.fin (-c.z)))))
      = (ps.map (storedOffset t c)).map Point3.toVector3 := by
    rw [List.map_map, List.map_map]
    apply List.map_congr_left
    intro p hp
    simp only [Function.comp, applyMatrix4_translation_fin, translated_eq_add_neg]
    exact hT p hp
  have hsize : Math.max3
        (JSNum.fin ((storedOffset t c hi).x - (storedOffset t c lo).x))
        (JSNum.fin ((storedOffset t c hi).y - (storedOffset t c lo).y))
        (JSNum.fin ((storedOffset t c hi).z - (storedOffset t c lo).z))
      = .fin (storedExtent t lo hi) := by
    rw [max3_fin]; rfl
  have hx : ∀ p : Point3, p.toVector3.x = .fin p.x := fun _ => rfl
  have hy : ∀ p : Point3, p.toVector3.y = .fin p.y := fun _ => rfl
  have hz : ∀ p : Point3, p.toVector3.z = .fin p.z := fun _ => rfl
  unfold offsetByBoundingBox
  simp only [BufferGeometry.computeBoundingBox, BufferGeometry.box, Option.getD_some,
    hbox1, getCenter_fin hb, BufferGeometry.translate, BufferGeometry.applyMatrix4,
    BufferGeometry.scale, ← hc, ← ht, hx, hy, hz, JSNum.neg_fin, hg, hpos2,
    setFromPoints_fin hb2, getSize_fin hb2, hsize]

theorem isBoundingBox_storedNormalized (t : ArrayType) {ps : List Point3} {lo hi : Point3}
    (hb : IsBoundingBox ps lo hi) (c : Point3) {m : ℚ} (hm : 0 ≤ m) :
    IsBoundingBox (ps.map (storedNormalized t c m)) (storedNormalized t c m lo)
      (storedNormalized t c m hi) :=
  isBoundingBox_map hb (fun x => t.round (t.round (x - c.x) / m))
    (fun x => t.round (t.round (x - c.y) / m)) (fun x => t.round (t.round (x - c.z) / m))
    (fun _ _ h => round_mono t
      (div_le_div_of_nonneg_right (round_mono t (sub_le_sub_right h _)) hm))
    (fun _ _ h => round_mono t
      (div_le_div_of_nonneg_right (round_mono t (sub_le_sub_right h _)) hm))
    (fun _ _ h => round_mono t
      (div_le_div_of_nonneg_right (round_mono t (sub_le_sub_right h _)) hm))

theorem abs_div_le_half {x m : ℚ} (hm : 0 < m) (h : |x| ≤ m / 2) : |1 / m * x| ≤ 1 / 2 := by
  rw [abs_mul, abs_of_pos (by positivity : (0 : ℚ) < 1 / m)]
  calc 1 / m * |x| ≤ 1 / m * (m / 2) := mul_le_mul_of_nonneg_left h (by positivity)
    _ = 1 / 2 := by field_simp

/-- The scaling by `1 / m` stores each stored offset as its `storedNormalized`: the scaled
values lie between `-1/2` and `1/2`, so nothing overflows. -/
theorem setXYZ_scaled (t : ArrayType) {ps : List Point3} {lo hi : Point3}
    (hb : IsBoundingBox ps lo hi) (hm : 0 < storedExtent t lo hi) {p : Point3} (hp : p ∈ ps) :
    t.setXYZ (Vector3.applyMatrix4 (storedOffset t (boxCenter lo hi) p).toVector3
        (Matrix4.makeScale (.fin (1 / storedExtent t lo hi)) (.fin (1 / storedExtent t lo hi))
          (.fin (1 / storedExtent t lo hi))))
      = (storedNormalized t (boxCenter lo hi) (storedExtent t lo hi) p).toVector3 := by
  obtain ⟨h1, h2, h3⟩ := storedOffset_abs_le t hb hp
  rw [applyMatrix4_scale_fin]
  simp only [ArrayType.setXYZ, Point3.toVector3, storedNormalized, ArrayType.roundPoint,
    scaled, Vector3.mk.injEq]
  have e : ∀ x : ℚ, t.round (x / storedExtent t lo hi)
      = t.round (1 / storedExtent t lo hi * x) := fun x => by congr 1; ring
  rw [e, e, e]
  exact ⟨store_of_abs_le (holds_half t) (abs_div_le_half hm h1),
    store_of_abs_le (holds_half t) (abs_div_le_half hm h2),
    store_of_abs_le (holds_half t) (abs_div_le_half hm h3)⟩

/-- The whole of `offsetByBoundingBox` on finite points, when the translated points are
stored without overflow and the box of what is stored has a maximum extent `m > 0`: each
point is translated by the center, stored, scaled by `1 / m` and stored again. -/
theorem offsetByBoundingBox_stored (g : BufferGeometry) (ps : List Point3) (lo hi : Point3)
    (hg : g.position = ps.map Point3.toVector3) (hb : IsBoundingBox ps lo hi)
    (hT : ∀ p ∈ ps, g.arrayType.setXYZ (translated (boxCenter lo hi) p).toVector3
      = (storedOffset g.arrayType (boxCenter lo hi) p).toVector3)
    (hm : 0 < storedExtent g.arrayType lo hi) :
    offsetByBoundingBox g
      = ({ position := (ps.map (storedNormalized g.arrayType (boxCenter lo hi)
              (storedExtent g.arrayType lo hi))).map Point3.toVector3,
           index := g.index,
           boundingBox := some
             ⟨(storedNormalized g.arrayType (boxCenter lo hi)
                (storedExtent g.arrayType lo hi) lo).toVector3,
              (storedNormalized g.arrayType (boxCenter lo hi)
                (storedExtent g.arrayType lo hi) hi).toVector3⟩,
           lineDistance := g.lineDistance,
           arrayType := g.arrayType },
         { position := (boxCenter lo hi).toVector3,
           scale := ⟨.fin (storedExtent g.arrayType lo hi), .fin (storedExtent g.arrayType lo hi),
             .fin (storedExtent g.arrayType lo hi)⟩ }) := by
  rw [offsetByBoundingBox_translated g ps lo hi hg hb hT]
  set c := boxCenter lo hi with hc
  set t := g.arrayType with ht
  set m := storedExtent t lo hi with hmdef
  have hm0 : m ≠ 0 := ne_of_gt hm
  have hdiv : (1 : JSNum) / JSNum.fin m = .fin (1 / m) := by
    simp [hm0]
  have hb3 := isBoundingBox_storedNormalized t hb c hm.le
  have hpos3 : ((ps.map (storedOffset t c)).map Point3.toVector3).map
        (fun v => ArrayType.setXYZ t (Vector3.applyMatrix4 v
          (Matrix4.makeScale (.fin (1 / m)) (.fin (1 / m)) (.fin (1 / m)))))
      = (ps.map (storedNormalized t c m)).map Point3.toVector3 := by
    rw [List.map_map, List.map_map, List.map_map]
    apply List.map_congr_left
    intro p hp
    exact setXYZ_scaled t hb hm hp
  simp only [BufferGeometry.scale, BufferGeometry.applyMatrix4,
    BufferGeometry.computeBoundingBox, hdiv, hpos3, setFromPoints_fin hb3]
  simp [Vector3.multiplyScalar]

/-! ### A degenerate box -/

theorem pinf_mul_zero : JSNum.pinf * JSNum.fin 0 = JSNum.nan := by
  show JSNum.mul .pinf (.fin 0) = .nan
  simp [JSNum.mul, JSNum.signedInf]

theorem nan_add (a : JSNum) : JSNum.nan + a = JSNum.nan := by
  show JSNum.add .nan a = .nan
  cases a <;> rfl

theorem add_nan (a : JSNum) : a + JSNum.nan = JSNum.nan := by
  show JSNum.add a .nan = .nan
  cases a <;> rfl

theorem nan_mul (a : JSNum) : JSNum.nan * a = JSNum.nan := by
  show JSNum.mul .nan a = .nan
  cases a <;> rfl

theorem one_div_zero : (1 : JSNum) / JSNum.fin 0 = JSNum.pinf := by
  show JSNum.div (.fin 1) (.fin 0) = .pinf
  simp [JSNum.div, JSNum.signedInf]

theorem applyMatrix4_scale_pinf_origin :
    Vector3.applyMatrix4 (Point3.mk 0 0 0).toVector3
        (Matrix4.makeScale .pinf .pinf .pinf)
      = ⟨.nan, .nan, .nan⟩ := by
  simp only [Vector3.applyMatrix4, Matrix4.makeScale, Point3.toVector3, pinf_mul_zero,
    nan_add, nan_mul, JSNum.zero_eq, JSNum.fin_mul, JSNum.fin_add, mul_zero, add_zero]
  simp [pinf_mul_zero, nan_add, add_nan, nan_mul]

/-- On a geometry of finite points whose translated points, as stored, have a box of
maximum extent `0`, the scale factor is `1 / 0`: every point becomes `(NaN, NaN, NaN)`
and the returned scale is `(0, 0, 0)`. -/
theorem offsetByBoundingBox_degenerate (g : BufferGeometry) (ps : List Point3)
    (lo hi : Point3) (hg : g.position = ps.map Point3.toVector3)
    (hb : IsBoundingBox ps lo hi)
    (hT : ∀ p ∈ ps, g.arrayType.setXYZ (translated (boxCenter lo hi) p).toVector3
      = (storedOffset g.arrayType (boxCenter lo hi) p).toVector3)
    (hm : storedExtent g.arrayType lo hi = 0) :
    (offsetByBoundingBox g).1.position = ps.map (fun _ => ⟨.nan, .nan, .nan⟩)
    ∧ (offsetByBoundingBox g).2.position = (boxCenter lo hi).toVector3
    ∧ (offsetByBoundingBox g).2.scale = ⟨.fin 0, .fin 0, .fin 0⟩ := by
  rw [offsetByBoundingBox_translated g ps lo hi hg hb hT, hm]
  set c := boxCenter lo hi with hc
  set t := g.arrayType with ht
  have hzero : ∀ p ∈ ps, storedOffset t c p = ⟨0, 0, 0⟩ := by
    intro p hp
    obtain ⟨h1, h2, h3⟩ := storedOffset_abs_le t hb hp
    rw [← hc, hm] at h1 h2 h3
    have z : ∀ x : ℚ, |x| ≤ 0 / 2 → x = 0 := fun x h => by
      rw [zero_div] at h
      exact abs_eq_zero.mp (le_antisymm h (abs_nonneg x))
    cases hq : storedOffset t c p with
    | mk x y z' =>
      rw [hq] at h1 h2 h3
      simp only at h1 h2 h3
      rw [z x h1, z y h2, z z' h3]
  refine ⟨?_, rfl, ?_⟩
  · simp only [BufferGeometry.scale, BufferGeometry.applyMatrix4,
      BufferGeometry.computeBoundingBox, one_div_zero, List.map_map]
    apply List.map_congr_left
    intro p hp
    simp only [Function.comp, hzero p hp, applyMatrix4_scale_pinf_origin, setXYZ_nan]
  · simp [Vector3.multiplyScalar]

/-- On a geometry of finite points, whatever the extent of its box, `offsetByBoundingBox`
returns the center of the box and, on all three axes, the maximum extent of the box of
the translated points as they are stored. -/
theorem offsetByBoundingBox_transform (g : BufferGeometry) (ps : List Point3)
    (lo hi : Point3) (hg : g.position = ps.map Point3.toVector3)
    (hb : IsBoundingBox ps lo hi)
    (hT : ∀ p ∈ ps, g.arrayType.setXYZ (translated (boxCenter lo hi) p).toVector3
      = (storedOffset g.arrayType (boxCenter lo hi) p).toVector3) :
    (offsetByBoundingBox g).2
      = { position := (boxCenter lo hi).toVector3,
          scale := ⟨.fin (storedExtent g.arrayType lo hi), .fin (storedExtent g.arrayType lo hi),
            .fin (storedExtent g.arrayType lo hi)⟩ } := by
  rcases (storedExtent_nonneg g.arrayType hb).lt_or_eq with hm | hm
  · rw [offsetByBoundingBox_stored g ps lo hi hg hb hT hm]
  · obtain ⟨_, h2, h3⟩ := offsetByBoundingBox_degenerate g ps lo hi hg hb hT hm.symm
    rw [← hm]
    cases hr : (offsetByBoundingBox g).2
    rw [hr] at h2 h3
    simp only at h2 h3
    rw [h2, h3]

/-! ### Exact arithmetic -/

/-- When the translated points are values of the element type, the translation keeps the
maximum extent of the box. -/
theorem storedExtent_of_exact (t : ArrayType) {ps : List Point3} {lo hi : Point3}
    (hb : IsBoundingBox ps lo hi)
    (hx : ∀ p ∈ ps, t.HoldsPoint (translated (boxCenter lo hi) p)) :
    storedExtent t lo hi = maxExtent lo hi := by
  obtain ⟨a1, a2, a3, a4, a5, a6⟩ := hb
  have key : ∀ (f : Point3 → ℚ) (a d : ℚ), a ∈ ps.map f →
      (∀ p ∈ ps, t.Holds (f p - d)) → t.round (a - d) = a - d := by
    intro f a d ha hv
    obtain ⟨p, hp, rfl⟩ := List.mem_map.mp ha
    exact round_of_holds (hv p hp)
  have kx := fun a ha => key (fun p => p.x) a (boxCenter lo hi).x ha (fun p hp => (hx p hp).1)
  have ky := fun a ha => key (fun p => p.y) a (boxCenter lo hi).y ha (fun p hp => (hx p hp).2.1)
  have kz := fun a ha => key (fun p => p.z) a (boxCenter lo hi).z ha (fun p hp => (hx p hp).2.2)
  rw [← maxExtent_translated (boxCenter lo hi) lo hi]
  simp only [storedExtent, storedOffset, ArrayType.roundPoint, translated, maxExtent]
  rw [kx _ a1.1, kx _ a2.1, ky _ a3.1, ky _ a4.1, kz _ a5.1, kz _ a6.1]

/-- When the translated and the normalized points are values of the element type, no
step rounds: the points left are the points `(p - c) / m`. -/
theorem storedNormalized_of_exact (t : ArrayType) (c : Point3) (m : ℚ) {p : Point3}
    (h1 : t.HoldsPoint (translated c p)) (h2 : t.HoldsPoint (normalized c m p)) :
    storedNormalized t c m p = normalized c m p := by
  have e : scaled m (translated c p) = normalized c m p := rfl
  rw [storedNormalized, storedOffset, roundPoint_of_holds h1, e, roundPoint_of_holds h2]

/-! ### Single-precision values of the examples -/

theorem roundTiesToEven_tie (n : ℤ) (he : n % 2 = 0) :
    roundTiesToEven ((n : ℚ) + 1 / 2) = n := by
  have hf : ⌊(n : ℚ) + 1 / 2⌋ = n := by
    rw [Int.floor_eq_iff]
    constructor <;> norm_num
  unfold roundTiesToEven
  rw [hf]
  have e : (n : ℚ) + 1 / 2 - (n : ℚ) = 1 / 2 := by ring
  simp [e, he]

theorem float32Spacing_of_bounds {a : ℚ} {e : ℤ} (h1 : (2 : ℚ) ^ e ≤ a)
    (h2 : a < (2 : ℚ) ^ (e + 1)) : float32Spacing a = max e (-126) - 23 := by
  unfold float32Spacing
  rw [log_eq_of_bounds h1 h2]

theorem froundQ_8388608_half : froundQ (8388608 + 1 / 2) = 8388608 := by
  have hs : float32Spacing (8388608 + 1 / 2 : ℚ) = 0 := by
    rw [float32Spacing_of_bounds (e := 23) (by norm_num) (by norm_num)]
    rfl
  have h := roundTiesToEven_tie 8388608 (by norm_num)
  have h0 : ¬ ((8388608 + 1 / 2 : ℚ) < 0) := by norm_num
  simp only [froundQ, h0, if_false, float32Nearest, hs, zpow_zero, div_one, mul_one]
  push_cast at h
  rw [h]
  norm_num

theorem froundQ_16777217 : froundQ 16777217 = 16777216 := by
  have hs : float32Spacing (16777217 : ℚ) = 1 := by
    rw [float32Spacing_of_bounds (e := 24) (by norm_num) (by norm_num)]
    rfl
  have h := roundTiesToEven_tie 8388608 (by norm_num)
  have h0 : ¬ ((16777217 : ℚ) < 0) := by norm_num
  have e : (16777217 : ℚ) / 2 ^ (1 : ℤ) = ((8388608 : ℤ) : ℚ) + 1 / 2 := by norm_num
  simp only [froundQ, h0, if_false, float32Nearest, hs]
  rw [e, h]
  norm_num

theorem froundQ_subnormal_half : froundQ (1 / 2 ^ 150) = 0 := by
  have hs : float32Spacing (1 / 2 ^ 150 : ℚ) = -149 := by
    rw [float32Spacing_of_bounds (e := -150) (by norm_num) (by norm_num)]
    rfl
  have h := roundTiesToEven_tie 0 (by norm_num)
  have h0 : ¬ ((1 / 2 ^ 150 : ℚ) < 0) := by norm_num
  have e : (1 / 2 ^ 150 : ℚ) / 2 ^ (-149 : ℤ) = ((0 : ℤ) : ℚ) + 1 / 2 := by norm_num
  simp only [froundQ, h0, if_false, float32Nearest, hs]
  rw [e, h]
  norm_num

theorem holds32_zero : ArrayType.float32.Holds 0 := holds_zero _

theorem holds32_one : ArrayType.float32.Holds 1 :=
  holds_float32_of_eq _ 1 0 (Or.inl (by norm_num)) (by norm_num) (by norm_num) (by norm_num)

theorem holds32_two : ArrayType.float32.Holds 2 :=
  holds_float32_of_eq _ 2 0 (Or.inl (by norm_num)) (by norm_num) (by norm_num) (by norm_num)

theorem holds32_three : ArrayType.float32.Holds 3 :=
  holds_float32_of_eq _ 3 0 (Or.inl (by norm_num)) (by norm_num) (by norm_num) (by norm_num)

theorem holds32_four : ArrayType.float32.Holds 4 :=
  holds_float32_of_eq _ 4 0 (Or.inl (by norm_num)) (by norm_num) (by norm_num) (by norm_num)

theorem samplePoints_box : IsBoundingBox samplePoints ⟨0, 0, 0⟩ ⟨4, 2, 0⟩ := by
  simp [IsBoundingBox, IsMinOf, IsMaxOf, samplePoints]

theorem samplePoints_extent : maxExtent ⟨0, 0, 0⟩ ⟨4, 2, 0⟩ = 4 := by
  norm_num [maxExtent]

theorem samplePoints_center : boxCenter ⟨0, 0, 0⟩ ⟨4, 2, 0⟩ = ⟨2, 1, 0⟩ := by
  norm_num [boxCenter]

theorem samplePoints_holds : ∀ p ∈ samplePoints, ArrayType.float32.HoldsPoint p := by
  intro p hp
  simp only [samplePoints, List.mem_cons, List.mem_singleton, List.mem_nil_iff, or_false] at hp
  rcases hp with rfl | rfl
  · exact ⟨holds32_zero, holds32_zero, holds32_zero⟩
  · exact ⟨holds32_four, holds32_two, holds32_zero⟩

/-- The normalization of the points `(0,0,0)` and `(4,2,0)` rounds nothing in single
precision: the translated points are `(-2,-1,0)` and `(2,1,0)`, the normalized ones
`(-1/2,-1/4,0)` and `(1/2,1/4,0)`. -/
theorem samplePoints_storedExactly :
    StoredExactly .float32 samplePoints (boxCenter ⟨0, 0, 0⟩ ⟨4, 2, 0⟩)
      (maxExtent ⟨0, 0, 0⟩ ⟨4, 2, 0⟩) := by
  rw [samplePoints_extent, samplePoints_center]
  intro p hp
  simp only [samplePoints, List.mem_cons, List.mem_singleton, List.mem_nil_iff, or_false] at hp
  rcases hp with rfl | rfl
  · refine ⟨⟨?_, ?_, ?_⟩, ⟨?_, ?_, ?_⟩⟩
    · exact holds_float32_of_eq _ 2 0 (Or.inr (by norm_num [translated])) (by norm_num)
        (by norm_num) (by norm_num)
    · exact holds_float32_of_eq _ 1 0 (Or.inr (by norm_num [translated])) (by norm_num)
        (by norm_num) (by norm_num)
    · exact holds_float32_of_eq _ 0 0 (Or.inl (by norm_num [translated])) (by norm_num)
        (by norm_num) (by norm_num)
    · exact holds_float32_of_eq _ 1 (-1) (Or.inr (by norm_num [normalized])) (by norm_num)
        (by norm_num) (by norm_num)
    · exact holds_float32_of_eq _ 1 (-2) (Or.inr (by norm_num [normalized])) (by norm_num)
        (by norm_num) (by norm_num)
    · exact holds_float32_of_eq _ 0 0 (Or.inl (by norm_num [normalized])) (by norm_num)
        (by norm_num) (by norm_num)
  · refine ⟨⟨?_, ?_, ?_⟩, ⟨?_, ?_, ?_⟩⟩
    · exact holds_float32_of_eq _ 2 0 (Or.inl (by norm_num [translated])) (by norm_num)
        (by norm_num) (by norm_num)
    · exact holds_float32_of_eq _ 1 0 (Or.inl (by norm_num [translated])) (by norm_num)
        (by norm_num) (by norm_num)
    · exact holds_float32_of_eq _ 0 0 (Or.inl (by norm_num [translated])) (by norm_num)
        (by norm_num) (by norm_num)
    · exact holds_float32_of_eq _ 1 (-1) (Or.inl (by norm_num [normalized])) (by norm_num)
        (by norm_num) (by norm_num)
    · exact holds_float32_of_eq _ 1 (-2) (Or.inl (by norm_num [normalized])) (by norm_num)
        (by norm_num) (by norm_num)
    · exact holds_float32_of_eq _ 0 0 (Or.inl (by norm_num [normalized])) (by norm_num)
        (by norm_num) (by norm_num)

theorem samplePoints_storedExtent : storedExtent .float32 ⟨0, 0, 0⟩ ⟨4, 2, 0⟩ = 4 := by
  rw [storedExtent_of_exact .float32 samplePoints_box
    (fun p hp => (samplePoints_storedExactly p hp).1), samplePoints_extent]

theorem storedExactly_float64 (ps : List Point3) (c : Point3) (m : ℚ) :
    StoredExactly .float64 ps c m :=
  fun _ _ => ⟨holdsPoint_float64 _, holdsPoint_float64 _⟩

/-- Without rounding, `offsetByBoundingBox` leaves the points `(p - c) / m`. -/
theorem offsetByBoundingBox_exact (g : BufferGeometry) (ps : List Point3) (lo hi : Point3)
    (hg : g.position = ps.map Point3.toVector3) (hb : IsBoundingBox ps lo hi)
    (hm : 0 < maxExtent lo hi)
    (hx : StoredExactly g.arrayType ps (boxCenter lo hi) (maxExtent lo hi)) :
    storedExtent g.arrayType lo hi = maxExtent lo hi
    ∧ (offsetByBoundingBox g).1.position
        = ps.map (fun p => (normalized (boxCenter lo hi) (maxExtent lo hi) p).toVector3)
    ∧ (offsetByBoundingBox g).2
        = { position := (boxCenter lo hi).toVector3,
            scale := ⟨.fin (maxExtent lo hi), .fin (maxExtent lo hi), .fin (maxExtent lo hi)⟩ } := by
  have hT := setXYZ_translated_of_exact g.arrayType (boxCenter lo hi) (fun p hp => (hx p hp).1)
  have hM := storedExtent_of_exact g.arrayType hb (fun p hp => (hx p hp).1)
  have h := offsetByBoundingBox_stored g ps lo hi hg hb hT (by rw [hM]; exact hm)
  rw [hM] at h
  refine ⟨hM, ?_, by rw [h]⟩
  rw [h, List.map_map]
  apply List.map_congr_left
  intro p hp
  simp only [Function.comp]
  rw [storedNormalized_of_exact _ _ _ (hx p hp).1 (hx p hp).2]

/-- C3, as amended: for a geometry of finite points, each a value of the element type of
the position buffer, whose bounding box has corners `lo` and `hi` and center `c` (their
midpoint), `offsetByBoundingBox` replaces every point `p` by the stored value of `q / m`,
where `q` is the stored value of `p - c`, and returns `position = c` and
`scale = (m, m, m)`, where `m > 0` is the largest per-axis extent of the box of the
stored points `q`. A stored value is the number rounded to single precision in the
`Float32Array` that `setFromPoints` creates. When nothing is rounded (as in a
`Float64Array`, over exact arithmetic) `m` is the maximum extent of the box of the
geometry, the largest per-axis `max - min`, and every point `p` is replaced by
`(p - c) / m`. -/
theorem offsetByBoundingBox_spec (g : BufferGeometry) (ps : List Point3) (lo hi : Point3)
    (hg : g.position = ps.map Point3.toVector3) (hb : IsBoundingBox ps lo hi)
    (hv : ∀ p ∈ ps, g.arrayType.HoldsPoint p)
    (hm : 0 < storedExtent g.arrayType lo hi) :
    (offsetByBoundingBox g).1.position
        = ps.map (fun p => (storedNormalized g.arrayType (boxCenter lo hi)
            (storedExtent g.arrayType lo hi) p).toVector3)
    ∧ (offsetByBoundingBox g).2.position = (boxCenter lo hi).toVector3
    ∧ (offsetByBoundingBox g).2.scale
        = ⟨.fin (storedExtent g.arrayType lo hi), .fin (storedExtent g.arrayType lo hi),
           .fin (storedExtent g.arrayType lo hi)⟩
    ∧ (StoredExactly g.arrayType ps (boxCenter lo hi) (maxExtent lo hi) →
        storedExtent g.arrayType lo hi = maxExtent lo hi
        ∧ (offsetByBoundingBox g).1.position
            = ps.map (fun p => (normalized (boxCenter lo hi) (maxExtent lo hi) p).toVector3))
    ∧ (g.arrayType = .float64 →
        StoredExactly g.arrayType ps (boxCenter lo hi) (maxExtent lo hi)) := by
  have hT := setXYZ_translated_of_holds g.arrayType hb hv
  have h := offsetByBoundingBox_stored g ps lo hi hg hb hT hm
  refine ⟨by rw [h, List.map_map]; rfl, by rw [h], by rw [h], ?_, ?_⟩
  · intro hx
    have hM := storedExtent_of_exact g.arrayType hb (fun p hp => (hx p hp).1)
    have h2 := offsetByBoundingBox_exact g ps lo hi hg hb (by rw [← hM]; exact hm) hx
    exact ⟨h2.1, h2.2.1⟩
  · intro h64
    rw [h64]
    exact storedExactly_float64 _ _ _

/-- C3, as amended, on the single-precision points `(0,0,0)` and `(4,2,0)`, where nothing
is rounded: they become `(-1/2,-1/4,0)` and `(1/2,1/4,0)`, with position `(2,1,0)` and
scale `(4,4,4)`. -/
theorem offsetByBoundingBox_spec_witness :
    (∀ p ∈ samplePoints, ArrayType.float32.HoldsPoint p)
    ∧ 0 < storedExtent .float32 ⟨0, 0, 0⟩ ⟨4, 2, 0⟩
    ∧ (offsetByBoundingBox sampleGeometry).1.position
        = [⟨.fin (-1 / 2), .fin (-1 / 4), .fin 0⟩, ⟨.fin (1 / 2), .fin (1 / 4), .fin 0⟩]
    ∧ (offsetByBoundingBox sampleGeometry).2.position = ⟨.fin 2, .fin 1, .fin 0⟩
    ∧ (offsetByBoundingBox sampleGeometry).2.scale = ⟨.fin 4, .fin 4, .fin 4⟩ := by
  have hpos : 0 < storedExtent .float32 ⟨0, 0, 0⟩ ⟨4, 2, 0⟩ := by
    rw [samplePoints_storedExtent]; norm_num
  have h := offsetByBoundingBox_spec sampleGeometry samplePoints ⟨0, 0, 0⟩ ⟨4, 2, 0⟩ rfl
    samplePoints_box samplePoints_holds hpos
  obtain ⟨_, h2, h3, h4, _⟩ := h
  have h5 := (h4 samplePoints_storedExactly).2
  refine ⟨samplePoints_holds, hpos, h5.trans ?_, h2.trans ?_, h3.trans ?_⟩
  · rw [samplePoints_extent, samplePoints_center]
    norm_num [samplePoints, normalized, Point3.toVector3]
  · rw [samplePoints_center]; rfl
  · show _ = _
    rw [show sampleGeometry.arrayType = ArrayType.float32 from rfl, samplePoints_storedExtent]

theorem roundingPoints_box :
    IsBoundingBox [⟨1, 0, 0⟩, ⟨16777218, 0, 0⟩] ⟨1, 0, 0⟩ ⟨16777218, 0, 0⟩ := by
  simp [IsBoundingBox, IsMinOf, IsMaxOf]

theorem roundingPoints_holds :
    ∀ p ∈ [(⟨1, 0, 0⟩ : Point3), ⟨16777218, 0, 0⟩], ArrayType.float32.HoldsPoint p := by
  intro p hp
  simp only [List.mem_cons, List.mem_singleton, List.mem_nil_iff, or_false] at hp
  rcases hp with rfl | rfl
  · exact ⟨holds32_one, holds32_zero, holds32_zero⟩
  · exact ⟨holds_float32_of_eq _ 8388609 1 (Or.inl (by norm_num)) (by norm_num) (by norm_num)
      (by norm_num), holds32_zero, holds32_zero⟩

theorem roundingPoints_storedExtent :
    storedExtent .float32 ⟨1, 0, 0⟩ ⟨16777218, 0, 0⟩ = 16777216 := by
  rw [storedExtent_eq]
  have e : (16777218 : ℚ) - (1 + 16777218) / 2 = 8388608 + 1 / 2 := by norm_num
  have e0 : (0 : ℚ) - (0 + 0) / 2 = 0 := by norm_num
  simp only [storedOffset, ArrayType.roundPoint, translated, boxCenter, ArrayType.round, e, e0,
    froundQ_8388608_half, froundQ_zero]
  norm_num

/-- C3 as stated fails on the single-precision points `(1, 0, 0)` and `(16777218, 0, 0)`.
Their box has the maximum extent `m = 16777217 > 0` and the center `8388609.5`; the
translated coordinates `-8388608.5` and `8388608.5` are stored in the `Float32Array` as
`-8388608` and `8388608`, so the size of the box as `offsetByBoundingBox` measures it,
and the returned scale, is `16777216` and not `m`. -/
theorem offsetByBoundingBox_rounds_scale :
    roundingGeometry.position = [(⟨1, 0, 0⟩ : Point3), ⟨16777218, 0, 0⟩].map Point3.toVector3
    ∧ IsBoundingBox [⟨1, 0, 0⟩, ⟨16777218, 0, 0⟩] ⟨1, 0, 0⟩ ⟨16777218, 0, 0⟩
    ∧ maxExtent ⟨1, 0, 0⟩ ⟨16777218, 0, 0⟩ = 16777217
    ∧ (offsetByBoundingBox roundingGeometry).2.scale
        = ⟨.fin 16777216, .fin 16777216, .fin 16777216⟩
    ∧ (offsetByBoundingBox roundingGeometry).2.scale
        ≠ ⟨.fin (maxExtent ⟨1, 0, 0⟩ ⟨16777218, 0, 0⟩),
           .fin (maxExtent ⟨1, 0, 0⟩ ⟨16777218, 0, 0⟩),
           .fin (maxExtent ⟨1, 0, 0⟩ ⟨16777218, 0, 0⟩)⟩ := by
  have hext : maxExtent ⟨1, 0, 0⟩ ⟨16777218, 0, 0⟩ = 16777217 := by norm_num [maxExtent]
  have h := offsetByBoundingBox_transform roundingGeometry [⟨1, 0, 0⟩, ⟨16777218, 0, 0⟩]
    ⟨1, 0, 0⟩ ⟨16777218, 0, 0⟩ rfl roundingPoints_box
    (setXYZ_translated_of_holds .float32 roundingPoints_box roundingPoints_holds)
  have hs : (offsetByBoundingBox roundingGeometry).2.scale
      = ⟨.fin 16777216, .fin 16777216, .fin 16777216⟩ := by
    rw [h]
    show Vector3.mk _ _ _ = _
    rw [show roundingGeometry.arrayType = ArrayType.float32 from rfl,
      roundingPoints_storedExtent]
  refine ⟨rfl, roundingPoints_box, hext, hs, ?_⟩
  rw [hs, hext]
  intro hne
  simp only [Vector3.mk.injEq, JSNum.fin.injEq] at hne
  norm_num at hne

/-! ### The box after normalization -/

/-- Along one axis, with `a` the stored offset of the upper corner and `m` the stored
extent: the normalized box reaches from `-r` to `r` with `0 ≤ 2 r ≤ 1`, and `2 r = 1` on an
axis whose extent is `m`. -/
theorem unit_extent (t : ArrayType) {a m : ℚ} (hm : 0 < m) (ha : 0 ≤ a) (ham : 2 * a ≤ m) :
    t.round (-a / m) = -t.round (a / m)
    ∧ 0 ≤ t.round (a / m) - t.round (-a / m)
    ∧ t.round (a / m) - t.round (-a / m) ≤ 1
    ∧ (2 * a = m → t.round (a / m) - t.round (-a / m) = 1) := by
  have e : t.round (-a / m) = -t.round (a / m) := by rw [neg_div, round_neg]
  have h0 : 0 ≤ t.round (a / m) := by
    rw [← round_zero t]; exact round_mono t (by positivity)
  have h1 : t.round (a / m) ≤ 1 / 2 := by
    rw [← round_half t]
    apply round_mono t
    rw [div_le_iff₀ hm]; linarith
  refine ⟨e, by rw [e]; linarith, by rw [e]; linarith, ?_⟩
  intro h2
  have : a / m = 1 / 2 := by
    rw [div_eq_iff (ne_of_gt hm)]; linarith
  rw [e, this, round_half]
  norm_num

/-- C4, as amended: for a geometry of finite points, each a value of the element type of
the position buffer, such that the box of the translated points, as the buffer stores
them, has a maximum extent `> 0`: after `offsetByBoundingBox` the axis-aligned bounding
box of the geometry's points (which is also the box stored on the geometry) is centered
at the origin, `min = -max` on every axis, its largest per-axis extent is exactly `1`,
and every extent lies in `[0, 1]`. Over exact arithmetic the extent of the stored
translated points is that of the geometry's box. -/
theorem offsetByBoundingBox_unit_box (g : BufferGeometry) (ps : List Point3)
    (lo hi : Point3) (hg : g.position = ps.map Point3.toVector3)
    (hb : IsBoundingBox ps lo hi) (hv : ∀ p ∈ ps, g.arrayType.HoldsPoint p)
    (hm : 0 < storedExtent g.arrayType lo hi) :
    (∃ (qs : List Point3) (lo' hi' : Point3),
      (offsetByBoundingBox g).1.position = qs.map Point3.toVector3
      ∧ IsBoundingBox qs lo' hi'
      ∧ (offsetByBoundingBox g).1.boundingBox = some ⟨lo'.toVector3, hi'.toVector3⟩
      ∧ (lo'.x = -hi'.x ∧ lo'.y = -hi'.y ∧ lo'.z = -hi'.z)
      ∧ maxExtent lo' hi' = 1
      ∧ (0 ≤ hi'.x - lo'.x ∧ hi'.x - lo'.x ≤ 1)
      ∧ (0 ≤ hi'.y - lo'.y ∧ hi'.y - lo'.y ≤ 1)
      ∧ (0 ≤ hi'.z - lo'.z ∧ hi'.z - lo'.z ≤ 1))
    ∧ (g.arrayType = .float64 → storedExtent g.arrayType lo hi = maxExtent lo hi) := by
  refine ⟨?_, fun h64 => storedExtent_of_exact g.arrayType hb
    (fun p _ => by rw [h64]; exact holdsPoint_float64 _)⟩
  have hT := setXYZ_translated_of_holds g.arrayType hb hv
  have h := offsetByBoundingBox_stored g ps lo hi hg hb hT hm
  have hb3 := isBoundingBox_storedNormalized g.arrayType hb (boxCenter lo hi) hm.le
  obtain ⟨s1, s2, s3⟩ := storedOffset_lo g.arrayType lo hi
  obtain ⟨n1, n2, n3⟩ := storedOffset_hi_nonneg g.arrayType hb
  have hM := storedExtent_eq g.arrayType lo hi
  have m1 : 2 * (storedOffset g.arrayType (boxCenter lo hi) hi).x
      ≤ storedExtent g.arrayType lo hi := by
    rw [hM]; exact (le_max_left _ _).trans (le_max_left _ _)
  have m2 : 2 * (storedOffset g.arrayType (boxCenter lo hi) hi).y
      ≤ storedExtent g.arrayType lo hi := by
    rw [hM]; exact (le_max_right _ _).trans (le_max_left _ _)
  have m3 : 2 * (storedOffset g.arrayType (boxCenter lo hi) hi).z
      ≤ storedExtent g.arrayType lo hi := by
    rw [hM]; exact le_max_right _ _
  generalize storedExtent g.arrayType lo hi = m at *
  generalize g.arrayType = t at *
  generalize boxCenter lo hi = c at *
  obtain ⟨x1, x2, x3, x4⟩ := unit_extent t hm n1 m1
  obtain ⟨y1, y2, y3, y4⟩ := unit_extent t hm n2 m2
  obtain ⟨z1, z2, z3, z4⟩ := unit_extent t hm n3 m3
  have ex : (storedNormalized t c m hi).x - (storedNormalized t c m lo).x
      = t.round ((storedOffset t c hi).x / m) - t.round (-(storedOffset t c hi).x / m) := by
    simp only [storedNormalized, ArrayType.roundPoint, scaled, s1]
  have ey : (storedNormalized t c m hi).y - (storedNormalized t c m lo).y
      = t.round ((storedOffset t c hi).y / m) - t.round (-(storedOffset t c hi).y / m) := by
    simp only [storedNormalized, ArrayType.roundPoint, scaled, s2]
  have ez : (storedNormalized t c m hi).z - (storedNormalized t c m lo).z
      = t.round ((storedOffset t c hi).z / m) - t.round (-(storedOffset t c hi).z / m) := by
    simp only [storedNormalized, ArrayType.roundPoint, scaled, s3]
  refine ⟨ps.map (storedNormalized t c m), storedNormalized t c m lo, storedNormalized t c m hi,
    by rw [h], hb3, by rw [h], ⟨?_, ?_, ?_⟩, ?_, ⟨by rw [ex]; exact x2, by rw [ex]; exact x3⟩,
    ⟨by rw [ey]; exact y2, by rw [ey]; exact y3⟩, ⟨by rw [ez]; exact z2, by rw [ez]; exact z3⟩⟩
  · simp only [storedNormalized, ArrayType.roundPoint, scaled, s1]; exact x1
  · simp only [storedNormalized, ArrayType.roundPoint, scaled, s2]; exact y1
  · simp only [storedNormalized, ArrayType.roundPoint, scaled, s3]; exact z1
  · unfold maxExtent
    rw [ex, ey, ez]
    apply le_antisymm (max_le (max_le x3 y3) z3)
    rcases max_choice (max (2 * (storedOffset t c hi).x) (2 * (storedOffset t c hi).y))
      (2 * (storedOffset t c hi).z) with e | e
    · rcases max_choice (2 * (storedOffset t c hi).x) (2 * (storedOffset t c hi).y) with e' | e'
      · rw [e, e'] at hM
        exact (x4 hM.symm).ge.trans ((le_max_left _ _).trans (le_max_left _ _))
      · rw [e, e'] at hM
        exact (y4 hM.symm).ge.trans ((le_max_right _ _).trans (le_max_left _ _))
    · rw [e] at hM
      exact (z4 hM.symm).ge.trans (le_max_right _ _)

/-- C4, as amended, on the points `(0,0,0)` and `(4,2,0)`: the hypotheses hold there, and
so does the conclusion. -/
theorem offsetByBoundingBox_unit_box_witness :
    (∀ p ∈ samplePoints, ArrayType.float32.HoldsPoint p)
    ∧ 0 < storedExtent .float32 ⟨0, 0, 0⟩ ⟨4, 2, 0⟩
    ∧ ∃ (qs : List Point3) (lo' hi' : Point3),
      (offsetByBoundingBox sampleGeometry).1.position = qs.map Point3.toVector3
      ∧ IsBoundingBox qs lo' hi'
      ∧ (offsetByBoundingBox sampleGeometry).1.boundingBox
          = some ⟨lo'.toVector3, hi'.toVector3⟩
      ∧ (lo'.x = -hi'.x ∧ lo'.y = -hi'.y ∧ lo'.z = -hi'.z)
      ∧ maxExtent lo' hi' = 1
      ∧ (0 ≤ hi'.x - lo'.x ∧ hi'.x - lo'.x ≤ 1)
      ∧ (0 ≤ hi'.y - lo'.y ∧ hi'.y - lo'.y ≤ 1)
      ∧ (0 ≤ hi'.z - lo'.z ∧ hi'.z - lo'.z ≤ 1) :=
  ⟨samplePoints_holds, by rw [samplePoints_storedExtent]; norm_num,
   (offsetByBoundingBox_unit_box sampleGeometry samplePoints ⟨0, 0, 0⟩ ⟨4, 2, 0⟩ rfl
     samplePoints_box samplePoints_holds (by
       show 0 < storedExtent .float32 ⟨0, 0, 0⟩ ⟨4, 2, 0⟩
       rw [samplePoints_storedExtent]; norm_num)).1⟩

/-- In single precision the stored translated points keep a positive extent as soon as the
maximum extent of the box is at least `2 ^ -148`, twice the smallest positive
single-precision value. -/
theorem storedExtent_pos_of_le {lo hi : Point3}
    (hm : 1 / 2 ^ 148 ≤ maxExtent lo hi) : 0 < storedExtent .float32 lo hi := by
  have hmin : froundQ (1 / 2 ^ 149) = 1 / 2 ^ 149 := by
    have := froundQ_of_representable 1 (-149) (by norm_num) (by norm_num)
    norm_num at this ⊢
    exact this
  have key : ∀ l h : ℚ, (1 : ℚ) / 2 ^ 148 ≤ h - l →
      0 < 2 * froundQ (h - (l + h) / 2) := by
    intro l h hlh
    have h1 : (1 : ℚ) / 2 ^ 149 ≤ h - (l + h) / 2 := by
      have e : h - (l + h) / 2 = (h - l) / 2 := by ring
      rw [e]
      have : (1 : ℚ) / 2 ^ 149 = 1 / 2 ^ 148 / 2 := by norm_num
      rw [this]
      exact div_le_div_of_nonneg_right hlh (by norm_num)
    have h2 := froundQ_mono h1
    rw [hmin] at h2
    have : (0 : ℚ) < 1 / 2 ^ 149 := by positivity
    linarith
  rw [storedExtent_eq]
  simp only [storedOffset, ArrayType.roundPoint, translated, boxCenter, ArrayType.round]
  unfold maxExtent at hm
  rcases le_max_iff.mp hm with h | h
  · rcases le_max_iff.mp h with h | h
    · exact lt_max_of_lt_left (lt_max_of_lt_left (key _ _ h))
    · exact lt_max_of_lt_left (lt_max_of_lt_right (key _ _ h))
  · exact lt_max_of_lt_right (key _ _ h)

theorem subnormalPoints_box :
    IsBoundingBox [⟨0, 0, 0⟩, ⟨1 / 2 ^ 149, 0, 0⟩] ⟨0, 0, 0⟩ ⟨1 / 2 ^ 149, 0, 0⟩ := by
  simp [IsBoundingBox, IsMinOf, IsMaxOf]

theorem subnormalPoints_holds :
    ∀ p ∈ [(⟨0, 0, 0⟩ : Point3), ⟨1 / 2 ^ 149, 0, 0⟩], ArrayType.float32.HoldsPoint p := by
  intro p hp
  simp only [List.mem_cons, List.mem_singleton, List.mem_nil_iff, or_false] at hp
  rcases hp with rfl | rfl
  · exact ⟨holds32_zero, holds32_zero, holds32_zero⟩
  · exact ⟨holds_float32_of_eq _ 1 (-149) (Or.inl (by norm_num)) (by norm_num) (by norm_num)
      (by norm_num), holds32_zero, holds32_zero⟩

theorem subnormalPoints_storedExtent :
    storedExtent .float32 ⟨0, 0, 0⟩ ⟨1 / 2 ^ 149, 0, 0⟩ = 0 := by
  rw [storedExtent_eq]
  have e : (1 / 2 ^ 149 : ℚ) - (0 + 1 / 2 ^ 149) / 2 = 1 / 2 ^ 150 := by norm_num
  have e0 : (0 : ℚ) - (0 + 0) / 2 = 0 := by norm_num
  simp only [storedOffset, ArrayType.roundPoint, translated, boxCenter, ArrayType.round, e, e0,
    froundQ_subnormal_half, froundQ_zero]
  norm_num

theorem offsetByBoundingBox_boundingBox (g : BufferGeometry) :
    (offsetByBoundingBox g).1.boundingBox
      = some (Box3.setFromPoints (offsetByBoundingBox g).1.position) := rfl

/-- C4 as stated fails on the single-precision points `(0, 0, 0)` and `(2 ^ -149, 0, 0)`.
Their box has the maximum extent `2 ^ -149 > 0` and the center `2 ^ -150`; the translated
coordinates `-2 ^ -150` and `2 ^ -150` lie halfway between `0` and the nearest
single-precision values and are stored as `0`, so the size of the box is `0`, the scale
factor is `1 / 0`, and every point becomes `(NaN, NaN, NaN)`: the geometry has no box
centered at the origin with largest extent `1`. -/
theorem offsetByBoundingBox_subnormal_collapse :
    subnormalGeometry.position
        = [(⟨0, 0, 0⟩ : Point3), ⟨1 / 2 ^ 149, 0, 0⟩].map Point3.toVector3
    ∧ IsBoundingBox [⟨0, 0, 0⟩, ⟨1 / 2 ^ 149, 0, 0⟩] ⟨0, 0, 0⟩ ⟨1 / 2 ^ 149, 0, 0⟩
    ∧ 0 < maxExtent ⟨0, 0, 0⟩ ⟨1 / 2 ^ 149, 0, 0⟩
    ∧ (offsetByBoundingBox subnormalGeometry).1.position
        = [⟨.nan, .nan, .nan⟩, ⟨.nan, .nan, .nan⟩]
    ∧ (offsetByBoundingBox subnormalGeometry).1.boundingBox
        = some ⟨⟨.nan, .nan, .nan⟩, ⟨.nan, .nan, .nan⟩⟩
    ∧ (offsetByBoundingBox subnormalGeometry).2.scale = ⟨.fin 0, .fin 0, .fin 0⟩ := by
  have h := offsetByBoundingBox_degenerate subnormalGeometry
    [⟨0, 0, 0⟩, ⟨1 / 2 ^ 149, 0, 0⟩] ⟨0, 0, 0⟩ ⟨1 / 2 ^ 149, 0, 0⟩ rfl subnormalPoints_box
    (setXYZ_translated_of_holds .float32 subnormalPoints_box subnormalPoints_holds)
    subnormalPoints_storedExtent
  refine ⟨rfl, subnormalPoints_box, by norm_num [maxExtent], h.1, ?_, h.2.2⟩
  rw [offsetByBoundingBox_boundingBox, h.1]
  rfl

/-- C5: round trip of the normalization, over exact arithmetic. For a geometry of finite
points whose bounding box has maximum extent `> 0`, normalized without rounding (each
translated and each normalized point is a value of the element type of the position
buffer, which is so for every point in a `Float64Array`): if `offsetByBoundingBox`
returns `{ position, scale }` and leaves the points `q`, then `q * scale + position`
(componentwise) is the original point, for every point and in the same order. -/
theorem offsetByBoundingBox_roundtrip (g : BufferGeometry) (ps : List Point3)
    (lo hi : Point3) (hg : g.position = ps.map Point3.toVector3)
    (hb : IsBoundingBox ps lo hi) (hm : 0 < maxExtent lo hi)
    (hx : StoredExactly g.arrayType ps (boxCenter lo hi) (maxExtent lo hi)) :
    (offsetByBoundingBox g).1.position.map
        (fun q => Vector3.addVectors (q.multiply (offsetByBoundingBox g).2.scale)
          (offsetByBoundingBox g).2.position)
      = g.position := by
  have hm0 : maxExtent lo hi ≠ 0 := ne_of_gt hm
  obtain ⟨_, h1, h2⟩ := offsetByBoundingBox_exact g ps lo hi hg hb hm hx
  rw [h1, h2, hg]
  simp only [List.map_map, Function.comp_def]
  apply List.map_congr_left
  intro p _
  simp [Vector3.addVectors, Vector3.multiply, Point3.toVector3, normalized, hm0]

/-- C5 on the points `(0,0,0)` and `(4,2,0)`, whose normalization rounds nothing in single
precision: scaling the normalized points by the returned scale and adding the returned
position gives the two points back. -/
theorem offsetByBoundingBox_roundtrip_witness :
    StoredExactly .float32 samplePoints (boxCenter ⟨0, 0, 0⟩ ⟨4, 2, 0⟩)
      (maxExtent ⟨0, 0, 0⟩ ⟨4, 2, 0⟩)
    ∧ (offsetByBoundingBox sampleGeometry).1.position.map
        (fun q => Vector3.addVectors (q.multiply (offsetByBoundingBox sampleGeometry).2.scale)
          (offsetByBoundingBox sampleGeometry).2.position)
      = [⟨.fin 0, .fin 0, .fin 0⟩, ⟨.fin 4, .fin 2, .fin 0⟩] :=
  ⟨samplePoints_storedExactly,
   offsetByBoundingBox_roundtrip sampleGeometry samplePoints ⟨0, 0, 0⟩ ⟨4, 2, 0⟩ rfl
    samplePoints_box (by norm_num [maxExtent]) samplePoints_storedExactly⟩

/-! ## offsetByBoundingBox on a box of extent 0 -/

/-- C6, what the code does: on the geometry of the two coincident points `(1, 2, 3)` and
`(1, 2, 3)` (a line whose end is its start), whose box has maximum extent `0`,
`offsetByBoundingBox` divides by zero. The scale factor `1 / 0` is `Infinity`, each
translated point `(0, 0, 0)` times `Infinity` is `(NaN, NaN, NaN)`, and the returned
scale is `(0, 0, 0)`, not `(1, 1, 1)`. -/
theorem offsetByBoundingBox_coincident_points :
    (offsetByBoundingBox coincidentGeometry).1.position
        = [⟨.nan, .nan, .nan⟩, ⟨.nan, .nan, .nan⟩]
    ∧ (offsetByBoundingBox coincidentGeometry).2.position = ⟨.fin 1, .fin 2, .fin 3⟩
    ∧ (offsetByBoundingBox coincidentGeometry).2.scale = ⟨.fin 0, .fin 0, .fin 0⟩ := by
  have hbox : IsBoundingBox [⟨1, 2, 3⟩, ⟨1, 2, 3⟩] ⟨1, 2, 3⟩ ⟨1, 2, 3⟩ := by
    simp [IsBoundingBox, IsMinOf, IsMaxOf]
  have hv : ∀ p ∈ [(⟨1, 2, 3⟩ : Point3), ⟨1, 2, 3⟩], ArrayType.float32.HoldsPoint p := by
    intro p hp
    simp only [List.mem_cons, List.mem_singleton, List.mem_nil_iff, or_false, or_self] at hp
    rw [hp]
    exact ⟨holds32_one, holds32_two, holds32_three⟩
  have hext : storedExtent .float32 ⟨1, 2, 3⟩ ⟨1, 2, 3⟩ = 0 := by
    rw [storedExtent_eq]
    have e1 : (1 : ℚ) - (1 + 1) / 2 = 0 := by norm_num
    have e2 : (2 : ℚ) - (2 + 2) / 2 = 0 := by norm_num
    have e3 : (3 : ℚ) - (3 + 3) / 2 = 0 := by norm_num
    simp only [storedOffset, ArrayType.roundPoint, translated, boxCenter, ArrayType.round,
      e1, e2, e3, froundQ_zero]
    norm_num
  have h := offsetByBoundingBox_degenerate coincidentGeometry
    [⟨1, 2, 3⟩, ⟨1, 2, 3⟩] ⟨1, 2, 3⟩ ⟨1, 2, 3⟩ rfl hbox
    (setXYZ_translated_of_holds .float32 hbox hv) hext
  refine ⟨h.1, h.2.1.trans ?_, h.2.2⟩
  norm_num [boxCenter, Point3.toVector3]

/-! ## Closed polylines and polylines without bulge -/

theorem run_closed (arc : Tessellator) (v : List Vertex) (ez : JSNum) :
    (_getPolyLinePoints.run arc v true ez).points
      = (_getPolyLinePoints.run arc v false ez).points
        ++ [(_getPolyLinePoints.run arc v false ez).points[0]?.join] := by
  simp [_getPolyLinePoints.run]

theorem head_openPolyLine (arc : Tessellator) (ez : JSNum) (a b : Vertex) (r : List Vertex) :
    ((openPolyLine arc ez (a :: b :: r)).map some)[0]? = some (some a.point) := by
  simp [openPolyLine_cons_cons, segmentPoints]

/-- The closed point sequence of at least 2 vertices: the open one followed by the point
of the first vertex. -/
theorem getPolyLinePoints_closed_chain (arc : Tessellator) (v : List Vertex)
    (h : 2 ≤ v.length) :
    ∃ first : Vector3,
      v.head?.map Vertex.point = some first
      ∧ (_getPolyLinePoints arc v false)[0]? = some (some first)
      ∧ _getPolyLinePoints arc v true = _getPolyLinePoints arc v false ++ [some first] := by
  match v, h with
  | a :: b :: r, _ =>
    have e0 : (_getPolyLinePoints arc (a :: b :: r) false)[0]? = some (some a.point) := by
      unfold _getPolyLinePoints
      rw [run_open arc (a :: b :: r) 1 (by simp)]
      exact head_openPolyLine arc 1 a b r
    refine ⟨a.point, rfl, e0, ?_⟩
    unfold _getPolyLinePoints at e0 ⊢
    rw [run_closed, e0]
    rfl

/-- C9, as amended: for every vertex list of length at least 2,
`_getPolyLinePoints(vertices, closed = true)` is `_getPolyLinePoints(vertices,
closed = false)` followed by exactly one extra element, which is the first point of the
sequence, the point of the first vertex. -/
theorem getPolyLinePoints_closed_spec (arc : Tessellator) (v : List Vertex)
    (h : 2 ≤ v.length) :
    ∃ first : Vector3,
      v.head?.map Vertex.point = some first
      ∧ (_getPolyLinePoints arc v false)[0]? = some (some first)
      ∧ _getPolyLinePoints arc v true = _getPolyLinePoints arc v false ++ [some first] :=
  getPolyLinePoints_closed_chain arc v h

/-- C9, as amended, on three vertices: the closed sequence is the open one followed by
the point of the first vertex. -/
theorem getPolyLinePoints_closed_spec_witness :
    2 ≤ [vtx 1 2 3, vtx 4 2 0, vtx 5 5 5].length
    ∧ ∃ first : Vector3,
      [vtx 1 2 3, vtx 4 2 0, vtx 5 5 5].head?.map Vertex.point = some first
      ∧ (_getPolyLinePoints sampleArc [vtx 1 2 3, vtx 4 2 0, vtx 5 5 5] false)[0]?
          = some (some first)
      ∧ _getPolyLinePoints sampleArc [vtx 1 2 3, vtx 4 2 0, vtx 5 5 5] true
          = _getPolyLinePoints sampleArc [vtx 1 2 3, vtx 4 2 0, vtx 5 5 5] false
            ++ [some first] :=
  ⟨by decide, getPolyLinePoints_closed_spec sampleArc [vtx 1 2 3, vtx 4 2 0, vtx 5 5 5]
    (by decide)⟩

/-- C9 as stated fails on a single vertex: with `closed = true` the one extra element is
`undefined` (`points[0]` of the empty sequence), not a point. -/
theorem getPolyLinePoints_closed_single_vertex :
    _getPolyLinePoints sampleArc [vtx 1 2 3] false = []
    ∧ _getPolyLinePoints sampleArc [vtx 1 2 3] true = [none]
    ∧ ¬ ∃ first : Vector3,
        _getPolyLinePoints sampleArc [vtx 1 2 3] true
          = _getPolyLinePoints sampleArc [vtx 1 2 3] false ++ [some first] := by
  have e1 : _getPolyLinePoints sampleArc [vtx 1 2 3] false = [] := by
    simp [_getPolyLinePoints, _getPolyLinePoints.run]
  have e2 : _getPolyLinePoints sampleArc [vtx 1 2 3] true = [none] := by
    simp [_getPolyLinePoints, _getPolyLinePoints.run]
  refine ⟨e1, e2, ?_⟩
  rintro ⟨first, hf⟩
  rw [e1, e2] at hf
  simp at hf

theorem segmentPoints_of_no_bulge (arc : Tessellator) (ez : JSNum) (a b : Vertex)
    (h : a.bulge = none ∨ a.bulge = some (.fin 0)) :
    segmentPoints arc ez a b = [a.point] ∧ segmentCalls a b = [] := by
  have : a.arcBulge = none := by
    rcases h with h | h <;> simp [Vertex.arcBulge, h]
  simp [segmentPoints, segmentCalls, this]

theorem openPolyLine_of_no_bulge (arc : Tessellator) (ez : JSNum) (v : List Vertex)
    (h : ∀ a ∈ v, a.bulge = none ∨ a.bulge = some (.fin 0)) :
    openPolyLine arc ez v = v.map Vertex.point
    ∧ (v.zip v.tail).flatMap (fun p => segmentCalls p.1 p.2) = [] := by
  induction v with
  | nil => simp [openPolyLine]
  | cons a r ih =>
    cases r with
    | nil => simp [openPolyLine]
    | cons b r =>
      have ha := segmentPoints_of_no_bulge arc ez a b (h a (by simp))
      have ih' := ih (fun x hx => h x (List.mem_cons_of_mem _ hx))
      rw [openPolyLine_cons_cons, ih'.1, ha.1]
      refine ⟨by simp, ?_⟩
      have : ((a :: b :: r).zip (a :: b :: r).tail) = (a, b) :: ((b :: r).zip (b :: r).tail) := by
        simp
      rw [this, List.flatMap_cons, ih'.2, ha.2]
      rfl

/-- C10: for every vertex list of length at least 2 in which no vertex carries a bulge
(the bulge is absent or `0`), `_getPolyLinePoints(vertices, closed = false)` returns
exactly the vertices' points, one per vertex and in the original order, and the arc
tessellator is never called. -/
theorem getPolyLinePoints_no_bulge (arc : Tessellator) (v : List Vertex)
    (h : 2 ≤ v.length) (hb : ∀ a ∈ v, a.bulge = none ∨ a.bulge = some (.fin 0)) :
    _getPolyLinePoints arc v false = v.map (fun a => some a.point)
    ∧ (_getPolyLinePoints arc v false).length = v.length
    ∧ (_getPolyLinePoints.run arc v false).arcCalls = [] := by
  have e := run_open arc v 1 h
  have hn := openPolyLine_of_no_bulge arc 1 v hb
  have e1 : _getPolyLinePoints arc v false = v.map (fun a => some a.point) := by
    unfold _getPolyLinePoints
    rw [e, hn.1]
    simp [List.map_map, Function.comp_def]
  refine ⟨e1, by rw [e1, List.length_map], ?_⟩
  rw [e, hn.2]

/-- C10 on three vertices without bulge: the result is their three points in order. -/
theorem getPolyLinePoints_no_bulge_witness :
    _getPolyLinePoints sampleArc [vtx 1 2 3, vtx 4 2 0, vtx 5 5 5] false
        = [some ⟨.fin 1, .fin 2, .fin 3⟩, some ⟨.fin 4, .fin 2, .fin 0⟩,
           some ⟨.fin 5, .fin 5, .fin 5⟩]
    ∧ (_getPolyLinePoints.run sampleArc [vtx 1 2 3, vtx 4 2 0, vtx 5 5 5] false).arcCalls = [] :=
  have h := getPolyLinePoints_no_bulge sampleArc [vtx 1 2 3, vtx 4 2 0, vtx 5 5 5]
    (by decide) (by simp [vtx])
  ⟨h.1, h.2.2⟩

/-! ## draw -/

theorem offsetByBoundingBox_index (g : BufferGeometry) :
    (offsetByBoundingBox g).1.index = g.index := by
  unfold offsetByBoundingBox
  simp only [BufferGeometry.computeBoundingBox, BufferGeometry.translate,
    BufferGeometry.scale, BufferGeometry.applyMatrix4]

theorem drawLine_index (self : LineEntity) (e : Entity) (ez : JSNum) (d : DrawResult)
    (h : drawLine self e ez = .ok d) : d.geometry.index = some (Uint16Array [0, 1]) := by
  unfold drawLine at h
  cases hl : lineType self e with
  | error err => simp [hl, bind, Except.bind] at h
  | ok style =>
    cases hs : e.start with
    | none => simp [hl, hs, bind, Except.bind, throw, throwThe, MonadExceptOf.throw] at h
    | some s =>
      cases ht : e.end_ with
      | none =>
        simp [hl, hs, ht, bind, Except.bind, throw, throwThe, MonadExceptOf.throw, pure,
          Except.pure] at h
      | some t =>
        simp only [hl, hs, ht, bind, Except.bind, pure, Except.pure,
          BufferGeometry.setFromPoints, Except.ok.injEq] at h
        rw [← h]
        simp only [offsetByBoundingBox_index]
        rfl

theorem drawPolyLine_index (self : LineEntity) (e : Entity) (d : DrawResult)
    (h : drawPolyLine self e = .ok d) :
    ∃ vertices, e.vertices = some vertices
      ∧ d.geometry.index = some (Uint16Array (generatePointIndex
          (_getPolyLinePoints self.createArcoFromPolyline vertices (e.closed.getD false)))) := by
  unfold drawPolyLine drawPolyLine.run at h
  cases hl : lineType self e with
  | error err => simp [hl] at h
  | ok style =>
    cases hv : e.vertices with
    | none => simp [hl, hv] at h
    | some vertices =>
      refine ⟨vertices, rfl, ?_⟩
      simp only [hl, hv] at h
      split at h
      · simp at h
      · simp only [Except.ok.injEq] at h
        rw [← h]
        simp only [offsetByBoundingBox_index]
        rfl

theorem drawEntity_indexed (self : LineEntity) (e : Entity) (d : DrawResult)
    (h : drawEntity self e = .ok d) : d.geometry.index.isSome = true := by
  unfold drawEntity at h
  split at h
  · rw [drawLine_index self e 1 d h]; rfl
  · obtain ⟨_, _, hi⟩ := drawPolyLine_index self e d h
    rw [hi]; rfl

theorem shared_of_indexed (d : DrawResult) (h : d.geometry.index.isSome = true) :
    draw.shared d = d := by
  unfold draw.shared fixMeshToDrawDashedLines.shared
  simp [h]

theorem fixShared_of_indexed (cache : Cache) (e : Entity) (h : CacheIndexed cache) :
    draw.fixShared cache e = cache := by
  funext x
  unfold draw.fixShared
  by_cases hx : x = e
  · simp only [hx, if_true]
    cases hc : cache e with
    | none => rfl
    | some d => simp [shared_of_indexed d (h e d hc)]
  · simp [hx]

theorem fixShared_setCache (cache : Cache) (e : Entity) (d : DrawResult)
    (h : d.geometry.index.isSome = true) :
    draw.fixShared (_setCache cache e d) e = _setCache cache e d := by
  funext x
  unfold draw.fixShared _setCache
  by_cases hx : x = e
  · simp [hx, shared_of_indexed d h]
  · simp [hx]

theorem cacheIndexed_empty : CacheIndexed emptyState.cache := by
  intro e d h
  simp [emptyState] at h

theorem cacheIndexed_setCache (cache : Cache) (e : Entity) (d : DrawResult)
    (h : CacheIndexed cache) (hd : d.geometry.index.isSome = true) :
    CacheIndexed (_setCache cache e d) := by
  intro x dx hx
  unfold _setCache at hx
  by_cases hxe : x = e
  · simp only [hxe, if_true, Option.some.injEq] at hx
    rw [← hx]; exact hd
  · simp only [hxe, if_false] at hx
    exact h x dx hx

theorem body_hidden (self : LineEntity) (st : DrawState) (e : Entity)
    (h : self._hideEntity e = true) : draw.body self st e = (.ok none, st) := by
  simp [draw.body, h]

theorem body_cached (self : LineEntity) (st : DrawState) (e : Entity) (d : DrawResult)
    (h : self._hideEntity e = false) (hc : _getCached st.cache e = some d) :
    draw.body self st e
      = (.ok (some (draw.mesh e d)), { st with cache := draw.fixShared st.cache e }) := by
  simp [draw.body, h, hc]

/-- The calls `draw` makes for an entity on a cache miss. -/
theorem body_miss (self : LineEntity) (st : DrawState) (e : Entity)
    (h : self._hideEntity e = false) (hc : _getCached st.cache e = none) :
    ∃ calls : List Call, (∀ c ∈ calls, Call.isFor e c) ∧
      ((∃ err, drawEntity self e = .error err
          ∧ draw.body self st e = (.error err, { st with calls := st.calls ++ calls }))
       ∨ (∃ d, drawEntity self e = .ok d
          ∧ draw.body self st e
            = (.ok (some (draw.mesh e d)),
               { cache := _setCache st.cache e d, calls := st.calls ++ calls }))) := by
  by_cases ht : e.type = "LINE"
  · refine ⟨[Call.drawLine e], by simp [Call.isFor], ?_⟩
    cases hd : drawLine self e with
    | error err =>
      exact Or.inl ⟨err, by simp [-JSNum.one_eq, drawEntity, ht, hd],
        by simp [-JSNum.one_eq, draw.body, h, hc, ht, hd]⟩
    | ok d =>
      have hde : drawEntity self e = .ok d := by simp [-JSNum.one_eq, drawEntity, ht, hd]
      refine Or.inr ⟨d, hde, ?_⟩
      simp [-JSNum.one_eq, draw.body, h, hc, ht, hd,
        fixShared_setCache st.cache e d (drawEntity_indexed self e d hde)]
  · refine ⟨Call.drawPolyLine e :: (drawPolyLine.run self e).2.map (Call.arc e), ?_, ?_⟩
    · intro c hc'
      rcases List.mem_cons.mp hc' with rfl | hc'
      · simp [Call.isFor]
      · obtain ⟨a, _, rfl⟩ := List.mem_map.mp hc'
        simp [Call.isFor]
    · cases hd : (drawPolyLine.run self e).1 with
      | error err =>
        exact Or.inl ⟨err, by simp [-JSNum.one_eq, drawEntity, ht, drawPolyLine, hd],
          by simp [-JSNum.one_eq, draw.body, h, hc, ht, hd]⟩
      | ok d =>
        have hde : drawEntity self e = .ok d := by
          simp [-JSNum.one_eq, drawEntity, ht, drawPolyLine, hd]
        refine Or.inr ⟨d, hde, ?_⟩
        simp [-JSNum.one_eq, draw.body, h, hc, ht, hd,
          fixShared_setCache st.cache e d (drawEntity_indexed self e d hde)]

theorem isFor_unique {e e0 : Entity} {c : Call} (h : Call.isFor e c)
    (h0 : Call.isFor e0 c) : e = e0 := by
  cases c <;> simp only [Call.isFor] at h h0 <;> rw [← h, ← h0]

theorem setCache_of_none (cache : Cache) (e : Entity) (d : DrawResult)
    (hc : _getCached cache e = none) (x : Entity) (dx : DrawResult)
    (hx : cache x = some dx) : _setCache cache e d x = some dx := by
  unfold _setCache
  by_cases hxe : x = e
  · subst hxe; rw [_getCached, hx] at hc; cases hc
  · simp [hxe, hx]

theorem body_cached_indexed (self : LineEntity) (st : DrawState) (e : Entity)
    (d : DrawResult) (hinv : CacheIndexed st.cache)
    (h : self._hideEntity e = false) (hc : _getCached st.cache e = some d) :
    draw.body self st e = (.ok (some (draw.mesh e d)), st) := by
  rw [body_cached self st e d h hc, fixShared_of_indexed st.cache e hinv]

/-- One turn of the loop leaves the entries of the other entities as they are. -/
theorem body_other (self : LineEntity) (st : DrawState) (e x : Entity) (hx : x ≠ e) :
    (draw.body self st e).2.cache x = st.cache x := by
  cases hh : self._hideEntity e with
  | true => rw [body_hidden self st e hh]
  | false =>
    cases hc : _getCached st.cache e with
    | some d =>
      rw [body_cached self st e d hh hc]
      simp [draw.fixShared, hx]
    | none =>
      obtain ⟨calls, _, hcase⟩ := body_miss self st e hh hc
      rcases hcase with ⟨err, _, hb⟩ | ⟨d, _, hb⟩
      · rw [hb]
      · rw [hb]; simp [_setCache, hx]

/-- One turn of the loop removes no entry. -/
theorem body_none_back (self : LineEntity) (st : DrawState) (e x : Entity)
    (h : (draw.body self st e).2.cache x = none) : st.cache x = none := by
  by_cases hx : x = e
  · subst hx
    cases hh : self._hideEntity x with
    | true => rw [body_hidden self st x hh] at h; exact h
    | false =>
      cases hc : _getCached st.cache x with
      | some d =>
        rw [body_cached self st x d hh hc] at h
        have hc' : st.cache x = some d := hc
        simp [draw.fixShared, hc'] at h
      | none => exact hc
  · rw [body_other self st e x hx] at h; exact h

/-- One turn of the loop, from a cache of indexed geometries: every entry is kept as it
is, the geometries stay indexed, and the calls added are for the entity of the turn,
which had no cache entry. -/
theorem body_summary (self : LineEntity) (st : DrawState) (e : Entity)
    (hinv : CacheIndexed st.cache) :
    (∀ x dx, st.cache x = some dx → (draw.body self st e).2.cache x = some dx)
    ∧ CacheIndexed (draw.body self st e).2.cache
    ∧ ∃ calls, (draw.body self st e).2.calls = st.calls ++ calls
        ∧ ∀ c ∈ calls, Call.isFor e c ∧ st.cache e = none := by
  cases hh : self._hideEntity e with
  | true =>
    rw [body_hidden self st e hh]
    exact ⟨fun _ _ h => h, hinv, [], by simp, by simp⟩
  | false =>
    cases hc : _getCached st.cache e with
    | some d =>
      rw [body_cached_indexed self st e d hinv hh hc]
      exact ⟨fun _ _ h => h, hinv, [], by simp, by simp⟩
    | none =>
      obtain ⟨calls, hfor, hcase⟩ := body_miss self st e hh hc
      rcases hcase with ⟨err, _, hb⟩ | ⟨d, hd, hb⟩
      · rw [hb]
        exact ⟨fun _ _ h => h, hinv, calls, rfl, fun c hcm => ⟨hfor c hcm, hc⟩⟩
      · rw [hb]
        exact ⟨fun x dx hx => setCache_of_none st.cache e d hc x dx hx,
          cacheIndexed_setCache st.cache e d hinv (drawEntity_indexed self e d hd),
          calls, rfl, fun c hcm => ⟨hfor c hcm, hc⟩⟩

/-- The loop, from a cache of indexed geometries: every entry is kept as it is, the
geometries stay indexed, and every call added is for an entity that had no cache entry
when the loop started. -/
theorem loop_summary (self : LineEntity) (es : List Entity) (st : DrawState) (group : Group)
    (hinv : CacheIndexed st.cache) :
    (∀ x dx, st.cache x = some dx → (draw.loop self es st group).2.cache x = some dx)
    ∧ CacheIndexed (draw.loop self es st group).2.cache
    ∧ ∃ calls, (draw.loop self es st group).2.calls = st.calls ++ calls
        ∧ ∀ c ∈ calls, ∀ e0, Call.isFor e0 c → st.cache e0 = none := by
  induction es generalizing st group with
  | nil => exact ⟨fun _ _ h => h, hinv, [], by simp [draw.loop], by simp⟩
  | cons e es ih =>
    obtain ⟨hmono, hinv1, calls, hcalls, hfor⟩ := body_summary self st e hinv
    have hnew : ∀ c ∈ calls, ∀ e0, Call.isFor e0 c → st.cache e0 = none := by
      intro c hc e0 h0
      obtain ⟨h1, h2⟩ := hfor c hc
      rw [← isFor_unique h1 h0]; exact h2
    have hback : ∀ e0, (draw.body self st e).2.cache e0 = none → st.cache e0 = none :=
      fun e0 => body_none_back self st e e0
    unfold draw.loop
    rcases hb : draw.body self st e with ⟨res, st1⟩
    rw [hb] at hmono hcalls hinv1 hback
    simp only at hmono hcalls hinv1 hback
    cases res with
    | error err => exact ⟨hmono, hinv1, calls, hcalls, hnew⟩
    | ok om =>
      cases om with
      | none =>
        obtain ⟨hm2, hi2, calls2, hc2, hf2⟩ := ih st1 group hinv1
        refine ⟨fun x dx hx => hm2 x dx (hmono x dx hx), hi2, calls ++ calls2, ?_, ?_⟩
        · simp only [hc2, hcalls, List.append_assoc]
        · intro c hc e0 h0
          rcases List.mem_append.mp hc with hc | hc
          · exact hnew c hc e0 h0
          · exact hback e0 (hf2 c hc e0 h0)
      | some mesh =>
        obtain ⟨hm2, hi2, calls2, hc2, hf2⟩ :=
          ih st1 { group with children := group.children ++ [mesh] } hinv1
        refine ⟨fun x dx hx => hm2 x dx (hmono x dx hx), hi2, calls ++ calls2, ?_, ?_⟩
        · simp only [hc2, hcalls, List.append_assoc]
        · intro c hc e0 h0
          rcases List.mem_append.mp hc with hc | hc
          · exact hnew c hc e0 h0
          · exact hback e0 (hf2 c hc e0 h0)

/-- The group a turn of the loop hands on: with the mesh added, if there is one. -/
theorem loop_cons_ok (self : LineEntity) (e : Entity) (es : List Entity) (st st' : DrawState)
    (group g : Group) (h : draw.loop self (e :: es) st group = (.ok g, st')) :
    ∃ om st1, draw.body self st e = (.ok om, st1)
      ∧ draw.loop self es st1
          { group with children := group.children ++ om.toList } = (.ok g, st') := by
  unfold draw.loop at h
  rcases hb : draw.body self st e with ⟨res, st1⟩
  rw [hb] at h
  cases res with
  | error err => simp at h
  | ok om =>
    cases om with
    | none => exact ⟨none, st1, rfl, by simpa using h⟩
    | some mesh => exact ⟨some mesh, st1, rfl, by simpa using h⟩

theorem loop_children (self : LineEntity) (es : List Entity) (st st' : DrawState)
    (group g : Group) (h : draw.loop self es st group = (.ok g, st')) :
    g.name = group.name ∧ ∃ added, g.children = group.children ++ added := by
  induction es generalizing st group with
  | nil =>
    simp only [draw.loop, Prod.mk.injEq, Except.ok.injEq] at h
    rw [← h.1]; exact ⟨rfl, [], by simp⟩
  | cons e es ih =>
    obtain ⟨om, st1, _, hl⟩ := loop_cons_ok self e es st st' group g h
    obtain ⟨hn, added, ha⟩ := ih st1 _ hl
    exact ⟨hn, om.toList ++ added, by rw [ha, List.append_assoc]⟩

/-- After a loop that starts from a cache of indexed geometries and ends without error, every entity of the list that is not hidden
has a cache entry, and it is the data drawn for it when it had no entry before. -/
theorem loop_cached (self : LineEntity) (es : List Entity) (st st' : DrawState)
    (group g : Group) (hinv : CacheIndexed st.cache)
    (h : draw.loop self es st group = (.ok g, st')) :
    ∀ e ∈ es, self._hideEntity e = false →
      ∃ d, st'.cache e = some d ∧ (st.cache e = none → drawEntity self e = .ok d) := by
  induction es generalizing st group with
  | nil => intro e he; simp at he
  | cons e1 es ih =>
    obtain ⟨om, st1, hb, hl⟩ := loop_cons_ok self e1 es st st' group g h
    have hinv1 := (body_summary self st e1 hinv).2.1
    rw [hb] at hinv1
    simp only at hinv1
    have hmono2 := (loop_summary self es st1
      { group with children := group.children ++ om.toList } hinv1).1
    rw [hl] at hmono2
    simp only at hmono2
    -- what the turn for `e1` leaves in the cache
    have hhead : self._hideEntity e1 = false →
        ∃ d, st1.cache e1 = some d ∧ (st.cache e1 = none → drawEntity self e1 = .ok d)
          ∧ ∀ x, x ≠ e1 → st1.cache x = st.cache x := by
      intro hv
      cases hc : _getCached st.cache e1 with
      | some d =>
        rw [body_cached_indexed self st e1 d hinv hv hc] at hb
        simp only [Prod.mk.injEq] at hb
        rw [← hb.2]
        have hc' : st.cache e1 = some d := hc
        exact ⟨d, hc', fun hn => (by rw [hc'] at hn; cases hn), fun _ _ => rfl⟩
      | none =>
        obtain ⟨calls, _, hcase⟩ := body_miss self st e1 hv hc
        rcases hcase with ⟨err, _, hb'⟩ | ⟨d, hd, hb'⟩
        · rw [hb'] at hb; simp at hb
        · rw [hb'] at hb
          simp only [Prod.mk.injEq] at hb
          rw [← hb.2]
          exact ⟨d, by simp [_setCache], fun _ => hd, fun x hx => by simp [_setCache, hx]⟩
    intro e he hv
    by_cases hee : e = e1
    · subst hee
      obtain ⟨d, h1, h2, _⟩ := hhead hv
      exact ⟨d, hmono2 e d h1, h2⟩
    · have hmem : e ∈ es := by
        rcases List.mem_cons.mp he with h | h
        · exact absurd h hee
        · exact h
      obtain ⟨d, h1, h2⟩ := ih st1 _ hinv1 hl e hmem hv
      refine ⟨d, h1, fun hn => h2 ?_⟩
      -- the turn for `e1` does not touch the entry of `e`
      cases hh1 : self._hideEntity e1 with
      | true =>
        rw [body_hidden self st e1 hh1] at hb
        simp only [Prod.mk.injEq] at hb
        rw [← hb.2]; exact hn
      | false =>
        obtain ⟨_, _, _, hother⟩ := hhead hh1
        rw [hother e hee]; exact hn

/-- In a loop that starts from a cache of indexed geometries and ends without error, an entity of the list that is not hidden and has
a cache entry at the start gets the mesh built from that entry. -/
theorem loop_uses_cache (self : LineEntity) (es : List Entity) (st st' : DrawState)
    (group g : Group) (hinv : CacheIndexed st.cache)
    (h : draw.loop self es st group = (.ok g, st')) :
    ∀ e ∈ es, self._hideEntity e = false → ∀ d, st.cache e = some d →
      draw.mesh e d ∈ g.children := by
  induction es generalizing st group with
  | nil => intro e he; simp at he
  | cons e1 es ih =>
    obtain ⟨om, st1, hb, hl⟩ := loop_cons_ok self e1 es st st' group g h
    obtain ⟨hmono, hinv1, _⟩ := body_summary self st e1 hinv
    rw [hb] at hmono hinv1
    simp only at hmono hinv1
    intro e he hv d hd
    rcases List.mem_cons.mp he with hee | hmem
    · subst hee
      rw [body_cached_indexed self st e d hinv hv hd] at hb
      simp only [Prod.mk.injEq, Except.ok.injEq] at hb
      obtain ⟨_, added, ha⟩ := loop_children self es st1 st' _ g hl
      rw [ha, ← hb.1]
      simp
    · exact ih st1 _ hinv1 hl e hmem hv d (hmono e d hd)

/-- The three ways `draw` ends: `null` on an empty filtered list, else the error or the
group of the loop. -/
theorem draw_cases (self : LineEntity) (st : DrawState) (data : DXFData) :
    (data.entities.filter isLineEntity = [] ∧ draw self st data = (.ok none, st))
    ∨ (data.entities.filter isLineEntity ≠ []
        ∧ ((∃ err st', draw.loop self (data.entities.filter isLineEntity) st
                { name := "LINES", children := [] } = (.error err, st')
              ∧ draw self st data = (.error err, st'))
          ∨ (∃ g st', draw.loop self (data.entities.filter isLineEntity) st
                { name := "LINES", children := [] } = (.ok g, st')
              ∧ draw self st data = (.ok (some g), st')))) := by
  by_cases hf : data.entities.filter isLineEntity = []
  · left
    exact ⟨hf, by simp [draw, hf]⟩
  · right
    refine ⟨hf, ?_⟩
    have hlen : ¬ (data.entities.filter isLineEntity).length = 0 := by
      simpa [List.length_eq_zero] using hf
    rcases hl : draw.loop self (data.entities.filter isLineEntity) st
        { name := "LINES", children := [] } with ⟨res, st'⟩
    cases res with
    | error err =>
      left
      exact ⟨err, st', rfl, by simp only [draw, hlen, if_false, hl]⟩
    | ok g =>
      right
      exact ⟨g, st', rfl, by simp only [draw, hlen, if_false, hl]⟩

/-- A call of `draw`, from a cache of indexed geometries, keeps every cache entry as it is and
the geometries indexed, and every call it makes is for an entity
that had no cache entry when `draw` started. -/
theorem draw_summary (self : LineEntity) (st : DrawState) (data : DXFData)
    (hinv : CacheIndexed st.cache) :
    (∀ x dx, st.cache x = some dx → (draw self st data).2.cache x = some dx)
    ∧ CacheIndexed (draw self st data).2.cache
    ∧ ∃ calls, (draw self st data).2.calls = st.calls ++ calls
        ∧ ∀ c ∈ calls, ∀ e0, Call.isFor e0 c → st.cache e0 = none := by
  have hs := loop_summary self (data.entities.filter isLineEntity) st
    { name := "LINES", children := [] } hinv
  rcases draw_cases self st data with ⟨_, hd⟩ | ⟨_, ⟨err, st', hl, hd⟩ | ⟨g, st', hl, hd⟩⟩
  · rw [hd]
    exact ⟨fun _ _ h => h, hinv, [], by simp, by simp⟩
  · rw [hd]; rw [hl] at hs; exact hs
  · rw [hd]; rw [hl] at hs; exact hs

/-- C7: cache reuse. The states are those of a drawer whose cached geometries are indexed
(`CacheIndexed`: true of a fresh drawer and kept by `draw`). When a call
`draw(document)` has returned, the cache holds for every supported, non-hidden entity
`e` of the document a DrawResult `d`, which is the one computed by that call
(`drawLine` for a LINE, `drawPolyLine` otherwise) when `e` had no entry before. Any
later `draw`, in any such state that holds this entry: keeps every cache entry as it
is, makes no call of `drawLine`, `drawPolyLine` or the arc tessellator for `e`, and,
when it returns a group for a document containing `e` (not hidden), the group holds the
mesh built from the stored `d`. -/
theorem draw_cache_reuse (self : LineEntity) (st : DrawState) (data : DXFData)
    (r : Option Group) (e : Entity) (hinv : CacheIndexed st.cache)
    (hret : (draw self st data).1 = .ok r) (he : e ∈ data.entities)
    (hs : isLineEntity e = true) (hv : self._hideEntity e = false) :
    ∃ d : DrawResult,
      _getCached (draw self st data).2.cache e = some d
      ∧ (_getCached st.cache e = none → drawEntity self e = .ok d)
      ∧ ∀ (self' : LineEntity) (st' : DrawState) (data' : DXFData),
          CacheIndexed st'.cache → _getCached st'.cache e = some d →
          (∀ x dx, _getCached st'.cache x = some dx →
              _getCached (draw self' st' data').2.cache x = some dx)
          ∧ (∃ calls, (draw self' st' data').2.calls = st'.calls ++ calls
              ∧ ∀ c ∈ calls, ¬ Call.isFor e c)
          ∧ (∀ g, (draw self' st' data').1 = .ok (some g) → e ∈ data'.entities →
              self'._hideEntity e = false → draw.mesh e d ∈ g.children) := by
  have hmem : e ∈ data.entities.filter isLineEntity := List.mem_filter.mpr ⟨he, hs⟩
  have hd : ∃ d, (draw self st data).2.cache e = some d
      ∧ (st.cache e = none → drawEntity self e = .ok d) := by
    rcases draw_cases self st data with ⟨hf, _⟩ | ⟨_, ⟨err, st', _, hd⟩ | ⟨g, st', hl, hd⟩⟩
    · rw [hf] at hmem; simp at hmem
    · rw [hd] at hret; cases hret
    · rw [hd]
      exact loop_cached self _ st st' _ g hinv hl e hmem hv
  obtain ⟨d, hd1, hd2⟩ := hd
  refine ⟨d, hd1, hd2, ?_⟩
  intro self' st' data' hinv' hc
  obtain ⟨hmono, _, calls, hcalls, hfor⟩ := draw_summary self' st' data' hinv'
  refine ⟨hmono, ⟨calls, hcalls, ?_⟩, ?_⟩
  · intro c hcm hfe
    have := hfor c hcm e hfe
    rw [_getCached] at hc
    rw [hc] at this
    cases this
  · intro g hg he' hv'
    have hmem' : e ∈ data'.entities.filter isLineEntity := List.mem_filter.mpr ⟨he', hs⟩
    rcases draw_cases self' st' data' with ⟨hf, _⟩ | ⟨_, ⟨err, st2, _, hd⟩ | ⟨g2, st2, hl, hd⟩⟩
    · rw [hf] at hmem'; simp at hmem'
    · rw [hd] at hg; cases hg
    · rw [hd] at hg
      simp only [Except.ok.injEq, Option.some.injEq] at hg
      subst hg
      exact loop_uses_cache self' _ st' st2 _ g2 hinv' hl e hmem' hv' d hc

theorem sampleLine_drawn : ∃ d, drawEntity sampleDrawer sampleLine = .ok d :=
  ⟨_, rfl⟩

theorem sampleData_drawn : ∃ r, (draw sampleDrawer emptyState sampleData).1 = .ok r :=
  ⟨_, rfl⟩

/-- C7 on a document with one line, drawn by a fresh drawer: the call returns, and
afterwards the cache holds for the line the data `drawLine` computes for it. -/
theorem draw_cache_reuse_witness :
    CacheIndexed emptyState.cache
    ∧ (∃ r, (draw sampleDrawer emptyState sampleData).1 = .ok r)
    ∧ sampleLine ∈ sampleData.entities
    ∧ isLineEntity sampleLine = true
    ∧ sampleDrawer._hideEntity sampleLine = false
    ∧ ∃ d, _getCached (draw sampleDrawer emptyState sampleData).2.cache sampleLine = some d
        ∧ drawEntity sampleDrawer sampleLine = .ok d := by
  obtain ⟨r, hr⟩ := sampleData_drawn
  have hmem : sampleLine ∈ sampleData.entities := by simp [sampleData]
  have hline : isLineEntity sampleLine = true := by simp [isLineEntity, sampleLine]
  obtain ⟨d, h1, h2, _⟩ :=
    draw_cache_reuse sampleDrawer emptyState sampleData r sampleLine cacheIndexed_empty hr
      hmem hline rfl
  exact ⟨cacheIndexed_empty, ⟨r, hr⟩, hmem, hline, rfl, d, h1, h2 rfl⟩

/-- The loop ends without error when every entity it has to draw (not hidden, without
cache entry) is drawn without error. -/
theorem loop_ok (self : LineEntity) (es : List Entity) (st : DrawState) (group : Group)
    (hok : ∀ e ∈ es, self._hideEntity e = false → st.cache e = none →
      ∃ d, drawEntity self e = .ok d) :
    ∃ g st', draw.loop self es st group = (.ok g, st') := by
  induction es generalizing st group with
  | nil => exact ⟨group, st, rfl⟩
  | cons e es ih =>
    have hback := body_none_back self st e
    have hstep : ∃ om st1, draw.body self st e = (.ok om, st1) := by
      cases hh : self._hideEntity e with
      | true => exact ⟨none, st, body_hidden self st e hh⟩
      | false =>
        cases hc : _getCached st.cache e with
        | some d => exact ⟨_, _, body_cached self st e d hh hc⟩
        | none =>
          obtain ⟨d, hd⟩ := hok e (by simp) hh hc
          obtain ⟨calls, _, hcase⟩ := body_miss self st e hh hc
          rcases hcase with ⟨err, herr, _⟩ | ⟨d', _, hb⟩
          · rw [hd] at herr; cases herr
          · exact ⟨_, _, hb⟩
    obtain ⟨om, st1, hb⟩ := hstep
    rw [hb] at hback
    simp only at hback
    have hok1 : ∀ x ∈ es, self._hideEntity x = false → st1.cache x = none →
        ∃ d, drawEntity self x = .ok d := by
      intro x hx hvx h1
      exact hok x (List.mem_cons_of_mem _ hx) hvx (hback x h1)
    unfold draw.loop
    rw [hb]
    cases om with
    | none => exact ih st1 group hok1
    | some mesh => exact ih st1 _ hok1

theorem loop_all_hidden (self : LineEntity) (es : List Entity) (st : DrawState)
    (group : Group) (hh : ∀ e ∈ es, self._hideEntity e = true) :
    draw.loop self es st group = (.ok group, st) := by
  induction es with
  | nil => rfl
  | cons e es ih =>
    unfold draw.loop
    rw [body_hidden self st e (hh e (by simp))]
    exact ih (fun x hx => hh x (List.mem_cons_of_mem _ hx))

/-- C8, as amended: `draw` returns `null` if and only if no entity of the document has
type LINE, POLYLINE or LWPOLYLINE. When at least one supported entity exists and every
entity `draw` has to draw (supported, not hidden, not cached) is drawn without error, it
returns a group; the group has no children when every supported entity is hidden.
Entities of any other type are never looked at: the call does exactly what it does on
the document without them. -/
theorem draw_null_iff (self : LineEntity) (st : DrawState) (data : DXFData) :
    ((draw self st data).1 = .ok none ↔ ∀ e ∈ data.entities, isLineEntity e = false)
    ∧ ((∃ e ∈ data.entities, isLineEntity e = true) →
        (∀ e ∈ data.entities, isLineEntity e = true → self._hideEntity e = false →
          _getCached st.cache e = none → ∃ d, drawEntity self e = .ok d) →
        ∃ g, (draw self st data).1 = .ok (some g))
    ∧ ((∃ e ∈ data.entities, isLineEntity e = true) →
        (∀ e ∈ data.entities, isLineEntity e = true → self._hideEntity e = true) →
        (draw self st data).1 = .ok (some { name := "LINES", children := [] }))
    ∧ draw self st data = draw self st { entities := data.entities.filter isLineEntity } := by
  have hfilter : data.entities.filter isLineEntity = [] ↔
      ∀ e ∈ data.entities, isLineEntity e = false := by
    simp [List.filter_eq_nil_iff]
  have hne : (∃ e ∈ data.entities, isLineEntity e = true) →
      data.entities.filter isLineEntity ≠ [] := by
    rintro ⟨e, he, hs⟩ hnil
    have := List.mem_filter.mpr ⟨he, hs⟩
    rw [hnil] at this; simp at this
  refine ⟨⟨?_, ?_⟩, ?_, ?_, ?_⟩
  · intro h
    rcases draw_cases self st data with ⟨hf, _⟩ | ⟨_, ⟨err, st', _, hd⟩ | ⟨g, st', _, hd⟩⟩
    · exact hfilter.mp hf
    · rw [hd] at h; cases h
    · rw [hd] at h; simp at h
  · intro h
    rcases draw_cases self st data with ⟨_, hd⟩ | ⟨hf, _⟩
    · rw [hd]
    · exact absurd (hfilter.mpr h) hf
  · intro hex hok
    obtain ⟨g, st', hl⟩ := loop_ok self (data.entities.filter isLineEntity) st
      { name := "LINES", children := [] }
      (fun e he hv hc => hok e (List.mem_filter.mp he).1 (List.mem_filter.mp he).2 hv hc)
    rcases draw_cases self st data with ⟨hf, _⟩ | ⟨_, ⟨err, st2, hl2, _⟩ | ⟨g2, st2, _, hd⟩⟩
    · exact absurd hf (hne hex)
    · rw [hl] at hl2; cases hl2
    · exact ⟨g2, by rw [hd]⟩
  · intro hex hh
    have hl := loop_all_hidden self (data.entities.filter isLineEntity) st
      { name := "LINES", children := [] }
      (fun e he => hh e (List.mem_filter.mp he).1 (List.mem_filter.mp he).2)
    rcases draw_cases self st data with ⟨hf, _⟩ | ⟨_, ⟨err, st2, hl2, _⟩ | ⟨g2, st2, hl2, hd⟩⟩
    · exact absurd hf (hne hex)
    · rw [hl] at hl2; cases hl2
    · rw [hl] at hl2
      simp only [Prod.mk.injEq, Except.ok.injEq] at hl2
      rw [hd, hl2.1]
  · simp [draw, List.filter_filter]

/-- C8, as amended, on a document with an unsupported entity and a line: a group is
returned; and on a document with the unsupported entity alone, `null`. -/
theorem draw_null_iff_witness :
    (∃ g, (draw sampleDrawer emptyState sampleData).1 = .ok (some g))
    ∧ (draw sampleDrawer emptyState { entities := [sampleCircle] }).1 = .ok none :=
  ⟨(draw_null_iff sampleDrawer emptyState sampleData).2.1
      ⟨sampleLine, by simp [sampleData], by simp [isLineEntity, sampleLine]⟩
      (fun e he hs _ _ => by
        have : e = sampleLine := by
          simp only [sampleData, List.mem_cons, List.mem_singleton, List.mem_nil_iff,
            or_false] at he
          rcases he with rfl | rfl
          · simp [isLineEntity, sampleCircle] at hs
          · rfl
        subst this
        exact sampleLine_drawn),
   (draw_null_iff sampleDrawer emptyState { entities := [sampleCircle] }).1.mpr
      (fun e he => by
        simp only [List.mem_singleton] at he
        subst he
        simp [isLineEntity, sampleCircle])⟩

/-- C8 as stated fails on a document whose only entity is a LINE without `start`: a
supported entity exists, yet `draw` raises a `TypeError` instead of returning a group. -/
theorem draw_raises_on_line_without_start :
    (∃ e ∈ [lineWithoutStart], isLineEntity e = true)
    ∧ (draw sampleDrawer emptyState { entities := [lineWithoutStart] }).1
        = .error .typeError
    ∧ ¬ ∃ g, (draw sampleDrawer emptyState { entities := [lineWithoutStart] }).1
        = .ok (some g) := by
  have h : (draw sampleDrawer emptyState { entities := [lineWithoutStart] }).1
      = .error .typeError := rfl
  refine ⟨⟨lineWithoutStart, by simp, by simp [isLineEntity, lineWithoutStart]⟩, h, ?_⟩
  rintro ⟨g, hg⟩
  rw [h] at hg
  cases hg

/-! ## Line style -/

theorem get_eq_none_iff (tables : Tables) (name : String) :
    tables.get name = none ↔ tables.ltypes name = none ∧ name ∉ Object.prototype := by
  unfold Tables.get
  cases h : tables.ltypes name with
  | none => by_cases hp : name ∈ Object.prototype <;> simp [hp]
  | some l => simp

theorem get_of_own {tables : Tables} {name : String} {ltype : LType}
    (h : tables.ltypes name = some ltype) : tables.get name = some ltype := by
  simp [Tables.get, h]

theorem get_of_inherited {tables : Tables} {name : String}
    (h : tables.ltypes name = none) (hp : name ∈ Object.prototype) :
    tables.get name = some { pattern := none } := by
  simp [Tables.get, h, hp]

/-- The style resolution raises an error exactly when the value found under the entity's
line-type name, the table's own entry or an inherited property, has no `pattern`. -/
theorem lineType_error_iff (self : LineEntity) (e : Entity) :
    (∃ err, lineType self e = .error err) ↔
      ∃ name ltype, e.lineTypeName = some name ∧ name ≠ ""
        ∧ self.tables.get name = some ltype ∧ ltype.pattern = none := by
  unfold lineType
  cases hn : e.lineTypeName with
  | none => simp
  | some name =>
    by_cases he : name = ""
    · simp [he]
    · cases hl : self.tables.get name with
      | none => simp [he, hl]
      | some ltype =>
        cases hp : ltype.pattern with
        | none =>
          simp only [he, hl, hp, if_false]
          exact ⟨fun _ => ⟨name, ltype, rfl, he, hl, hp⟩, fun _ => ⟨JSError.typeError, trivial⟩⟩
        | some pattern =>
          by_cases hz : pattern.length > 0 <;> simp [he, hl, hp, hz]

theorem drawLine_material (self : LineEntity) (e : Entity) (style : String) (d : DrawResult)
    (hl : lineType self e = .ok style) (h : drawLine self e = .ok d) :
    d.material = self.getMaterial e style self.tables := by
  unfold drawLine at h
  cases hs : e.start with
  | none => simp [hl, hs, bind, Except.bind, throw, throwThe, MonadExceptOf.throw] at h
  | some s =>
    cases ht : e.end_ with
    | none =>
      simp [hl, hs, ht, bind, Except.bind, throw, throwThe, MonadExceptOf.throw, pure,
        Except.pure] at h
    | some t =>
      simp only [hl, hs, ht, bind, Except.bind, pure, Except.pure,
        BufferGeometry.setFromPoints, Except.ok.injEq] at h
      rw [← h]

theorem drawPolyLine_material (self : LineEntity) (e : Entity) (style : String)
    (d : DrawResult) (hl : lineType self e = .ok style) (h : drawPolyLine self e = .ok d) :
    d.material = self.getMaterial e style self.tables := by
  unfold drawPolyLine drawPolyLine.run at h
  cases hv : e.vertices with
  | none => simp [hl, hv] at h
  | some vertices =>
    simp only [hl, hv] at h
    split at h
    · simp at h
    · simp only [Except.ok.injEq] at h
      rw [← h]

/-- The line style as the code resolves it. The style is `'dashed'` if and only if the
entity has a (non-empty) `lineTypeName`, the property read of the line-type table under
that name finds a value, and the `pattern` of that value is non-empty. When the
`lineTypeName` is absent, the read finds nothing, or the pattern is empty, the style is
`'line'` and no error is raised. The resolved style is the one the material of the
DrawResult was requested with. -/
theorem lineType_resolution (self : LineEntity) (e : Entity) :
    (lineType self e = .ok "dashed" ↔
      ∃ name ltype pattern, e.lineTypeName = some name ∧ name ≠ ""
        ∧ self.tables.get name = some ltype ∧ ltype.pattern = some pattern
        ∧ pattern ≠ [])
    ∧ ((e.lineTypeName = none ∨ e.lineTypeName = some ""
        ∨ (∃ name, e.lineTypeName = some name ∧ self.tables.get name = none)
        ∨ (∃ name ltype, e.lineTypeName = some name
            ∧ self.tables.get name = some ltype ∧ ltype.pattern = some []))
        → lineType self e = .ok "line")
    ∧ (∀ style d, lineType self e = .ok style → drawLine self e = .ok d →
        (style = "dashed" ∨ style = "line")
        ∧ d.material = self.getMaterial e style self.tables)
    ∧ (∀ style d, lineType self e = .ok style → drawPolyLine self e = .ok d →
        (style = "dashed" ∨ style = "line")
        ∧ d.material = self.getMaterial e style self.tables) := by
  have hstyle : ∀ style, lineType self e = .ok style → style = "dashed" ∨ style = "line" := by
    intro style h
    unfold lineType at h
    repeat' split at h
    all_goals first
      | (simp only [Except.ok.injEq] at h; simp [← h])
      | cases h
  refine ⟨?_, ?_, fun style d hl h => ⟨hstyle style hl, drawLine_material self e style d hl h⟩,
    fun style d hl h => ⟨hstyle style hl, drawPolyLine_material self e style d hl h⟩⟩
  · unfold lineType
    cases hn : e.lineTypeName with
    | none => simp
    | some name =>
      by_cases he : name = ""
      · simp [he]
      · cases hl : self.tables.get name with
        | none => simp [he, hl]
        | some ltype =>
          cases hp : ltype.pattern with
          | none => simp [he, hl, hp]
          | some pattern =>
            by_cases hz : pattern.length > 0
            · have : pattern ≠ [] := by
                intro h0; rw [h0] at hz; simp at hz
              simp [he, hl, hp, hz, this]
            · have : pattern = [] := by
                cases pattern with
                | nil => rfl
                | cons a r => simp at hz
              simp [he, hl, hp, this]
  · intro h
    unfold lineType
    rcases h with h | h | ⟨name, h1, h2⟩ | ⟨name, ltype, h1, h2, h3⟩
    · simp [h]
    · simp [h]
    · by_cases he : name = "" <;> simp [h1, h2, he]
    · by_cases he : name = "" <;> simp [h1, h2, h3, he]

/-- Two lines drawn by a drawer whose table knows `DASHED`: the line of type `DASHED` gets
the style `'dashed'` and a dashed material, the line without line type the style
`'line'`. -/
theorem lineType_resolution_sample :
    lineType dashedDrawer dashedLine = .ok "dashed"
    ∧ lineType dashedDrawer sampleLine = .ok "line"
    ∧ ∃ d, drawLine dashedDrawer dashedLine = .ok d
        ∧ d.material = { type := "LineDashedMaterial", id := 1 } := by
  have h1 : lineType dashedDrawer dashedLine = .ok "dashed" :=
    (lineType_resolution dashedDrawer dashedLine).1.mpr
      ⟨"DASHED", { pattern := some [.fin 1, .fin (-1)] }, [.fin 1, .fin (-1)], rfl,
        by decide, rfl, rfl, by simp⟩
  have h2 : lineType dashedDrawer sampleLine = .ok "line" :=
    (lineType_resolution dashedDrawer sampleLine).2.1 (Or.inl rfl)
  obtain ⟨d, hd⟩ : ∃ d, drawLine dashedDrawer dashedLine = .ok d := ⟨_, rfl⟩
  exact ⟨h1, h2, d, hd,
    ((lineType_resolution dashedDrawer dashedLine).2.2.1 "dashed" d h1 hd).2⟩

theorem drawLine_of_lineType_error (self : LineEntity) (e : Entity) (err : JSError)
    (h : lineType self e = .error err) : drawLine self e = .error err := by
  unfold drawLine
  rw [h]
  rfl

theorem drawPolyLine_of_lineType_error (self : LineEntity) (e : Entity) (err : JSError)
    (h : lineType self e = .error err) : drawPolyLine self e = .error err := by
  unfold drawPolyLine drawPolyLine.run
  rw [h]

/-- C11, what the code does: the line-type table `tables.ltypes` is a plain object, and
the code reads it with `ltypes[entity.lineTypeName]`. For a name the table has no entry
under, the read finds nothing, and the style is `'line'`, unless the name is one of the
property names of `Object.prototype`, such as `constructor`: then the read finds the
inherited value, which is truthy and has no `pattern`, and reading `pattern.length`
raises a `TypeError` in `drawLine` and in `drawPolyLine`. The name is unknown to the
table, yet an error is raised instead of the style `'line'`. -/
theorem lineType_inherited_name_raises (self : LineEntity) (e : Entity) (name : String)
    (hn : e.lineTypeName = some name) (ho : self.tables.ltypes name = none) :
    (name ∈ Object.prototype →
      lineType self e = .error .typeError
      ∧ drawLine self e = .error .typeError
      ∧ drawPolyLine self e = .error .typeError)
    ∧ (name ∉ Object.prototype → lineType self e = .ok "line") := by
  constructor
  · intro hp
    have hne : name ≠ "" := by
      intro h0; rw [h0] at hp; revert hp; decide
    have h : lineType self e = .error .typeError := by
      unfold lineType
      simp [hn, hne, get_of_inherited ho hp]
    exact ⟨h, drawLine_of_lineType_error self e _ h, drawPolyLine_of_lineType_error self e _ h⟩
  · intro hp
    exact (lineType_resolution self e).2.1
      (Or.inr (Or.inr (Or.inl ⟨name, hn, (get_eq_none_iff _ _).mpr ⟨ho, hp⟩⟩)))

/-- C11 on a line and a polyline whose line type is named `constructor`, drawn by a
drawer whose table has the entries `DASHED` and `CONTINUOUS` only: the style resolution,
`drawLine` and `drawPolyLine` raise a `TypeError`. -/
theorem lineType_inherited_name_raises_witness :
    dashedDrawer.tables.ltypes "constructor" = none
    ∧ "constructor" ∈ Object.prototype
    ∧ lineType dashedDrawer constructorLine = .error .typeError
    ∧ drawLine dashedDrawer constructorLine = .error .typeError
    ∧ drawPolyLine dashedDrawer constructorPolyline = .error .typeError :=
  ⟨rfl, by decide,
   ((lineType_inherited_name_raises dashedDrawer constructorLine "constructor" rfl rfl).1
      (by decide)).1,
   ((lineType_inherited_name_raises dashedDrawer constructorLine "constructor" rfl rfl).1
      (by decide)).2.1,
   ((lineType_inherited_name_raises dashedDrawer constructorPolyline "constructor" rfl rfl).1
      (by decide)).2.2⟩

/-! ## Single vertex, dashed lines, children of the group, missing data -/

/-- C12, what the code does: on a single-vertex list with `closed = false` the point
sequence is empty and so is its index; with `closed = true` the loop pushes nothing and
`points.push(points[0])` then pushes `undefined`, so the sequence is `[undefined]`, not
empty, and `drawPolyLine` raises a `TypeError` when `setFromPoints` reads it. -/
theorem getPolyLinePoints_single_vertex (arc : Tessellator) (v : Vertex) :
    _getPolyLinePoints arc [v] false = []
    ∧ generatePointIndex (_getPolyLinePoints arc [v] false) = []
    ∧ _getPolyLinePoints arc [v] true = [none]
    ∧ generatePointIndex (_getPolyLinePoints arc [v] true) = []
    ∧ drawPolyLine sampleDrawer closedSingleVertex = .error .typeError := by
  have e1 : _getPolyLinePoints arc [v] false = [] := by
    simp [_getPolyLinePoints, _getPolyLinePoints.run]
  have e2 : _getPolyLinePoints arc [v] true = [none] := by
    simp [_getPolyLinePoints, _getPolyLinePoints.run]
  refine ⟨e1, ?_, e2, ?_, rfl⟩
  · rw [e1]; rfl
  · rw [e2]; rfl

theorem cacheIndexed_of_cacheFrom (self : LineEntity) (cache : Cache)
    (h : CacheFrom self cache) : CacheIndexed cache :=
  fun e d hc => drawEntity_indexed self e d (h e d hc)

theorem mesh_geometry_dashed (e : Entity) (d : DrawResult) (idx : List Nat)
    (hi : d.geometry.index = some idx) (hd : d.material.type = "LineDashedMaterial") :
    (draw.mesh e d).geometry
      = { position := idx.map (fun i => d.geometry.position.getD i ⟨.nan, .nan, .nan⟩),
          index := none, boundingBox := none, lineDistance := true,
          arrayType := d.geometry.arrayType } := by
  simp [draw.mesh, hd, fixMeshToDrawDashedLines, hi, BufferGeometry.toNonIndexed]

/-- C13: the fix-up for dashed lines never alters a cache entry. From a drawer state whose
cached geometries are indexed (`CacheIndexed`: true of a fresh drawer and kept by `draw`),
a call of `draw` leaves every entry that was in the cache as it was. When the call has
returned, the entry `d` of a supported, non-hidden entity of the document is the entry
it had before the call, or the data computed for it when it had none, and its geometry
has an index. When the material of `d` is dashed, the fix-up changes nothing of `d` in
place: the mesh of the entity gets a new geometry, which holds the points of `d` in index
order (in a typed array of the same element type), has no index, and carries the line
distances. -/
theorem draw_dashed_keeps_cache (self : LineEntity) (st : DrawState) (data : DXFData)
    (r : Option Group) (e : Entity) (hinv : CacheIndexed st.cache)
    (hret : (draw self st data).1 = .ok r) (he : e ∈ data.entities)
    (hs : isLineEntity e = true) (hv : self._hideEntity e = false) :
    (∀ x dx, _getCached st.cache x = some dx →
        _getCached (draw self st data).2.cache x = some dx)
    ∧ ∃ d idx,
        _getCached (draw self st data).2.cache e = some d
        ∧ (_getCached st.cache e = none → drawEntity self e = .ok d)
        ∧ d.geometry.index = some idx
        ∧ (d.material.type = "LineDashedMaterial" →
            draw.shared d = d
            ∧ (draw.mesh e d).geometry
                = { position := idx.map
                      (fun i => d.geometry.position.getD i ⟨.nan, .nan, .nan⟩),
                    index := none, boundingBox := none, lineDistance := true,
                    arrayType := d.geometry.arrayType }) := by
  obtain ⟨hmono, hinv1, _⟩ := draw_summary self st data hinv
  refine ⟨hmono, ?_⟩
  have hmem : e ∈ data.entities.filter isLineEntity := List.mem_filter.mpr ⟨he, hs⟩
  have hd : ∃ d, (draw self st data).2.cache e = some d
      ∧ (st.cache e = none → drawEntity self e = .ok d) := by
    rcases draw_cases self st data with ⟨hf, _⟩ | ⟨_, ⟨err, st', _, hd⟩ | ⟨g, st', hl, hd⟩⟩
    · rw [hf] at hmem; simp at hmem
    · rw [hd] at hret; cases hret
    · rw [hd]
      exact loop_cached self _ st st' _ g hinv hl e hmem hv
  obtain ⟨d, hd1, hd2⟩ := hd
  have hidx := hinv1 e d hd1
  obtain ⟨idx, hi⟩ := Option.isSome_iff_exists.mp hidx
  exact ⟨d, idx, hd1, hd2, hi, fun hdash =>
    ⟨shared_of_indexed d hidx, mesh_geometry_dashed e d idx hi hdash⟩⟩

/-- C13 on a drawer whose table knows `DASHED`, drawing a line of that type from a fresh
state: the entry of the line is the data `drawLine` computes, with the index `[0, 1]`,
and is not changed by the fix-up. -/
theorem draw_dashed_keeps_cache_witness :
    ∃ d idx,
      _getCached (draw dashedDrawer emptyState { entities := [dashedLine] }).2.cache dashedLine
        = some d
      ∧ drawEntity dashedDrawer dashedLine = .ok d
      ∧ d.geometry.index = some idx
      ∧ d.material.type = "LineDashedMaterial"
      ∧ draw.shared d = d := by
  obtain ⟨r, hr⟩ : ∃ r, (draw dashedDrawer emptyState { entities := [dashedLine] }).1 = .ok r :=
    ⟨_, rfl⟩
  obtain ⟨_, d, idx, h1, h2, h3, h4⟩ :=
    draw_dashed_keeps_cache dashedDrawer emptyState { entities := [dashedLine] } r dashedLine
      cacheIndexed_empty hr (by simp) (by simp [isLineEntity, dashedLine]) rfl
  have hd := h2 rfl
  have hm : d.material.type = "LineDashedMaterial" := by
    have : drawEntity dashedDrawer dashedLine = .ok d := hd
    have hl : lineType dashedDrawer dashedLine = .ok "dashed" := rfl
    have hmat := drawLine_material dashedDrawer dashedLine "dashed" d hl
      (by simpa [-JSNum.one_eq, drawEntity, dashedLine] using this)
    rw [hmat]; rfl
  exact ⟨d, idx, h1, hd, h3, hm, (h4 hm).1⟩

/-- One turn of the loop of a drawer whose cache holds its own drawing data: the cache
stays so, and the turn adds no mesh for a hidden entity and, for any other entity, the
mesh of the data the drawer computes for it. -/
theorem body_from (self : LineEntity) (st st1 : DrawState) (e : Entity) (om : Option Line)
    (hfrom : CacheFrom self st.cache) (hb : draw.body self st e = (.ok om, st1)) :
    CacheFrom self st1.cache
    ∧ ((self._hideEntity e = true ∧ om = none)
       ∨ (self._hideEntity e = false
          ∧ ∃ d, drawEntity self e = .ok d ∧ om = some (draw.mesh e d))) := by
  have hinv := cacheIndexed_of_cacheFrom self st.cache hfrom
  cases hh : self._hideEntity e with
  | true =>
    rw [body_hidden self st e hh] at hb
    simp only [Prod.mk.injEq, Except.ok.injEq] at hb
    rw [← hb.2]
    exact ⟨hfrom, Or.inl ⟨rfl, hb.1.symm⟩⟩
  | false =>
    cases hc : _getCached st.cache e with
    | some d =>
      rw [body_cached_indexed self st e d hinv hh hc] at hb
      simp only [Prod.mk.injEq, Except.ok.injEq] at hb
      rw [← hb.2]
      exact ⟨hfrom, Or.inr ⟨rfl, d, hfrom e d hc, hb.1.symm⟩⟩
    | none =>
      obtain ⟨calls, _, hcase⟩ := body_miss self st e hh hc
      rcases hcase with ⟨err, _, hb'⟩ | ⟨d, hd, hb'⟩
      · rw [hb'] at hb; simp at hb
      · rw [hb'] at hb
        simp only [Prod.mk.injEq, Except.ok.injEq] at hb
        rw [← hb.2]
        refine ⟨?_, Or.inr ⟨rfl, d, hd, hb.1.symm⟩⟩
        intro x dx hx
        simp only [_setCache] at hx
        by_cases hxe : x = e
        · simp only [hxe, if_true, Option.some.injEq] at hx
          rw [hxe, ← hx]; exact hd
        · simp only [hxe, if_false] at hx
          exact hfrom x dx hx

/-- The meshes a loop that ends without error adds to the group: one per entity that is
not hidden, in the order of the list, each built from the data the drawer computes for
its entity. -/
theorem loop_children_from (self : LineEntity) (es : List Entity) (st st' : DrawState)
    (group g : Group) (hfrom : CacheFrom self st.cache)
    (h : draw.loop self es st group = (.ok g, st')) :
    ∃ added, g.children = group.children ++ added
      ∧ List.Forall₂ (fun e m => ∃ d, drawEntity self e = .ok d ∧ m = draw.mesh e d)
          (es.filter (fun e => !self._hideEntity e)) added := by
  induction es generalizing st group with
  | nil =>
    simp only [draw.loop, Prod.mk.injEq, Except.ok.injEq] at h
    rw [← h.1]
    exact ⟨[], by simp, by simp⟩
  | cons e es ih =>
    obtain ⟨om, st1, hb, hl⟩ := loop_cons_ok self e es st st' group g h
    obtain ⟨hfrom1, hcase⟩ := body_from self st st1 e om hfrom hb
    obtain ⟨added, ha, hall⟩ := ih st1 _ hfrom1 hl
    refine ⟨om.toList ++ added, by rw [ha, List.append_assoc], ?_⟩
    rcases hcase with ⟨hh, hom⟩ | ⟨hh, d, hd, hom⟩
    · simp only [List.filter_cons, hh, hom, Bool.not_true, Option.toList_none,
        List.nil_append]
      exact hall
    · simp only [List.filter_cons, hh, hom, Bool.not_false, if_true, Option.toList_some,
        List.singleton_append]
      exact List.Forall₂.cons ⟨d, hd, rfl⟩ hall

/-- C14: for a drawer whose cache holds its own drawing data (`CacheFrom`: true of a fresh
drawer and kept by its calls of `draw`), the group returned by `draw` is named `LINES`
and has exactly one child per entity that is of type LINE, POLYLINE or LWPOLYLINE and not
hidden, in the order of `document.entities`. Each child carries its entity in `userData`
and has the position, the scale and the material of that entity's DrawResult, which
`drawLine` gives for a LINE and `drawPolyLine` for the other two types. -/
theorem draw_children (self : LineEntity) (st : DrawState) (data : DXFData) (g : Group)
    (hfrom : CacheFrom self st.cache) (hret : (draw self st data).1 = .ok (some g)) :
    g.name = "LINES"
    ∧ List.Forall₂
        (fun e (m : Line) => m.userData = e
          ∧ ∃ d, (if e.type = "LINE" then drawLine self e else drawPolyLine self e) = .ok d
            ∧ m.position = d.position ∧ m.scale = d.scale ∧ m.material = d.material
            ∧ m = draw.mesh e d)
        (data.entities.filter (fun e => isLineEntity e && !self._hideEntity e))
        g.children := by
  rcases draw_cases self st data with ⟨_, hd⟩ | ⟨_, ⟨err, st', _, hd⟩ | ⟨g2, st', hl, hd⟩⟩
  · rw [hd] at hret; simp at hret
  · rw [hd] at hret; cases hret
  · rw [hd] at hret
    simp only [Except.ok.injEq, Option.some.injEq] at hret
    subst hret
    obtain ⟨added, ha, hall⟩ := loop_children_from self _ st st' _ g2 hfrom hl
    obtain ⟨hn, _⟩ := loop_children self _ st st' _ g2 hl
    refine ⟨hn, ?_⟩
    simp only [List.nil_append] at ha
    rw [ha]
    have hf : data.entities.filter (fun e => isLineEntity e && !self._hideEntity e)
        = (data.entities.filter isLineEntity).filter (fun e => !self._hideEntity e) := by
      rw [List.filter_filter]
      congr 1
      funext e
      exact Bool.and_comm _ _
    rw [hf]
    refine List.Forall₂.imp ?_ hall
    rintro e m ⟨d, hd, rfl⟩
    exact ⟨rfl, d, hd, rfl, rfl, rfl, rfl⟩

theorem cacheFrom_empty (self : LineEntity) : CacheFrom self emptyState.cache := by
  intro e d h
  simp [emptyState] at h

/-- C14 on the document with an unsupported entity and a line, drawn by a fresh drawer:
the group has the one child of the line. -/
theorem draw_children_witness :
    ∃ g, (draw sampleDrawer emptyState sampleData).1 = .ok (some g)
      ∧ g.name = "LINES"
      ∧ ∃ d, drawLine sampleDrawer sampleLine = .ok d
          ∧ g.children = [draw.mesh sampleLine d] := by
  obtain ⟨g, hg⟩ : ∃ g, (draw sampleDrawer emptyState sampleData).1 = .ok (some g) :=
    ⟨_, rfl⟩
  obtain ⟨hn, hall⟩ := draw_children sampleDrawer emptyState sampleData g
    (cacheFrom_empty sampleDrawer) hg
  have hf : sampleData.entities.filter
      (fun e => isLineEntity e && !sampleDrawer._hideEntity e) = [sampleLine] := by
    decide
  rw [hf] at hall
  refine ⟨g, hg, hn, ?_⟩
  obtain ⟨m, ms, h1, hrest, hc⟩ := List.forall₂_cons_left_iff.mp hall
  have hms : ms = [] := List.forall₂_nil_left_iff.mp hrest
  obtain ⟨_, d, hd, _, _, _, hm⟩ := h1
  exact ⟨d, by simpa [-JSNum.one_eq, sampleLine] using hd, by rw [hc, hms, hm]⟩

/-! ## The invariants of the cache are kept by draw -/

theorem body_keeps_cacheFrom (self : LineEntity) (st : DrawState) (e : Entity)
    (hfrom : CacheFrom self st.cache) : CacheFrom self (draw.body self st e).2.cache := by
  rcases hb : draw.body self st e with ⟨res, st1⟩
  cases res with
  | ok om => exact (body_from self st st1 e om hfrom hb).1
  | error err =>
    cases hh : self._hideEntity e with
    | true => rw [body_hidden self st e hh] at hb; cases hb
    | false =>
      cases hc : _getCached st.cache e with
      | some d => rw [body_cached self st e d hh hc] at hb; cases hb
      | none =>
        obtain ⟨calls, _, hcase⟩ := body_miss self st e hh hc
        rcases hcase with ⟨err', _, hb'⟩ | ⟨d, _, hb'⟩
        · rw [hb'] at hb
          simp only [Prod.mk.injEq] at hb
          rw [← hb.2]
          exact hfrom
        · rw [hb'] at hb; cases hb

theorem loop_keeps_cacheFrom (self : LineEntity) (es : List Entity) (st : DrawState)
    (group : Group) (hfrom : CacheFrom self st.cache) :
    CacheFrom self (draw.loop self es st group).2.cache := by
  induction es generalizing st group with
  | nil => exact hfrom
  | cons e es ih =>
    have h1 := body_keeps_cacheFrom self st e hfrom
    unfold draw.loop
    rcases hb : draw.body self st e with ⟨res, st1⟩
    rw [hb] at h1
    cases res with
    | error err => exact h1
    | ok om =>
      cases om with
      | none => exact ih st1 group h1
      | some mesh => exact ih st1 _ h1

/-- A call of `draw` keeps the cache of a drawer a cache of its own drawing data. -/
theorem draw_keeps_cacheFrom (self : LineEntity) (st : DrawState) (data : DXFData)
    (hfrom : CacheFrom self st.cache) : CacheFrom self (draw self st data).2.cache := by
  have hl := loop_keeps_cacheFrom self (data.entities.filter isLineEntity) st
    { name := "LINES", children := [] } hfrom
  rcases draw_cases self st data with ⟨_, hd⟩ | ⟨_, ⟨err, st', hl', hd⟩ | ⟨g, st', hl', hd⟩⟩
  · rw [hd]; exact hfrom
  · rw [hd]; rw [hl'] at hl; exact hl
  · rw [hd]; rw [hl'] at hl; exact hl

/-- A call of `draw` keeps the cached geometries indexed. -/
theorem draw_keeps_cacheIndexed (self : LineEntity) (st : DrawState) (data : DXFData)
    (hinv : CacheIndexed st.cache) : CacheIndexed (draw self st data).2.cache :=
  (draw_summary self st data hinv).2.1

theorem drawLine_missing (self : LineEntity) (e : Entity) (ez : JSNum)
    (h : e.start = none ∨ e.end_ = none) : ∃ err, drawLine self e ez = .error err := by
  unfold drawLine
  cases hl : lineType self e with
  | error err => exact ⟨err, by simp [bind, Except.bind]⟩
  | ok style =>
    cases hs : e.start with
    | none =>
      exact ⟨.typeError, by simp [bind, Except.bind, throw, throwThe, MonadExceptOf.throw]⟩
    | some s =>
      cases ht : e.end_ with
      | none =>
        exact ⟨.typeError, by
          simp [bind, Except.bind, throw, throwThe, MonadExceptOf.throw, pure, Except.pure]⟩
      | some t =>
        rcases h with h | h
        · rw [hs] at h; cases h
        · rw [ht] at h; cases h

theorem drawPolyLine_missing (self : LineEntity) (e : Entity) (h : e.vertices = none) :
    ∃ err, drawPolyLine self e = .error err := by
  unfold drawPolyLine drawPolyLine.run
  cases hl : lineType self e with
  | error err => exact ⟨err, rfl⟩
  | ok style => exact ⟨.typeError, by simp [h]⟩

/-- A loop that has to draw an entity which cannot be drawn ends with an error, and
leaves that entity without cache entry. -/
theorem loop_raises (self : LineEntity) (es : List Entity) (st : DrawState) (group : Group)
    (x : Entity) (err0 : JSError) (hx : x ∈ es) (hv : self._hideEntity x = false)
    (hc : st.cache x = none) (hd : drawEntity self x = .error err0) :
    ∃ err st', draw.loop self es st group = (.error err, st') ∧ st'.cache x = none := by
  induction es generalizing st group with
  | nil => simp at hx
  | cons e es ih =>
    unfold draw.loop
    by_cases hex : e = x
    · subst hex
      obtain ⟨calls, _, hcase⟩ := body_miss self st e hv hc
      rcases hcase with ⟨err, _, hb⟩ | ⟨d, hd', _⟩
      · rw [hb]
        exact ⟨err, _, rfl, hc⟩
      · rw [hd] at hd'; cases hd'
    · have hmem : x ∈ es := by
        rcases List.mem_cons.mp hx with h | h
        · exact absurd h.symm hex
        · exact h
      have hother := body_other self st e x (fun h => hex h.symm)
      rcases hb : draw.body self st e with ⟨res, st1⟩
      rw [hb] at hother
      simp only at hother
      have hc1 : st1.cache x = none := by rw [hother]; exact hc
      cases res with
      | error err => exact ⟨err, st1, rfl, hc1⟩
      | ok om =>
        cases om with
        | none => exact ih st1 group hmem hc1
        | some mesh => exact ih st1 _ hmem hc1

/-- C15: missing geometric data is a hard failure. `drawLine` raises an error for every
entity lacking `start` or `end`, and `drawPolyLine` for every entity lacking `vertices`.
A call of `draw` on a document with a supported, non-hidden entity that has no cache
entry and lacks these data (`start` or `end` for a LINE, `vertices` for the other two
types) raises an error, and the cache has no entry for that entity afterwards. -/
theorem missing_data_raises (self : LineEntity) :
    (∀ (e : Entity) (extrusionZ : JSNum), e.start = none ∨ e.end_ = none →
        ∃ err, drawLine self e extrusionZ = .error err)
    ∧ (∀ e : Entity, e.vertices = none → ∃ err, drawPolyLine self e = .error err)
    ∧ (∀ (st : DrawState) (data : DXFData) (e : Entity), e ∈ data.entities →
        isLineEntity e = true → self._hideEntity e = false → _getCached st.cache e = none →
        (if e.type = "LINE" then e.start = none ∨ e.end_ = none else e.vertices = none) →
        ∃ err, (draw self st data).1 = .error err
          ∧ _getCached (draw self st data).2.cache e = none) := by
  refine ⟨fun e ez h => drawLine_missing self e ez h,
    fun e h => drawPolyLine_missing self e h, ?_⟩
  intro st data e he hs hv hc hmiss
  have hd : ∃ err0, drawEntity self e = .error err0 := by
    unfold drawEntity
    by_cases ht : e.type = "LINE"
    · rw [if_pos ht] at hmiss ⊢
      exact drawLine_missing self e 1 hmiss
    · rw [if_neg ht] at hmiss ⊢
      exact drawPolyLine_missing self e hmiss
  obtain ⟨err0, hd⟩ := hd
  have hmem : e ∈ data.entities.filter isLineEntity := List.mem_filter.mpr ⟨he, hs⟩
  obtain ⟨err, st', hl, hc'⟩ := loop_raises self _ st { name := "LINES", children := [] }
    e err0 hmem hv hc hd
  rcases draw_cases self st data with ⟨hf, _⟩ | ⟨_, ⟨err2, st2, hl2, hdr⟩ | ⟨g, st2, hl2, _⟩⟩
  · rw [hf] at hmem; simp at hmem
  · rw [hl] at hl2
    simp only [Prod.mk.injEq, Except.error.injEq] at hl2
    rw [hdr]
    exact ⟨err2, rfl, by rw [← hl2.2]; exact hc'⟩
  · rw [hl] at hl2; cases hl2

/-- C15 on a line without `start` and a polyline without `vertices`: both raise a
`TypeError`, and so does `draw` on a document holding the line, which stays uncached. -/
theorem missing_data_raises_witness :
    (∃ err, drawLine sampleDrawer lineWithoutStart = .error err)
    ∧ (∃ err, drawPolyLine sampleDrawer polylineWithoutVertices = .error err)
    ∧ ∃ err, (draw sampleDrawer emptyState { entities := [sampleLine, lineWithoutStart] }).1
          = .error err
        ∧ _getCached
            (draw sampleDrawer emptyState { entities := [sampleLine, lineWithoutStart] }).2.cache
            lineWithoutStart = none :=
  ⟨(missing_data_raises sampleDrawer).1 lineWithoutStart 1 (Or.inl rfl),
   (missing_data_raises sampleDrawer).2.1 polylineWithoutVertices rfl,
   (missing_data_raises sampleDrawer).2.2 emptyState
     { entities := [sampleLine, lineWithoutStart] } lineWithoutStart (by simp)
     (by simp [isLineEntity, lineWithoutStart]) rfl rfl
     (by simp [lineWithoutStart])⟩
/-! ## drawLine and drawPolyLine on two points -/

theorem one_mul_jsnum (a : JSNum) : (1 : JSNum) * a = a := by
  cases a with
  | fin q => simp
  | pinf => show JSNum.mul (.fin 1) .pinf = .pinf; simp [JSNum.mul, JSNum.signedInf]
  | ninf => show JSNum.mul (.fin 1) .ninf = .ninf; simp [JSNum.mul, JSNum.signedInf]
  | nan => rfl

theorem lineType_congr (self : LineEntity) (a b : Entity)
    (h : a.lineTypeName = b.lineTypeName) : lineType self a = lineType self b := by
  unfold lineType
  rw [h]

theorem run_two_vertices (arc : Tessellator) (s t : Vertex)
    (hb : s.bulge = none ∨ s.bulge = some (.fin 0)) :
    _getPolyLinePoints.run arc [s, t] false = ⟨[some s.point, some t.point], []⟩ := by
  rw [run_open arc [s, t] 1 (by simp)]
  have h := segmentPoints_of_no_bulge arc (JSNum.fin 1) s t hb
  simp [openPolyLine, h.1, h.2]

theorem drawLine_two_points (self : LineEntity) (line : Entity) (s t : Vertex)
    (sx tx : JSNum) (hs : line.start = some s) (ht : line.end_ = some t)
    (hsx : s.x = some sx) (htx : t.x = some tx) :
    drawLine self line
      = (lineType self line).map (fun style =>
          let r := offsetByBoundingBox
            ((BufferGeometry.ofPosition [s.stored, t.stored]).setIndex [0, 1])
          { geometry := r.1, material := self.getMaterial line style self.tables,
            position := r.2.position, scale := r.2.scale }) := by
  unfold drawLine
  cases hl : lineType self line with
  | error err => rfl
  | ok style =>
    simp only [hs, ht, bind, Except.bind, pure, Except.pure, BufferGeometry.setFromPoints,
      Except.map, hsx, htx, orUndefined, Option.getD_some, one_mul_jsnum, Vertex.point,
      Vector3.new, Vertex.stored]
    rfl

theorem drawPolyLine_two_points (self : LineEntity) (poly : Entity) (s t : Vertex)
    (hv : poly.vertices = some [s, t])
    (hcl : poly.closed = none ∨ poly.closed = some false)
    (hb : s.bulge = none ∨ s.bulge = some (.fin 0)) :
    drawPolyLine self poly
      = (lineType self poly).map (fun style =>
          let r := offsetByBoundingBox
            ((BufferGeometry.ofPosition [s.stored, t.stored]).setIndex [0, 1])
          { geometry := r.1, material := self.getMaterial poly style self.tables,
            position := r.2.position, scale := r.2.scale }) := by
  have hc : poly.closed.getD false = false := by
    rcases hcl with h | h <;> simp [h]
  unfold drawPolyLine drawPolyLine.run
  cases hl : lineType self poly with
  | error err => rfl
  | ok style =>
    simp only [hv, hc, run_two_vertices self.createArcoFromPolyline s t hb,
      BufferGeometry.setFromPoints, Except.map, Vertex.stored]
    rfl

theorem or_zero_fin (a : ℚ) : JSNum.or (.fin a) (.fin 0) = .fin a := by
  unfold JSNum.or JSNum.truthy
  by_cases h : a = 0 <;> simp [h]

theorem isBoundingBox_pair (p q : Point3) :
    IsBoundingBox [p, q] ⟨min p.x q.x, min p.y q.y, min p.z q.z⟩
      ⟨max p.x q.x, max p.y q.y, max p.z q.z⟩ := by
  have hmin : ∀ a b : ℚ, IsMinOf [a, b] (min a b) := by
    intro a b
    refine ⟨?_, ?_⟩
    · rcases min_choice a b with h | h <;> simp [h]
    · intro x hx
      simp only [List.mem_cons, List.mem_singleton, List.mem_nil_iff, or_false] at hx
      rcases hx with rfl | rfl
      · exact min_le_left _ _
      · exact min_le_right _ _
  have hmax : ∀ a b : ℚ, IsMaxOf [a, b] (max a b) := by
    intro a b
    refine ⟨?_, ?_⟩
    · rcases max_choice a b with h | h <;> simp [h]
    · intro x hx
      simp only [List.mem_cons, List.mem_singleton, List.mem_nil_iff, or_false] at hx
      rcases hx with rfl | rfl
      · exact le_max_left _ _
      · exact le_max_right _ _
  exact ⟨hmin _ _, hmax _ _, hmin _ _, hmax _ _, hmin _ _, hmax _ _⟩

/-- What the buffer holds for a point is a point of single-precision values. -/
theorem holdsPoint_of_setXYZ {t : ArrayType} {v : Vector3} {a : Point3}
    (h : t.setXYZ v = a.toVector3) : t.HoldsPoint a := by
  simp only [ArrayType.setXYZ, Point3.toVector3, Vector3.mk.injEq] at h
  exact ⟨holds_of_store h.1, holds_of_store h.2.1, holds_of_store h.2.2⟩

/-- The stored point of a vertex with finite single-precision coordinates is the point of
the vertex. -/
theorem stored_of_holds {v : Vertex} {p : Point3} (h : v.point = p.toVector3)
    (hp : ArrayType.float32.HoldsPoint p) : v.stored = p.toVector3 := by
  unfold Vertex.stored
  rw [h]
  have e : (⟨p.toVector3.x, p.toVector3.y, JSNum.or p.toVector3.z 0⟩ : Vector3)
      = p.toVector3 := by
    simp [Point3.toVector3, or_zero_fin]
  rw [e, setXYZ_of_holds hp]

/-- The maximum extent, as stored in single precision, of the box of two points: twice
the rounding of half the largest absolute per-axis difference between them. -/
theorem storedExtent_pair (a b : Point3) :
    storedExtent .float32 ⟨min a.x b.x, min a.y b.y, min a.z b.z⟩
        ⟨max a.x b.x, max a.y b.y, max a.z b.z⟩
      = 2 * froundQ (max (max |a.x - b.x| |a.y - b.y|) |a.z - b.z| / 2) := by
  have hmono : Monotone (fun x : ℚ => 2 * froundQ (x / 2)) := by
    intro x y h
    have := froundQ_mono (div_le_div_of_nonneg_right h (by norm_num : (0 : ℚ) ≤ 2))
    simp only
    linarith
  have e : ∀ u v : ℚ, max u v - (min u v + max u v) / 2 = |u - v| / 2 := by
    intro u v
    rw [← max_sub_min_eq_abs, max_comm v u, min_comm v u]
    ring
  rw [storedExtent_eq]
  simp only [storedOffset, ArrayType.roundPoint, translated, boxCenter, ArrayType.round, e]
  have h1 := hmono.map_max (a := max |a.x - b.x| |a.y - b.y|) (b := |a.z - b.z|)
  have h2 := hmono.map_max (a := |a.x - b.x|) (b := |a.y - b.y|)
  simp only at h1 h2
  rw [h1, h2]

/-- The position and the scale `offsetByBoundingBox` returns for the geometry of two
stored points: their midpoint, and on all three axes twice the rounding of half the
largest absolute per-axis difference between them. -/
theorem offsetByBoundingBox_pair (a b : Point3) (index : List Nat)
    (ha : ArrayType.float32.HoldsPoint a) (hb : ArrayType.float32.HoldsPoint b) :
    (offsetByBoundingBox
        ((BufferGeometry.ofPosition [a.toVector3, b.toVector3]).setIndex index)).2
      = { position := (Point3.mk ((a.x + b.x) / 2) ((a.y + b.y) / 2) ((a.z + b.z) / 2)).toVector3,
          scale :=
            ⟨.fin (2 * froundQ (max (max |a.x - b.x| |a.y - b.y|) |a.z - b.z| / 2)),
             .fin (2 * froundQ (max (max |a.x - b.x| |a.y - b.y|) |a.z - b.z| / 2)),
             .fin (2 * froundQ (max (max |a.x - b.x| |a.y - b.y|) |a.z - b.z| / 2))⟩ } := by
  have hv : ∀ p ∈ [a, b], ArrayType.float32.HoldsPoint p := by
    intro p hp
    simp only [List.mem_cons, List.mem_singleton, List.mem_nil_iff, or_false] at hp
    rcases hp with rfl | rfl
    · exact ha
    · exact hb
  have h := offsetByBoundingBox_transform
    ((BufferGeometry.ofPosition [a.toVector3, b.toVector3]).setIndex index) [a, b] _ _ rfl
    (isBoundingBox_pair a b)
    (setXYZ_translated_of_holds .float32 (isBoundingBox_pair a b) hv)
  rw [h]
  have e1 : ∀ u v : ℚ, (min u v + max u v) / 2 = (u + v) / 2 := by
    intro u v; rw [min_add_max]
  have e2 : ((BufferGeometry.ofPosition [a.toVector3, b.toVector3]).setIndex index).arrayType
      = ArrayType.float32 := rfl
  rw [e2, storedExtent_pair]
  simp only [boxCenter, e1]

/-- C16, as amended: `drawLine` agrees with `drawPolyLine` on a two-point path. For a
LINE entity with endpoints `start` and `end`, each with an `x`, and a polyline entity
with the vertices `[start, end]`, not closed, no bulge on the first vertex and the same
`lineTypeName`, both give the same geometry (points and the index `[0, 1]`), the same
position and the same scale, or both raise the same error of the style resolution. When
the position buffer holds the finite points `a` and `b` for the endpoints (their
coordinates converted to single precision), the position is the midpoint of `a` and `b`
and the scale is, on all three axes, twice the single-precision rounding of half the
largest absolute per-axis difference between `a` and `b`. In particular, when the
endpoints `p` and `q` have single-precision coordinates and half their largest absolute
per-axis difference is a single-precision value, nothing is rounded: the position is the
midpoint of `p` and `q` and the scale is the largest absolute per-axis difference
between them, on all three axes. -/
theorem drawLine_eq_drawPolyLine (self : LineEntity) (line poly : Entity) (s t : Vertex)
    (sx tx : JSNum) (hs : line.start = some s) (ht : line.end_ = some t)
    (hsx : s.x = some sx) (htx : t.x = some tx)
    (hv : poly.vertices = some [s, t])
    (hcl : poly.closed = none ∨ poly.closed = some false)
    (hb : s.bulge = none ∨ s.bulge = some (.fin 0))
    (hn : poly.lineTypeName = line.lineTypeName) :
    (drawLine self line).map (fun d => (d.geometry, d.position, d.scale))
        = (drawPolyLine self poly).map (fun d => (d.geometry, d.position, d.scale))
    ∧ (∀ d, drawLine self line = .ok d → d.geometry.index = some [0, 1])
    ∧ (∀ d, drawPolyLine self poly = .ok d → d.geometry.index = some [0, 1])
    ∧ (∀ (a b : Point3) (d : DrawResult), s.stored = a.toVector3 → t.stored = b.toVector3 →
        drawLine self line = .ok d →
        d.position = (Point3.mk ((a.x + b.x) / 2) ((a.y + b.y) / 2) ((a.z + b.z) / 2)).toVector3
        ∧ d.scale
            = ⟨.fin (2 * froundQ (max (max |a.x - b.x| |a.y - b.y|) |a.z - b.z| / 2)),
               .fin (2 * froundQ (max (max |a.x - b.x| |a.y - b.y|) |a.z - b.z| / 2)),
               .fin (2 * froundQ (max (max |a.x - b.x| |a.y - b.y|) |a.z - b.z| / 2))⟩)
    ∧ (∀ (p q : Point3) (d : DrawResult), s.point = p.toVector3 → t.point = q.toVector3 →
        ArrayType.float32.HoldsPoint p → ArrayType.float32.HoldsPoint q →
        ArrayType.float32.Holds (max (max |p.x - q.x| |p.y - q.y|) |p.z - q.z| / 2) →
        drawLine self line = .ok d →
        d.position = (Point3.mk ((p.x + q.x) / 2) ((p.y + q.y) / 2) ((p.z + q.z) / 2)).toVector3
        ∧ d.scale
            = ⟨.fin (max (max |p.x - q.x| |p.y - q.y|) |p.z - q.z|),
               .fin (max (max |p.x - q.x| |p.y - q.y|) |p.z - q.z|),
               .fin (max (max |p.x - q.x| |p.y - q.y|) |p.z - q.z|)⟩) := by
  have h1 := drawLine_two_points self line s t sx tx hs ht hsx htx
  have h2 := drawPolyLine_two_points self poly s t hv hcl hb
  rw [lineType_congr self poly line hn] at h2
  have hstored : ∀ (a b : Point3) (d : DrawResult), s.stored = a.toVector3 →
      t.stored = b.toVector3 → drawLine self line = .ok d →
      d.position = (Point3.mk ((a.x + b.x) / 2) ((a.y + b.y) / 2) ((a.z + b.z) / 2)).toVector3
      ∧ d.scale
          = ⟨.fin (2 * froundQ (max (max |a.x - b.x| |a.y - b.y|) |a.z - b.z| / 2)),
             .fin (2 * froundQ (max (max |a.x - b.x| |a.y - b.y|) |a.z - b.z| / 2)),
             .fin (2 * froundQ (max (max |a.x - b.x| |a.y - b.y|) |a.z - b.z| / 2))⟩ := by
    intro a b d ha hb' hd
    rw [h1] at hd
    cases hl : lineType self line with
    | error err => rw [hl] at hd; cases hd
    | ok style =>
      rw [hl, ha, hb'] at hd
      simp only [Except.map, Except.ok.injEq] at hd
      have hp := offsetByBoundingBox_pair a b [0, 1]
        (holdsPoint_of_setXYZ (show ArrayType.float32.setXYZ _ = _ from ha))
        (holdsPoint_of_setXYZ (show ArrayType.float32.setXYZ _ = _ from hb'))
      rw [← hd]
      simp only [hp]
      exact ⟨trivial, trivial⟩
  refine ⟨?_, ?_, ?_, hstored, ?_⟩
  · rw [h1, h2]
    cases lineType self line <;> rfl
  · intro d hd
    rw [(drawLine_index self line 1 d hd)]; rfl
  · intro d hd
    obtain ⟨vs, hvs, hi⟩ := drawPolyLine_index self poly d hd
    rw [hv] at hvs
    simp only [Option.some.injEq] at hvs
    have hc : poly.closed.getD false = false := by
      rcases hcl with h | h <;> simp [h]
    rw [hi, ← hvs, hc]
    unfold _getPolyLinePoints
    rw [run_two_vertices self.createArcoFromPolyline s t hb]
    rfl
  · intro p q d hp hq vp vq hm hd
    obtain ⟨e1, e2⟩ := hstored p q d (stored_of_holds hp vp) (stored_of_holds hq vq) hd
    have hr : froundQ (max (max |p.x - q.x| |p.y - q.y|) |p.z - q.z| / 2)
        = max (max |p.x - q.x| |p.y - q.y|) |p.z - q.z| / 2 := round_of_holds hm
    rw [hr] at e2
    refine ⟨e1, ?_⟩
    rw [e2]
    have e : ∀ x : ℚ, 2 * (x / 2) = x := fun x => by ring
    rw [e]

/-- C16, as amended, on the line and the polyline through `(0, 0, 0)` and `(4, 2, 0)`,
where nothing is rounded: both give the same geometry, position `(2, 1, 0)` and scale
`(4, 4, 4)`. -/
theorem drawLine_eq_drawPolyLine_witness :
    (drawLine sampleDrawer sampleLine).map (fun d => (d.geometry, d.position, d.scale))
        = (drawPolyLine sampleDrawer samplePolyline).map
            (fun d => (d.geometry, d.position, d.scale))
    ∧ ∃ d, drawLine sampleDrawer sampleLine = .ok d
        ∧ d.geometry.index = some [0, 1]
        ∧ d.position = ⟨.fin 2, .fin 1, .fin 0⟩
        ∧ d.scale = ⟨.fin 4, .fin 4, .fin 4⟩ := by
  have h := drawLine_eq_drawPolyLine sampleDrawer sampleLine samplePolyline (vtx 0 0 0)
    (vtx 4 2 0) (.fin 0) (.fin 4) rfl rfl rfl rfl rfl (Or.inl rfl) (Or.inl rfl) rfl
  obtain ⟨d, hd⟩ : ∃ d, drawLine sampleDrawer sampleLine = .ok d := ⟨_, rfl⟩
  have hm : ArrayType.float32.Holds
      (max (max |(0 : ℚ) - 4| |(0 : ℚ) - 2|) |(0 : ℚ) - 0| / 2) :=
    holds_float32_of_eq _ 2 0 (Or.inl (by norm_num [abs_of_nonneg])) (by norm_num)
      (by norm_num) (by norm_num)
  have h4 := h.2.2.2.2 ⟨0, 0, 0⟩ ⟨4, 2, 0⟩ d rfl rfl
    ⟨holds32_zero, holds32_zero, holds32_zero⟩ ⟨holds32_four, holds32_two, holds32_zero⟩ hm hd
  refine ⟨h.1, d, hd, h.2.1 d hd, ?_, ?_⟩
  · rw [h4.1]; norm_num [Point3.toVector3]
  · rw [h4.2]; norm_num [abs_of_nonneg]

theorem longLine_stored :
    (vtx 16777217 0 0).stored = (Point3.mk 16777216 0 0).toVector3 := by
  have e1 : ArrayType.float32.store (.fin 16777217) = .fin 16777216 := by
    show Math.fround (.fin 16777217) = _
    rw [fround_fin (by rw [froundQ_16777217]; norm_num) (by rw [froundQ_16777217]; norm_num),
      froundQ_16777217]
  have e0 : ArrayType.float32.store (.fin 0) = .fin 0 := holds32_zero
  simp only [Vertex.stored, Vertex.point, vtx, Vector3.new, orUndefined, Option.getD_some,
    ArrayType.setXYZ, or_zero_fin, JSNum.zero_eq, e1, e0, Point3.toVector3]

theorem drawLine_longLine :
    ∃ d, drawLine sampleDrawer longLine = .ok d
      ∧ d.position = ⟨.fin 8388608, .fin 0, .fin 0⟩
      ∧ d.scale = ⟨.fin 16777216, .fin 16777216, .fin 16777216⟩ := by
  have h1 := drawLine_two_points sampleDrawer longLine (vtx 0 0 0) (vtx 16777217 0 0)
    (.fin 0) (.fin 16777217) rfl rfl rfl rfl
  have hl : lineType sampleDrawer longLine = .ok "line" := rfl
  have hs : (vtx 0 0 0).stored = (Point3.mk 0 0 0).toVector3 :=
    stored_of_holds rfl ⟨holds32_zero, holds32_zero, holds32_zero⟩
  have hp := offsetByBoundingBox_pair ⟨0, 0, 0⟩ ⟨16777216, 0, 0⟩ [0, 1]
    ⟨holds32_zero, holds32_zero, holds32_zero⟩
    ⟨holds_float32_of_eq _ 1 24 (Or.inl (by norm_num)) (by norm_num) (by norm_num)
      (by norm_num), holds32_zero, holds32_zero⟩
  have hr : froundQ (max (max |(0 : ℚ) - 16777216| |(0 : ℚ) - 0|) |(0 : ℚ) - 0| / 2)
      = 8388608 := by
    have e : max (max |(0 : ℚ) - 16777216| |(0 : ℚ) - 0|) |(0 : ℚ) - 0| / 2
        = ((8388608 : ℕ) : ℚ) * 2 ^ (0 : ℤ) := by norm_num [abs_of_nonneg]
    rw [e, froundQ_of_representable 8388608 0 (by norm_num) (by norm_num)]
    norm_num
  rw [hl, hs, longLine_stored] at h1
  simp only [Except.map] at h1
  refine ⟨_, h1, ?_, ?_⟩
  · simp only [hp]
    norm_num [Point3.toVector3]
  · simp only [hp, hr]
    norm_num

theorem offsetByBoundingBox_position (g : BufferGeometry) :
    (offsetByBoundingBox g).2.position = (Box3.setFromPoints g.position).getCenter := rfl

theorem mathMin_nan_right (a : JSNum) : Math.min a .nan = .nan := by
  cases a <;> rfl

theorem mathMax_nan_right (a : JSNum) : Math.max a .nan = .nan := by
  cases a <;> rfl

theorem mathMin_nan_left (b : JSNum) : Math.min .nan b = .nan := by
  cases b <;> rfl

theorem mathMax_nan_left (b : JSNum) : Math.max .nan b = .nan := by
  cases b <;> rfl

theorem lineWithoutX_stored :
    vtxWithoutX.stored = ⟨.fin 0, .fin 0, .fin 0⟩
    ∧ ArrayType.float32.setXYZ
        ⟨(1 : JSNum) * orUndefined vtxWithoutX.x .nan, vtxWithoutX.point.y,
          JSNum.or vtxWithoutX.point.z 0⟩
      = ⟨.nan, .fin 0, .fin 0⟩ := by
  have e0 : ArrayType.float32.store (.fin 0) = .fin 0 := holds32_zero
  constructor
  · exact stored_of_holds (p := ⟨0, 0, 0⟩) rfl ⟨holds32_zero, holds32_zero, holds32_zero⟩
  · simp only [vtxWithoutX, Vertex.point, Vector3.new, orUndefined, Option.getD_none,
      Option.getD_some, one_mul_jsnum, ArrayType.setXYZ, store_nan, JSNum.zero_eq,
      or_zero_fin, e0]

theorem drawLine_lineWithoutX :
    ∃ d, drawLine sampleDrawer lineWithoutX = .ok d ∧ d.position.x = .nan := by
  have ht : (vtx 4 2 0).stored = (Point3.mk 4 2 0).toVector3 :=
    stored_of_holds rfl ⟨holds32_four, holds32_two, holds32_zero⟩
  have hpos : BufferGeometry.setFromPoints
      [some (Vector3.new (some ((1 : JSNum) * orUndefined vtxWithoutX.x .nan)) vtxWithoutX.y
          vtxWithoutX.z),
        some (Vector3.new (some ((1 : JSNum) * orUndefined (vtx 4 2 0).x .nan)) (vtx 4 2 0).y
          (vtx 4 2 0).z)]
      = .ok [⟨.nan, .fin 0, .fin 0⟩, ⟨.fin 4, .fin 2, .fin 0⟩] := by
    have h1 := lineWithoutX_stored.2
    have h2 : ArrayType.float32.setXYZ
        ⟨(1 : JSNum) * orUndefined (vtx 4 2 0).x .nan, (vtx 4 2 0).point.y,
          JSNum.or (vtx 4 2 0).point.z 0⟩ = ⟨.fin 4, .fin 2, .fin 0⟩ := by
      have := ht
      simp only [Vertex.stored, Vertex.point, vtx, Vector3.new, orUndefined,
        Option.getD_some, Point3.toVector3] at this
      simp only [vtx, Vertex.point, Vector3.new, orUndefined, Option.getD_some,
        one_mul_jsnum]
      exact this
    simp only [BufferGeometry.setFromPoints, Vector3.new, orUndefined, Option.getD_some]
    simp only [Vertex.point, Vector3.new, orUndefined, Option.getD_some] at h1 h2
    rw [h1, h2]
  have hbox : Box3.setFromPoints [⟨.nan, .fin 0, .fin 0⟩, ⟨.fin 4, .fin 2, .fin 0⟩]
      = ⟨⟨.nan, .fin 0, .fin 0⟩, ⟨.nan, .fin 2, .fin 0⟩⟩ := by
    simp [Box3.setFromPoints, Box3.expandByPoint, Box3.makeEmpty, Vector3.min, Vector3.max,
      mathMin_nan_right, mathMax_nan_right, mathMin_nan_left, mathMax_nan_left,
      mathMin_pinf_fin, mathMax_ninf_fin, mathMin_fin, mathMax_fin]
  have hd : drawLine sampleDrawer lineWithoutX
      = .ok { geometry := (offsetByBoundingBox ((BufferGeometry.ofPosition
                  [⟨.nan, .fin 0, .fin 0⟩, ⟨.fin 4, .fin 2, .fin 0⟩]).setIndex
                  (Uint16Array [0, 1]))).1,
              material := sampleDrawer.getMaterial lineWithoutX "line" sampleDrawer.tables,
              position := (offsetByBoundingBox ((BufferGeometry.ofPosition
                  [⟨.nan, .fin 0, .fin 0⟩, ⟨.fin 4, .fin 2, .fin 0⟩]).setIndex
                  (Uint16Array [0, 1]))).2.position,
              scale := (offsetByBoundingBox ((BufferGeometry.ofPosition
                  [⟨.nan, .fin 0, .fin 0⟩, ⟨.fin 4, .fin 2, .fin 0⟩]).setIndex
                  (Uint16Array [0, 1]))).2.scale } := by
    have hl : lineType sampleDrawer lineWithoutX = .ok "line" := rfl
    unfold drawLine
    simp only [hl, bind, Except.bind, pure, Except.pure]
    have hs : lineWithoutX.start = some vtxWithoutX := rfl
    have he : lineWithoutX.end_ = some (vtx 4 2 0) := rfl
    simp only [hs, he, hpos]
  refine ⟨_, hd, ?_⟩
  simp only [offsetByBoundingBox_position]
  have hg : ((BufferGeometry.ofPosition
      [⟨.nan, .fin 0, .fin 0⟩, ⟨.fin 4, .fin 2, .fin 0⟩]).setIndex (Uint16Array [0, 1])).position
      = [⟨.nan, .fin 0, .fin 0⟩, ⟨.fin 4, .fin 2, .fin 0⟩] := rfl
  rw [hg, hbox]
  norm_num [Box3.getCenter, Box3.isEmpty, JSNum.lt, Vector3.addVectors,
    Vector3.multiplyScalar, nan_add, nan_mul]

theorem drawPolyLine_polylineWithoutX :
    ∃ d, drawPolyLine sampleDrawer polylineWithoutX = .ok d ∧ d.position.x = .fin 2 := by
  have h2 := drawPolyLine_two_points sampleDrawer polylineWithoutX vtxWithoutX (vtx 4 2 0)
    rfl (Or.inl rfl) (Or.inl rfl)
  have hl : lineType sampleDrawer polylineWithoutX = .ok "line" := rfl
  have hs : vtxWithoutX.stored = (Point3.mk 0 0 0).toVector3 :=
    stored_of_holds rfl ⟨holds32_zero, holds32_zero, holds32_zero⟩
  have ht : (vtx 4 2 0).stored = (Point3.mk 4 2 0).toVector3 :=
    stored_of_holds rfl ⟨holds32_four, holds32_two, holds32_zero⟩
  have hp := offsetByBoundingBox_pair ⟨0, 0, 0⟩ ⟨4, 2, 0⟩ [0, 1]
    ⟨holds32_zero, holds32_zero, holds32_zero⟩ ⟨holds32_four, holds32_two, holds32_zero⟩
  rw [hl, hs, ht] at h2
  simp only [Except.map] at h2
  refine ⟨_, h2, ?_⟩
  simp only [hp]
  norm_num [Point3.toVector3]

/-- C16 as stated fails in two ways. The position buffer is a `Float32Array`: for the
line from `(0, 0, 0)` to `(16777217, 0, 0)` it holds `16777216` for the `x` of the end,
so the position `drawLine` returns is `(8388608, 0, 0)`, not the midpoint
`(8388608.5, 0, 0)` of start and end, and the scale is `16777216`, not their largest
absolute per-axis difference `16777217`. And for a start without `x`, `drawLine` computes
`1 * undefined`, which is `NaN`, where `new Vector3(undefined, ...)` in `drawPolyLine`
takes the default `0`: for the end `(4, 2, 0)` the `x` of the position is `NaN` from
`drawLine` and `2` from `drawPolyLine`. -/
theorem drawLine_rounds_endpoints :
    (∃ d, drawLine sampleDrawer longLine = .ok d
        ∧ d.position = ⟨.fin 8388608, .fin 0, .fin 0⟩
        ∧ d.position ≠ (Point3.mk ((0 + 16777217) / 2) ((0 + 0) / 2) ((0 + 0) / 2)).toVector3
        ∧ d.scale = ⟨.fin 16777216, .fin 16777216, .fin 16777216⟩
        ∧ d.scale ≠ ⟨.fin 16777217, .fin 16777217, .fin 16777217⟩)
    ∧ (∃ d1 d2, drawLine sampleDrawer lineWithoutX = .ok d1
        ∧ drawPolyLine sampleDrawer polylineWithoutX = .ok d2
        ∧ d1.position.x = .nan ∧ d2.position.x = .fin 2
        ∧ (drawLine sampleDrawer lineWithoutX).map (fun d => (d.geometry, d.position, d.scale))
          ≠ (drawPolyLine sampleDrawer polylineWithoutX).map
              (fun d => (d.geometry, d.position, d.scale))) := by
  obtain ⟨d, hd, hp, hs⟩ := drawLine_longLine
  obtain ⟨d1, hd1, hx1⟩ := drawLine_lineWithoutX
  obtain ⟨d2, hd2, hx2⟩ := drawPolyLine_polylineWithoutX
  refine ⟨⟨d, hd, hp, ?_, hs, ?_⟩, d1, d2, hd1, hd2, hx1, hx2, ?_⟩
  · rw [hp]
    intro h
    simp only [Point3.toVector3, Vector3.mk.injEq, JSNum.fin.injEq] at h
    norm_num at h
  · rw [hs]
    intro h
    simp only [Vector3.mk.injEq, JSNum.fin.injEq] at h
    norm_num at h
  · rw [hd1, hd2]
    intro h
    simp only [Except.map, Except.ok.injEq, Prod.mk.injEq] at h
    have := h.2.1
    rw [this, hx2] at hx1
    cases hx1

/-! ## The bulge of the last vertex -/

theorem run_short (arc : Tessellator) (v : List Vertex) (ez : JSNum) (h : v.length < 2) :
    _getPolyLinePoints.run arc v false ez = ⟨[], []⟩ := by
  have : v.length - 1 = 0 := by omega
  simp [_getPolyLinePoints.run, this]

theorem run_arcCalls_closed (arc : Tessellator) (v : List Vertex) (closed : Bool)
    (ez : JSNum) :
    (_getPolyLinePoints.run arc v closed ez).arcCalls
      = (_getPolyLinePoints.run arc v false ez).arcCalls := by
  cases closed <;> simp [_getPolyLinePoints.run]

/-- The calls of the arc tessellator, for every vertex list and either value of
`closed`: one per pair of consecutive vertices whose first vertex carries a bulge. -/
theorem run_arcCalls (arc : Tessellator) (v : List Vertex) (closed : Bool) (ez : JSNum) :
    (_getPolyLinePoints.run arc v closed ez).arcCalls
      = (v.zip v.tail).flatMap (fun p => segmentCalls p.1 p.2) := by
  rw [run_arcCalls_closed]
  by_cases h : 2 ≤ v.length
  · rw [run_open arc v ez h]
  · rw [run_short arc v ez (by omega)]
    match v, h with
    | [], _ => rfl
    | [a], _ => rfl
    | a :: b :: r, h => simp at h

theorem openPolyLine_last (arc : Tessellator) (ez : JSNum) (pre : List Vertex)
    (a1 a2 : Vertex) (hp : a1.point = a2.point) :
    openPolyLine arc ez (pre ++ [a1]) = openPolyLine arc ez (pre ++ [a2]) := by
  induction pre with
  | nil => simp [openPolyLine, hp]
  | cons p pre ih =>
    cases pre with
    | nil =>
      simp only [List.singleton_append, openPolyLine_cons_cons]
      simp [openPolyLine, segmentPoints, hp]
    | cons q r =>
      simp only [List.cons_append, openPolyLine_cons_cons] at ih ⊢
      rw [ih]

theorem segmentCalls_last (pre : List Vertex) (a1 a2 : Vertex) (hp : a1.point = a2.point) :
    ((pre ++ [a1]).zip (pre ++ [a1]).tail).flatMap (fun p => segmentCalls p.1 p.2)
      = ((pre ++ [a2]).zip (pre ++ [a2]).tail).flatMap (fun p => segmentCalls p.1 p.2) := by
  induction pre with
  | nil => simp
  | cons p pre ih =>
    cases pre with
    | nil => simp [segmentCalls, hp]
    | cons q r =>
      simp only [List.cons_append, List.tail_cons, List.zip_cons_cons, List.flatMap_cons]
        at ih ⊢
      rw [ih]

/-- C17: the bulge of the last vertex is never used. For every vertex list of length at
least 1 (a list `pre` followed by a last vertex `a`) and either value of `closed`, the
points and the tessellator calls of `_getPolyLinePoints` are the same whatever the bulge
of the last vertex. The tessellator is called once for each pair of consecutive vertices
`(v[i], v[i+1])`, `i` in `[0, L-2]`, whose first vertex carries a bulge, and never
otherwise. A closed polyline of at least 2 vertices ends with the point of the last
vertex directly followed by the point of the first: the closing segment is straight. -/
theorem last_bulge_unused (arc : Tessellator) (pre : List Vertex) (a : Vertex)
    (b b' : Option JSNum) (closed : Bool) :
    _getPolyLinePoints.run arc (pre ++ [{ a with bulge := b }]) closed
        = _getPolyLinePoints.run arc (pre ++ [{ a with bulge := b' }]) closed
    ∧ (_getPolyLinePoints.run arc (pre ++ [a]) closed).arcCalls
        = ((pre ++ [a]).zip (pre ++ [a]).tail).flatMap (fun p => segmentCalls p.1 p.2)
    ∧ (∀ (f l : Vertex) (mid : List Vertex),
        ∃ init, _getPolyLinePoints arc (f :: (mid ++ [l])) true
          = init ++ [some l.point, some f.point]) := by
  refine ⟨?_, run_arcCalls arc _ closed 1, ?_⟩
  · have hopen : _getPolyLinePoints.run arc (pre ++ [{ a with bulge := b }]) false
        = _getPolyLinePoints.run arc (pre ++ [{ a with bulge := b' }]) false := by
      by_cases h : 2 ≤ (pre ++ [a]).length
      · rw [run_open arc _ 1 (by simpa using h), run_open arc _ 1 (by simpa using h),
          openPolyLine_last arc 1 pre { a with bulge := b } { a with bulge := b' } rfl,
          segmentCalls_last pre { a with bulge := b } { a with bulge := b' } rfl]
      · have hl : ∀ x : Vertex, (pre ++ [x]).length < 2 := by
          intro x
          simp only [List.length_append, List.length_singleton] at h ⊢
          omega
        rw [run_short arc _ 1 (hl _), run_short arc _ 1 (hl _)]
    cases closed with
    | false => exact hopen
    | true =>
      have e : ∀ v : List Vertex, _getPolyLinePoints.run arc v true
          = { (_getPolyLinePoints.run arc v false) with
              points := (_getPolyLinePoints.run arc v false).points
                ++ [(_getPolyLinePoints.run arc v false).points[0]?.join] } := by
        intro v; simp [_getPolyLinePoints.run]
      rw [e, e, hopen]
  · intro f l mid
    obtain ⟨first, hf, _, hc⟩ :=
      getPolyLinePoints_closed_chain arc (f :: (mid ++ [l])) (by simp)
    simp only [List.head?_cons, Option.map_some', Option.some.injEq] at hf
    refine ⟨((((f :: (mid ++ [l])).zip (f :: (mid ++ [l])).tail).flatMap
      (fun p => segmentPoints arc 1 p.1 p.2))).map some, ?_⟩
    rw [hc, ← hf]
    unfold _getPolyLinePoints
    rw [run_open arc _ 1 (by simp)]
    have hl : (f :: (mid ++ [l])).getLast? = some l := by
      rw [← List.cons_append, List.getLast?_append]
      simp
    simp [openPolyLine, hl]

/-! ## The 16-bit index buffer -/

theorem mem_generatePointIndex {α : Type} (points : List α) (i : Nat)
    (h : i ∈ generatePointIndex points) : i < points.length := by
  rw [generatePointIndex_eq_flatMap] at h
  simp only [List.mem_flatMap, List.mem_range, List.mem_cons, List.mem_singleton,
    List.mem_nil_iff, or_false] at h
  obtain ⟨k, hk, rfl | rfl⟩ := h <;> omega

/-- C18: the index buffer of `drawPolyLine` is `new Uint16Array(generatePointIndex(points))`.
Every stored index is the generated index modulo `65536`. For at most `65536` points the
stored indices are the generated ones and each is a valid position in the point
sequence. For more points the segment of the points `65535` and `65536` is stored as
`(65535, 0)`: it joins point `65535` to point `0`, not to its successor. -/
theorem uint16_index {α : Type} (points : List α) :
    (∀ j : Nat, (Uint16Array (generatePointIndex points))[j]?
        = (generatePointIndex points)[j]?.map (fun i => i % 65536))
    ∧ (points.length ≤ 65536 →
        Uint16Array (generatePointIndex points) = generatePointIndex points
        ∧ ∀ i ∈ Uint16Array (generatePointIndex points), i < points.length)
    ∧ (65536 < points.length →
        (generatePointIndex points)[2 * 65535]? = some 65535
        ∧ (generatePointIndex points)[2 * 65535 + 1]? = some 65536
        ∧ (Uint16Array (generatePointIndex points))[2 * 65535]? = some 65535
        ∧ (Uint16Array (generatePointIndex points))[2 * 65535 + 1]? = some 0)
    ∧ (∀ (self : LineEntity) (e : Entity) (d : DrawResult), drawPolyLine self e = .ok d →
        ∃ vertices, e.vertices = some vertices
          ∧ d.geometry.index = some (Uint16Array (generatePointIndex
              (_getPolyLinePoints self.createArcoFromPolyline vertices
                (e.closed.getD false))))) := by
  have hget : ∀ j : Nat, (Uint16Array (generatePointIndex points))[j]?
      = (generatePointIndex points)[j]?.map (fun i => i % 65536) := by
    intro j
    simp [Uint16Array, List.getElem?_map]
  refine ⟨hget, ?_, ?_, fun self e d h => drawPolyLine_index self e d h⟩
  · intro hN
    have hid : Uint16Array (generatePointIndex points) = generatePointIndex points := by
      unfold Uint16Array
      conv_rhs => rw [← List.map_id (generatePointIndex points)]
      apply List.map_congr_left
      intro i hi
      have := mem_generatePointIndex points i hi
      simp only [id]
      exact Nat.mod_eq_of_lt (by omega)
    refine ⟨hid, ?_⟩
    rw [hid]
    exact fun i hi => mem_generatePointIndex points i hi
  · intro hN
    obtain ⟨h1, h2⟩ := (generatePointIndex_eq_flatMap points ▸
      getElem?_flatMap_pair (points.length - 1) 65535 (by omega) :
      (generatePointIndex points)[2 * 65535]? = some 65535
      ∧ (generatePointIndex points)[2 * 65535 + 1]? = some (65535 + 1))
    refine ⟨h1, h2, ?_, ?_⟩
    · rw [hget, h1]; rfl
    · rw [hget, h2]; rfl

/-- C18 on 4 points, where the stored index is the generated one, and on 65537 points,
where the last segment is stored as `(65535, 0)`. -/
theorem uint16_index_witness :
    Uint16Array (generatePointIndex ["a", "b", "c", "d"]) = [0, 1, 1, 2, 2, 3]
    ∧ 65536 < (List.replicate 65537 "a").length
    ∧ (Uint16Array (generatePointIndex (List.replicate 65537 "a")))[2 * 65535 + 1]? = some 0 :=
  ⟨((uint16_index ["a", "b", "c", "d"]).2.1 (by decide)).1.trans (by decide),
   by rw [List.length_replicate]; norm_num,
   ((uint16_index (List.replicate 65537 "a")).2.2.1
      (by rw [List.length_replicate]; norm_num)).2.2.2⟩

/-! ## offsetPoints -/

theorem subEach_nodup {α : Type} (sub : α → α → α) (c : α) (store : Store α)
    (points : List Nat) (hn : points.Nodup) (k : Nat) :
    subEach sub c store points k = if k ∈ points then sub (store k) c else store k := by
  unfold subEach
  induction points generalizing store with
  | nil => simp
  | cons r rest ih =>
    have hr : r ∉ rest := (List.nodup_cons.mp hn).1
    rw [List.foldl_cons, ih _ (List.nodup_cons.mp hn).2]
    by_cases hk : k ∈ rest
    · have hkr : k ≠ r := fun h => hr (h ▸ hk)
      simp [hk, Function.update_noteq hkr]
    · by_cases hkr : k = r
      · subst hkr
        simp [hk]
      · simp [hk, hkr, Function.update_noteq hkr]

theorem map_subEach_nodup {α : Type} (sub : α → α → α) (c : α) (store : Store α)
    (points : List Nat) (hn : points.Nodup) :
    points.map (subEach sub c store points) = (points.map store).map (fun v => sub v c) := by
  rw [List.map_map]
  apply List.map_congr_left
  intro k hk
  rw [subEach_nodup sub c store points hn k, if_pos hk]
  rfl

theorem isBoundingBox2_unique {ps : List Point2} {lo hi lo' hi' : Point2}
    (h : IsBoundingBox2 ps lo hi) (h' : IsBoundingBox2 ps lo' hi') : lo = lo' ∧ hi = hi' := by
  obtain ⟨a1, a2, a3, a4⟩ := h
  obtain ⟨b1, b2, b3, b4⟩ := h'
  cases lo; cases hi; cases lo'; cases hi'
  simp only [Point2.mk.injEq]
  exact ⟨⟨isMinOf_unique a1 b1, isMinOf_unique a3 b3⟩,
    ⟨isMaxOf_unique a2 b2, isMaxOf_unique a4 b4⟩⟩

theorem foldl_expandByPoint2_fin (ps qs : List Point2) (lo hi : Point2)
    (h : IsBoundingBox2 qs lo hi) :
    ∃ lo' hi', (ps.map Point2.toVector2).foldl Box2.expandByPoint
        ⟨lo.toVector2, hi.toVector2⟩ = ⟨lo'.toVector2, hi'.toVector2⟩
      ∧ IsBoundingBox2 (qs ++ ps) lo' hi' := by
  induction ps generalizing qs lo hi with
  | nil => exact ⟨lo, hi, rfl, by simpa using h⟩
  | cons p ps ih =>
    obtain ⟨a1, a2, a3, a4⟩ := h
    have hb : IsBoundingBox2 (qs ++ [p]) ⟨min lo.x p.x, min lo.y p.y⟩
        ⟨max hi.x p.x, max hi.y p.y⟩ := by
      unfold IsBoundingBox2
      simp only [List.map_append, List.map_cons, List.map_nil]
      exact ⟨isMinOf_append_singleton a1 _, isMaxOf_append_singleton a2 _,
        isMinOf_append_singleton a3 _, isMaxOf_append_singleton a4 _⟩
    obtain ⟨lo', hi', e, hb'⟩ := ih (qs ++ [p]) _ _ hb
    refine ⟨lo', hi', ?_, by simpa using hb'⟩
    have hstep : Box2.expandByPoint ⟨lo.toVector2, hi.toVector2⟩ p.toVector2
        = ⟨(Point2.mk (min lo.x p.x) (min lo.y p.y)).toVector2,
           (Point2.mk (max hi.x p.x) (max hi.y p.y)).toVector2⟩ := by
      simp [Box2.expandByPoint, Vector2.min, Vector2.max, Point2.toVector2, mathMin_fin,
        mathMax_fin]
    rw [List.map_cons, List.foldl_cons, hstep, e]

theorem setFromPoints2_fin {ps : List Point2} {lo hi : Point2}
    (h : IsBoundingBox2 ps lo hi) :
    Box2.setFromPoints (ps.map Point2.toVector2) = ⟨lo.toVector2, hi.toVector2⟩ := by
  cases ps with
  | nil => exact absurd h.1.1 (by simp)
  | cons p ps =>
    have h0 : Box2.expandByPoint Box2.makeEmpty p.toVector2 = ⟨p.toVector2, p.toVector2⟩ := by
      simp [Box2.expandByPoint, Box2.makeEmpty, Vector2.min, Vector2.max, Point2.toVector2,
        mathMin_pinf_fin, mathMax_ninf_fin]
    have hp : IsBoundingBox2 [p] p p := by
      simp [IsBoundingBox2, IsMinOf, IsMaxOf]
    obtain ⟨lo', hi', e, hb⟩ := foldl_expandByPoint2_fin ps [p] p p hp
    obtain ⟨e1, e2⟩ := isBoundingBox2_unique h hb
    unfold Box2.setFromPoints
    rw [List.map_cons, List.foldl_cons, h0, e, e1, e2]

theorem getCenter2_fin {ps : List Point2} {lo hi : Point2} (h : IsBoundingBox2 ps lo hi) :
    Box2.getCenter ⟨lo.toVector2, hi.toVector2⟩
      = (Point2.mk ((lo.x + hi.x) / 2) ((lo.y + hi.y) / 2)).toVector2 := by
  obtain ⟨a1, a2, a3, a4⟩ := h
  have he : Box2.isEmpty ⟨lo.toVector2, hi.toVector2⟩ = false := by
    simp [Box2.isEmpty, Point2.toVector2, isMinOf_le_max a1 a2, isMinOf_le_max a3 a4]
  unfold Box2.getCenter
  rw [he]
  simp [Vector2.addVectors, Vector2.multiplyScalar, Point2.toVector2, div_eq_mul_inv]

theorem offsetVec3Points_fin (store : Store Vector3) (points : List Nat) (ps : List Point3)
    (lo hi : Point3) (hn : points.Nodup)
    (hm : points.map store = ps.map Point3.toVector3) (hb : IsBoundingBox ps lo hi) :
    (offsetVec3Points store points).2 = (boxCenter lo hi).toVector3
    ∧ points.map (offsetVec3Points store points).1
        = ps.map (fun p => (translated (boxCenter lo hi) p).toVector3) := by
  have hc : (offsetVec3Points store points).2 = (boxCenter lo hi).toVector3 := by
    simp only [offsetVec3Points, hm, setFromPoints_fin hb, getCenter_fin hb]
  refine ⟨hc, ?_⟩
  have : (offsetVec3Points store points).1
      = subEach Vector3.sub (offsetVec3Points store points).2 store points := rfl
  rw [this, map_subEach_nodup _ _ _ _ hn, hm, hc, List.map_map]
  apply List.map_congr_left
  intro p _
  simp [Vector3.sub, Point3.toVector3, translated]

theorem offsetVec2Points_fin (store : Store Vector2) (points : List Nat) (ps : List Point2)
    (lo hi : Point2) (hn : points.Nodup)
    (hm : points.map store = ps.map Point2.toVector2) (hb : IsBoundingBox2 ps lo hi) :
    (offsetVec2Points store points).2
        = ⟨.fin ((lo.x + hi.x) / 2), .fin ((lo.y + hi.y) / 2), .fin 0⟩
    ∧ points.map (offsetVec2Points store points).1
        = ps.map (fun p =>
            (translated2 ⟨(lo.x + hi.x) / 2, (lo.y + hi.y) / 2⟩ p).toVector2) := by
  have hcen : Box2.getCenter (Box2.setFromPoints (points.map store))
      = (Point2.mk ((lo.x + hi.x) / 2) ((lo.y + hi.y) / 2)).toVector2 := by
    rw [hm, setFromPoints2_fin hb, getCenter2_fin hb]
  refine ⟨?_, ?_⟩
  · simp only [offsetVec2Points, hcen]
    simp [Vector3.new, orUndefined, Point2.toVector2]
  · have : (offsetVec2Points store points).1
        = subEach Vector2.sub (Box2.getCenter (Box2.setFromPoints (points.map store)))
            store points := rfl
    rw [this, hcen, map_subEach_nodup _ _ _ _ hn, hm, List.map_map]
    apply List.map_congr_left
    intro p _
    simp [Vector2.sub, Point2.toVector2, translated2]

/-- C19, as amended: for every non-empty array of distinct 3D point objects with finite
coordinates, `offsetVec3Points` returns the center `c` of the points' axis-aligned
bounding box and replaces every point `p` by `p - c`; afterwards the bounding box of the
points is centered at the origin, and adding `c` back to each point restores the
original points. `offsetPoints` gives the same result on such an array. On a non-empty
array of distinct 2D point objects `offsetVec2Points`, and `offsetPoints`, return
`(cx, cy, 0)` for the center `(cx, cy)` of the 2D bounding box and replace every point
`p` by `p - (cx, cy)`. -/
theorem offsetPoints_spec :
    (∀ (store : Store Vector3) (points : List Nat) (ps : List Point3) (lo hi : Point3),
      points.Nodup → points.map store = ps.map Point3.toVector3 → IsBoundingBox ps lo hi →
      (offsetVec3Points store points).2 = (boxCenter lo hi).toVector3
      ∧ points.map (offsetVec3Points store points).1
          = ps.map (fun p => (translated (boxCenter lo hi) p).toVector3)
      ∧ IsBoundingBox (ps.map (translated (boxCenter lo hi)))
          (translated (boxCenter lo hi) lo) (translated (boxCenter lo hi) hi)
      ∧ boxCenter (translated (boxCenter lo hi) lo) (translated (boxCenter lo hi) hi)
          = ⟨0, 0, 0⟩
      ∧ (points.map (offsetVec3Points store points).1).map
            (fun v => Vector3.addVectors v (offsetVec3Points store points).2)
          = points.map store
      ∧ offsetPoints (.vec3 store points)
          = .ok (.vec3 (offsetVec3Points store points).1 points,
              (offsetVec3Points store points).2))
    ∧ (∀ (store : Store Vector2) (points : List Nat) (ps : List Point2) (lo hi : Point2),
      points.Nodup → points.map store = ps.map Point2.toVector2 → IsBoundingBox2 ps lo hi →
      (offsetVec2Points store points).2
          = ⟨.fin ((lo.x + hi.x) / 2), .fin ((lo.y + hi.y) / 2), .fin 0⟩
      ∧ points.map (offsetVec2Points store points).1
          = ps.map (fun p =>
              (translated2 ⟨(lo.x + hi.x) / 2, (lo.y + hi.y) / 2⟩ p).toVector2)
      ∧ offsetPoints (.vec2 store points)
          = .ok (.vec2 (offsetVec2Points store points).1 points,
              (offsetVec2Points store points).2)) := by
  refine ⟨?_, ?_⟩
  · intro store points ps lo hi hn hm hb
    obtain ⟨h1, h2⟩ := offsetVec3Points_fin store points ps lo hi hn hm hb
    refine ⟨h1, h2, ?_, ?_, ?_, ?_⟩
    · exact isBoundingBox_map hb (fun x => x - (boxCenter lo hi).x)
        (fun x => x - (boxCenter lo hi).y) (fun x => x - (boxCenter lo hi).z)
        (fun _ _ h => sub_le_sub_right h _) (fun _ _ h => sub_le_sub_right h _)
        (fun _ _ h => sub_le_sub_right h _)
    · simp only [boxCenter, translated, Point3.mk.injEq]
      refine ⟨?_, ?_, ?_⟩ <;> ring
    · rw [h2, h1, hm, List.map_map]
      apply List.map_congr_left
      intro p _
      simp [Vector3.addVectors, Point3.toVector3, translated]
    · have hne : points ≠ [] := by
        intro h0
        rw [h0] at hm
        have : ps = [] := by simpa using hm.symm
        rw [this] at hb
        exact absurd hb.1.1 (by simp)
      cases points with
      | nil => exact absurd rfl hne
      | cons r rest => rfl
  · intro store points ps lo hi hn hm hb
    obtain ⟨h1, h2⟩ := offsetVec2Points_fin store points ps lo hi hn hm hb
    refine ⟨h1, h2, ?_⟩
    have hne : points ≠ [] := by
      intro h0
      rw [h0] at hm
      have : ps = [] := by simpa using hm.symm
      rw [this] at hb
      exact absurd hb.1.1 (by simp)
    cases points with
    | nil => exact absurd rfl hne
    | cons r rest => rfl

/-- C19, as amended, on the array of the two objects `(0, 0, 0)` and `(4, 2, 0)`: the
center `(2, 1, 0)` is returned and the points become `(-2, -1, 0)` and `(2, 1, 0)`; and
on the array of the two objects `(0, 0)` and `(4, 2)` of the plane. -/
theorem offsetPoints_spec_witness :
    ((offsetVec3Points sampleStore [0, 1]).2 = ⟨.fin 2, .fin 1, .fin 0⟩
      ∧ [0, 1].map (offsetVec3Points sampleStore [0, 1]).1
          = [⟨.fin (-2), .fin (-1), .fin 0⟩, ⟨.fin 2, .fin 1, .fin 0⟩])
    ∧ ((offsetVec2Points sampleStore2 [0, 1]).2 = ⟨.fin 2, .fin 1, .fin 0⟩
      ∧ [0, 1].map (offsetVec2Points sampleStore2 [0, 1]).1
          = [⟨.fin (-2), .fin (-1)⟩, ⟨.fin 2, .fin 1⟩]) := by
  have h3 := offsetPoints_spec.1 sampleStore [0, 1] samplePoints ⟨0, 0, 0⟩ ⟨4, 2, 0⟩
    (by decide) rfl samplePoints_box
  have h2 := offsetPoints_spec.2 sampleStore2 [0, 1] [⟨0, 0⟩, ⟨4, 2⟩] ⟨0, 0⟩ ⟨4, 2⟩
    (by decide) rfl (by simp [IsBoundingBox2, IsMinOf, IsMaxOf])
  rw [samplePoints_center] at h3
  refine ⟨⟨h3.1, h3.2.1.trans ?_⟩, ⟨h2.1.trans ?_, h2.2.1.trans ?_⟩⟩
  · norm_num [samplePoints, translated, Point3.toVector3]
  · norm_num
  · norm_num [translated2, Point2.toVector2]

/-- C19 as stated fails on an array in which an object occurs twice. On the array
`[A, B, A]` of the objects `A = (0, 0, 0)` and `B = (4, 2, 0)` the center `(2, 1, 0)` is
subtracted from `A` twice: the array is left as `[(-4,-2,0), (2,1,0), (-4,-2,0)]`, not as
every point minus the center, `[(-2,-1,0), (2,1,0), (-2,-1,0)]`. -/
theorem offsetVec3Points_repeated_object :
    (offsetVec3Points sampleStore [0, 1, 0]).2 = ⟨.fin 2, .fin 1, .fin 0⟩
    ∧ [0, 1, 0].map (offsetVec3Points sampleStore [0, 1, 0]).1
        = [⟨.fin (-4), .fin (-2), .fin 0⟩, ⟨.fin 2, .fin 1, .fin 0⟩,
           ⟨.fin (-4), .fin (-2), .fin 0⟩]
    ∧ [0, 1, 0].map (offsetVec3Points sampleStore [0, 1, 0]).1
        ≠ ([0, 1, 0].map sampleStore).map
            (fun p => Vector3.sub p (offsetVec3Points sampleStore [0, 1, 0]).2) := by
  have hbox : IsBoundingBox [⟨0, 0, 0⟩, ⟨4, 2, 0⟩, ⟨0, 0, 0⟩] ⟨0, 0, 0⟩ ⟨4, 2, 0⟩ := by
    simp [IsBoundingBox, IsMinOf, IsMaxOf]
  have hc : (offsetVec3Points sampleStore [0, 1, 0]).2 = ⟨.fin 2, .fin 1, .fin 0⟩ := by
    have hm : [0, 1, 0].map sampleStore
        = [(⟨0, 0, 0⟩ : Point3), ⟨4, 2, 0⟩, ⟨0, 0, 0⟩].map Point3.toVector3 := rfl
    simp only [offsetVec3Points, hm, setFromPoints_fin hbox, getCenter_fin hbox]
    norm_num [boxCenter, Point3.toVector3]
  have hs : [0, 1, 0].map (offsetVec3Points sampleStore [0, 1, 0]).1
      = [⟨.fin (-4), .fin (-2), .fin 0⟩, ⟨.fin 2, .fin 1, .fin 0⟩,
         ⟨.fin (-4), .fin (-2), .fin 0⟩] := by
    have : (offsetVec3Points sampleStore [0, 1, 0]).1
        = subEach Vector3.sub (offsetVec3Points sampleStore [0, 1, 0]).2 sampleStore
            [0, 1, 0] := rfl
    rw [this, hc]
    simp [subEach, Function.update, sampleStore, Vector3.sub]
    norm_num
  refine ⟨hc, hs, ?_⟩
  rw [hs, hc]
  simp [sampleStore, Vector3.sub]

end DxfViewer
